import Mathlib

/-!
The Govee API client (`govee/client.go`, `govee/types.go`).

A shallow embedding of the client: the request pipeline (`New`, `doRequest`,
`resolveHTTPError`, `GetDevices`, `GetDeviceState`, `Close`) and the JSON
codec that the struct tags of `types.go` drive through `encoding/json`.

Conventions of the embedding.

* A Go `string` of the data model of `types.go` is a `GoString`: its bytes,
  which need not be well-formed UTF-8.  `encoding/json` reads such a string
  rune by rune (`utf8.DecodeRuneInString`) and writes `\ufffd` for every
  ill-formed byte.  A JSON text (the body of a request or of a response) and
  the texts that the client only copies or compares (API key, status line,
  URL, header values, error texts) are Lean `String`s, that is sequences of
  Unicode scalar values.
* A Go slice `[]T` of the data model is a `Slice T`: the elements within its
  length and the elements of its backing array past the length, which
  `json.Unmarshal` decodes into when it grows the slice again.  The nil slice
  and the empty slice both have no elements.  A `[]interface{}` is made afresh
  by the decoder and is a `List`.  A Go pointer `*T` is an `Option T`.
* A Go `int` is an `Int` restricted to the 64-bit range where the decoder
  checks it.  A Go `error` is the text that its `Error()` method returns.
* A Go function returning `(T, error)` yields `Outcome.returned v err`, and a
  run-time panic yields `Outcome.panicked`.
* The standard library (`encoding/json`, `net/http`, `net/url`, `fmt`, `io`)
  is outside the repository; the parts of it that the client calls are
  modelled here after their documented behaviour and named after the Go
  function they stand for.
-/

namespace Govee

/-! ## JSON values and the `encoding/json` scanner -/

/-- A JSON text after scanning: numbers keep their literal, strings are
unquoted, objects keep their members in source order (duplicates included). -/
inductive JSON where
  | null : JSON
  | bool (b : Bool) : JSON
  | num (lit : String) : JSON
  | str (s : String) : JSON
  | arr (elems : List JSON) : JSON
  | obj (members : List (String × JSON)) : JSON
  deriving Repr

/-- The scanner's `maxNestingDepth`: arrays and objects nest at most this deep. -/
def maxNestingDepth : Nat := 10000

/-- JSON insignificant whitespace (`isSpace` of the scanner). -/
def isSpace (c : Char) : Bool :=
  c == ' ' || c == '\t' || c == '\r' || c == '\n'

/-- Drop leading whitespace. -/
def skipSpace : List Char → List Char
  | [] => []
  | c :: cs => if isSpace c then skipSpace cs else c :: cs

/-- Value of one hexadecimal digit. -/
def hexVal (c : Char) : Option Nat :=
  if '0' ≤ c ∧ c ≤ '9' then some (c.toNat - 48)
  else if 'a' ≤ c ∧ c ≤ 'f' then some (c.toNat - 87)
  else if 'A' ≤ c ∧ c ≤ 'F' then some (c.toNat - 55)
  else none

/-- The four hexadecimal digits of a `\uXXXX` escape. -/
def hex4 (a b c d : Char) : Option Nat :=
  match hexVal a, hexVal b, hexVal c, hexVal d with
  | some x, some y, some z, some w => some (((x * 16 + y) * 16 + z) * 16 + w)
  | _, _, _, _ => none

/-- The replacement character U+FFFD. -/
def replacementChar : Char := Char.ofNat 0xFFFD

/-- Whether a code unit is a UTF-16 surrogate (`utf16.IsSurrogate`). -/
def isSurrogate (r : Nat) : Bool := 0xD800 ≤ r && r < 0xE000

/-- Combine a surrogate pair (`utf16.DecodeRune`); U+FFFD when it is not a
high surrogate followed by a low one. -/
def decodeSurrogates (r1 r2 : Nat) : Char :=
  if 0xD800 ≤ r1 ∧ r1 < 0xDC00 ∧ 0xDC00 ≤ r2 ∧ r2 < 0xE000 then
    Char.ofNat ((r1 - 0xD800) * 0x400 + (r2 - 0xDC00) + 0x10000)
  else replacementChar

/-- The character a single-letter escape stands for. -/
def unescapeChar (e : Char) : Option Char :=
  if e = '"' then some '"'
  else if e = '\\' then some '\\'
  else if e = '/' then some '/'
  else if e = 'b' then some (Char.ofNat 8)
  else if e = 'f' then some (Char.ofNat 12)
  else if e = 'n' then some '\n'
  else if e = 'r' then some '\r'
  else if e = 't' then some '\t'
  else none

/-- The four hexadecimal digits at the front of the input (after `\u`). -/
def hexPrefix (cs : List Char) : Option Nat :=
  match cs with
  | a :: b :: c :: d :: _ => hex4 a b c d
  | _ => none

/-- The value of a `\uXXXX` escape at the front of the input (`getu4`). -/
def getu4 (cs : List Char) : Option Nat :=
  match cs with
  | b :: u :: rest => if b = '\\' ∧ u = 'u' then hexPrefix rest else none
  | _ => none

/-- Prepend raw characters to the literal that the scanner returns. -/
def consRaw (pre : List Char) : Option (List Char × List Char) → Option (List Char × List Char)
  | some (s, rest) => some (pre ++ s, rest)
  | none => none

/-- Scan a string literal after its opening quote (the scanner states
`stateInString`, `stateInStringEsc`, `stateInStringEscU`...): the raw text up
to the closing quote, and the input after it.  A control character below
U+0020 is refused, a backslash must be followed by one of `"\/bfnrt` or by `u`
and four hexadecimal digits. -/
def scanString : List Char → Option (List Char × List Char)
  | [] => none
  | c :: rest =>
    if c = '"' then some ([], rest)
    else if c = '\\' then
      match rest with
      | [] => none
      | e :: rest1 =>
        if e = 'u' then
          match hexPrefix rest1 with
          | some _ => consRaw [c, e] (scanString rest1)
          | none => none
        else
          match unescapeChar e with
          | some _ => consRaw [c, e] (scanString rest1)
          | none => none
    else if c.toNat < 0x20 then none
    else consRaw [c] (scanString rest)

/-- Decode the raw text of a string literal (`unquoteBytes`): escapes are
replaced by the characters they stand for, a `\uXXXX` escape of a surrogate
that is followed by a second escape forming a valid pair with it becomes one
character, and any other surrogate escape becomes U+FFFD.  `fuel` bounds the
number of steps; the length of the text is enough. -/
def unquoteAux : Nat → List Char → Option (List Char)
  | _, [] => some []
  | 0, _ :: _ => none
  | fuel + 1, c :: rest =>
    if c = '\\' then
      match rest with
      | [] => none
      | e :: rest1 =>
        if e = 'u' then
          match hexPrefix rest1 with
          | none => none
          | some rr =>
            if isSurrogate rr then
              match getu4 (rest1.drop 4) with
              | some rr1 =>
                if decodeSurrogates rr rr1 = replacementChar then
                  (unquoteAux fuel (rest1.drop 4)).map (List.cons replacementChar)
                else
                  (unquoteAux fuel (rest1.drop 10)).map (List.cons (decodeSurrogates rr rr1))
              | none => (unquoteAux fuel (rest1.drop 4)).map (List.cons replacementChar)
            else (unquoteAux fuel (rest1.drop 4)).map (List.cons (Char.ofNat rr))
        else
          match unescapeChar e with
          | some ch => (unquoteAux fuel rest1).map (List.cons ch)
          | none => none
    else (unquoteAux fuel rest).map (List.cons c)

/-- Decode the raw text of a string literal. -/
def unquote (raw : List Char) : Option (List Char) := unquoteAux raw.length raw

/-- Scan a string literal after its opening quote and unquote it: the string
and the input after the closing quote. -/
def parseStringBody (cs : List Char) : Option (List Char × List Char) :=
  match scanString cs with
  | some (raw, rest) =>
    match unquote raw with
    | some s => some (s, rest)
    | none => none
  | none => none

/-- Split off the longest prefix of decimal digits. -/
def takeDigits : List Char → List Char × List Char
  | [] => ([], [])
  | c :: cs =>
    if c.isDigit then ((takeDigits cs).1.cons c, (takeDigits cs).2) else ([], c :: cs)

/-- Scan the optional exponent of a number literal: `e` or `E`, an optional
sign, and at least one digit. -/
def scanExponent (cs : List Char) : Option (List Char × List Char) :=
  match cs with
  | e :: rest =>
    if e = 'e' ∨ e = 'E' then
      match rest with
      | s :: rest1 =>
        if s = '+' ∨ s = '-' then
          if (takeDigits rest1).1 = [] then none
          else some (e :: s :: (takeDigits rest1).1, (takeDigits rest1).2)
        else
          if (takeDigits rest).1 = [] then none
          else some (e :: (takeDigits rest).1, (takeDigits rest).2)
      | [] => none
    else some ([], cs)
  | [] => some ([], cs)

/-- Scan the optional fraction of a number literal (a point and at least one
digit), then the exponent. -/
def scanFraction (cs : List Char) : Option (List Char × List Char) :=
  match cs with
  | c :: rest =>
    if c = '.' then
      if (takeDigits rest).1 = [] then none
      else
        match scanExponent (takeDigits rest).2 with
        | some (ex, r1) => some (c :: (takeDigits rest).1 ++ ex, r1)
        | none => none
    else scanExponent cs
  | [] => scanExponent cs

/-- Scan the digits of a number literal after the optional minus sign: a
single `0` or a non-zero digit followed by digits, then fraction and exponent. -/
def scanUnsigned (cs : List Char) : Option (List Char × List Char) :=
  match cs with
  | c :: rest =>
    if c = '0' then
      match scanFraction rest with
      | some (t, r) => some (c :: t, r)
      | none => none
    else if c.isDigit then
      match scanFraction (takeDigits rest).2 with
      | some (t, r) => some (c :: (takeDigits rest).1 ++ t, r)
      | none => none
    else none
  | [] => none

/-- Scan a number literal of the JSON grammar; the literal and the rest. -/
def scanNumber (cs : List Char) : Option (List Char × List Char) :=
  match cs with
  | c :: rest =>
    if c = '-' then
      match scanUnsigned rest with
      | some (t, r) => some (c :: t, r)
      | none => none
    else scanUnsigned cs
  | [] => none

/-- Strip a fixed word (`true`, `false`, `null`) from the front of the input. -/
def stripWord : List Char → List Char → Option (List Char)
  | [], cs => some cs
  | _ :: _, [] => none
  | w :: ws, c :: cs => if w = c then stripWord ws cs else none

mutual
/-- Scan one JSON value with leading whitespace; `depth` counts the arrays
and objects that are open, `fuel` bounds the recursion. -/
def parseValue : Nat → Nat → List Char → Option (JSON × List Char)
  | 0, _, _ => none
  | fuel + 1, depth, cs =>
    match skipSpace cs with
    | [] => none
    | c :: rest =>
      if c = '{' then
        if maxNestingDepth ≤ depth then none
        else
          match skipSpace rest with
          | [] => none
          | c1 :: rest1 =>
            if c1 = '}' then some (JSON.obj [], rest1)
            else
              match parseMembers fuel (depth + 1) rest with
              | some (ms, rest2) => some (JSON.obj ms, rest2)
              | none => none
      else if c = '[' then
        if maxNestingDepth ≤ depth then none
        else
          match skipSpace rest with
          | [] => none
          | c1 :: rest1 =>
            if c1 = ']' then some (JSON.arr [], rest1)
            else
              match parseElems fuel (depth + 1) rest with
              | some (es, rest2) => some (JSON.arr es, rest2)
              | none => none
      else if c = '"' then
        match parseStringBody rest with
        | some (s, rest1) => some (JSON.str (String.mk s), rest1)
        | none => none
      else if c = 't' then
        match stripWord "rue".data rest with
        | some rest1 => some (JSON.bool true, rest1)
        | none => none
      else if c = 'f' then
        match stripWord "alse".data rest with
        | some rest1 => some (JSON.bool false, rest1)
        | none => none
      else if c = 'n' then
        match stripWord "ull".data rest with
        | some rest1 => some (JSON.null, rest1)
        | none => none
      else
        match scanNumber (c :: rest) with
        | some (lit, rest1) => some (JSON.num (String.mk lit), rest1)
        | none => none
/-- Scan the elements of a non-empty array up to and including `]`. -/
def parseElems : Nat → Nat → List Char → Option (List JSON × List Char)
  | 0, _, _ => none
  | fuel + 1, depth, cs =>
    match parseValue fuel depth cs with
    | none => none
    | some (v, rest) =>
      match skipSpace rest with
      | c :: rest1 =>
        if c = ',' then
          match parseElems fuel depth rest1 with
          | some (vs, rest2) => some (v :: vs, rest2)
          | none => none
        else if c = ']' then some ([v], rest1)
        else none
      | [] => none
/-- Scan the members of a non-empty object up to and including `}`. -/
def parseMembers : Nat → Nat → List Char → Option (List (String × JSON) × List Char)
  | 0, _, _ => none
  | fuel + 1, depth, cs =>
    match skipSpace cs with
    | q :: rest =>
      if q = '"' then
        match parseStringBody rest with
        | none => none
        | some (k, rest1) =>
          match skipSpace rest1 with
          | col :: rest2 =>
            if col = ':' then
              match parseValue fuel depth rest2 with
              | none => none
              | some (v, rest3) =>
                match skipSpace rest3 with
                | c :: rest4 =>
                  if c = ',' then
                    match parseMembers fuel depth rest4 with
                    | some (ms, rest5) => some ((String.mk k, v) :: ms, rest5)
                    | none => none
                  else if c = '}' then some ([(String.mk k, v)], rest4)
                  else none
                | [] => none
            else none
          | [] => none
      else none
    | [] => none
end

/-- Scan a whole JSON text (`checkValid` followed by the scan of the decoder):
one value, surrounded by optional whitespace, and nothing after it. -/
def parseJSON (text : String) : Option JSON :=
  match parseValue (2 * text.data.length + 2) 0 text.data with
  | some (v, rest) =>
    match skipSpace rest with
    | [] => some v
    | _ :: _ => none
  | none => none

/-! ## Go strings and UTF-8 (`unicode/utf8`) -/

/-- A Go `string` of the data model: its bytes (numbers below 256).  The bytes
need not be well-formed UTF-8. -/
structure GoString where
  bytes : List Nat
  deriving Repr, DecidableEq

/-- Model of `utf8.AppendRune`: the UTF-8 encoding of one Unicode scalar value. -/
def utf8EncodeChar (c : Char) : List Nat :=
  if c.toNat < 0x80 then [c.toNat]
  else if c.toNat < 0x800 then [0xC0 + c.toNat / 64, 0x80 + c.toNat % 64]
  else if c.toNat < 0x10000 then
    [0xE0 + c.toNat / 4096, 0x80 + c.toNat / 64 % 64, 0x80 + c.toNat % 64]
  else
    [0xF0 + c.toNat / 262144, 0x80 + c.toNat / 4096 % 64, 0x80 + c.toNat / 64 % 64,
      0x80 + c.toNat % 64]

/-- The UTF-8 encoding of a text. -/
def utf8Encode : List Char → List Nat
  | [] => []
  | c :: cs => utf8EncodeChar c ++ utf8Encode cs

/-- The Go string that holds a text: a string literal of the source, or a JSON
string after decoding. -/
def goString (s : String) : GoString := ⟨utf8Encode s.data⟩

/-- Whether a byte is a UTF-8 continuation byte. -/
def isContinuation (b : Nat) : Bool := 0x80 ≤ b && b ≤ 0xBF

/-- Model of `utf8.DecodeRuneInString`: the rune at the front of the bytes and
the number of bytes it takes.  A byte that starts no well-formed sequence (a
stray continuation byte, an overlong or truncated form, an encoded surrogate,
a value above U+10FFFF) gives the rune error, here `none`, of width 1. -/
def decodeRune : List Nat → Option Char × Nat
  | [] => (none, 0)
  | b0 :: rest =>
    if b0 < 0x80 then (some (Char.ofNat b0), 1)
    else if 0xC2 ≤ b0 ∧ b0 ≤ 0xDF then
      match rest with
      | b1 :: _ =>
        if isContinuation b1 then (some (Char.ofNat ((b0 - 0xC0) * 64 + (b1 - 0x80))), 2)
        else (none, 1)
      | [] => (none, 1)
    else if 0xE0 ≤ b0 ∧ b0 ≤ 0xEF then
      match rest with
      | b1 :: b2 :: _ =>
        if (if b0 = 0xE0 then 0xA0 else 0x80) ≤ b1 ∧ b1 ≤ (if b0 = 0xED then 0x9F else 0xBF) ∧
            isContinuation b2 then
          (some (Char.ofNat ((b0 - 0xE0) * 4096 + (b1 - 0x80) * 64 + (b2 - 0x80))), 3)
        else (none, 1)
      | _ => (none, 1)
    else if 0xF0 ≤ b0 ∧ b0 ≤ 0xF4 then
      match rest with
      | b1 :: b2 :: b3 :: _ =>
        if (if b0 = 0xF0 then 0x90 else 0x80) ≤ b1 ∧ b1 ≤ (if b0 = 0xF4 then 0x8F else 0xBF) ∧
            isContinuation b2 ∧ isContinuation b3 then
          (some (Char.ofNat
            ((b0 - 0xF0) * 262144 + (b1 - 0x80) * 4096 + (b2 - 0x80) * 64 + (b3 - 0x80))), 4)
        else (none, 1)
      | _ => (none, 1)
    else (none, 1)

/-- The runes of a byte string in order, as a loop over
`utf8.DecodeRuneInString` meets them; `none` stands for an ill-formed byte.
`fuel` bounds the number of runes; the number of bytes is enough. -/
def runesAux : Nat → List Nat → List (Option Char)
  | 0, _ => []
  | _ + 1, [] => []
  | fuel + 1, b :: bs =>
    (decodeRune (b :: bs)).1 :: runesAux fuel ((b :: bs).drop (decodeRune (b :: bs)).2)

/-- The runes of a Go string. -/
def GoString.runes (s : GoString) : List (Option Char) := runesAux s.bytes.length s.bytes

/-- A Go slice `[]T` of the data model: the elements within its length, and
the elements that its backing array holds past the length. -/
structure Slice (α : Type) where
  elems : List α
  spare : List α
  deriving Repr, DecidableEq

/-- The nil slice. -/
def Slice.nil {α : Type} : Slice α := ⟨[], []⟩

/-- A slice with the given elements and no capacity past them. -/
def Slice.ofList {α : Type} (l : List α) : Slice α := ⟨l, []⟩

/-! ## Go values of the data model (`types.go`) -/

/-- The value an `interface{}` holds after `json.Unmarshal`: `nil`, `bool`,
`float64`, `string`, `[]interface{}` or `map[string]interface{}`.  `F` is the
type of `float64` values.  A map is its list of entries in strictly ascending
key order (the order in which `json.Marshal` writes them). -/
inductive GoValue (F : Type) where
  | nil : GoValue F
  | bool (b : Bool) : GoValue F
  | float64 (f : F) : GoValue F
  | string (s : String) : GoValue F
  | slice (elems : List (GoValue F)) : GoValue F
  | map (entries : List (String × GoValue F)) : GoValue F
  deriving Repr

/-- Source type `DevicesType` (a named `string`). -/
abbrev DevicesType := GoString

/-- Source type `DataType` (a named `string`). -/
abbrev DataType := GoString

/-- Source type `ApiResponseStatus`. -/
structure ApiResponseStatus where
  RequestId : GoString
  Code : Int
  Message : GoString
  deriving Repr, DecidableEq

/-- Source type `Option` (renamed: the name is taken in Lean). -/
structure CapabilityOption where
  Name : GoString
  Value : Int
  deriving Repr, DecidableEq

/-- Source type `Range`. -/
structure Range where
  Min : Int
  Max : Int
  Precision : Int
  deriving Repr, DecidableEq

/-- Source type `Field`. -/
structure Field where
  FieldName : GoString
  DataType : DataType
  Options : Slice CapabilityOption
  Range : Range
  Required : Bool
  deriving Repr, DecidableEq

/-- Source type `Parameter`. -/
structure Parameter where
  Unit : GoString
  DataType : DataType
  Options : Slice CapabilityOption
  Range : Range
  Fields : Slice Field
  deriving Repr, DecidableEq

/-- Source type `State`: `Value` is an `interface{}`. -/
structure State (F : Type) where
  Value : GoValue F
  deriving Repr

/-- Source type `Capability` (field `Type` is written `Type_`). -/
structure Capability (F : Type) where
  Type_ : DevicesType
  Instance : GoString
  Parameters : Parameter
  State : State F
  deriving Repr

/-- Source type `DeviceInfo` (field `Type` is written `Type_`). -/
structure DeviceInfo (F : Type) where
  SKU : GoString
  Device : GoString
  DeviceName : GoString
  Type_ : GoString
  Capabilities : Slice (Capability F)
  deriving Repr

/-- Source type `DiscoveryApiResponse`; `Status` is the embedded
`ApiResponseStatus`. -/
structure DiscoveryApiResponse (F : Type) where
  Status : ApiResponseStatus
  Data : Slice (DeviceInfo F)
  deriving Repr

/-- Source type `DeviceStateApiResponse`; `Payload` is a `*DeviceInfo`. -/
structure DeviceStateApiResponse (F : Type) where
  Status : ApiResponseStatus
  Payload : Option (DeviceInfo F)
  deriving Repr

/-- Source type `DeviceStatePayload`. -/
structure DeviceStatePayload where
  SKU : GoString
  Device : GoString
  deriving Repr, DecidableEq

/-- Source type `RequestPayload`. -/
structure RequestPayload where
  RequestId : GoString
  Payload : DeviceStatePayload
  deriving Repr, DecidableEq

/-- Zero value of `ApiResponseStatus`. -/
def ApiResponseStatus.zero : ApiResponseStatus := ⟨⟨[]⟩, 0, ⟨[]⟩⟩

/-- Zero value of `Option`. -/
def CapabilityOption.zero : CapabilityOption := ⟨⟨[]⟩, 0⟩

/-- Zero value of `Range`. -/
def Range.zero : Range := ⟨0, 0, 0⟩

/-- Zero value of `Field`. -/
def Field.zero : Field := ⟨⟨[]⟩, ⟨[]⟩, Slice.nil, Range.zero, false⟩

/-- Zero value of `Parameter`. -/
def Parameter.zero : Parameter := ⟨⟨[]⟩, ⟨[]⟩, Slice.nil, Range.zero, Slice.nil⟩

/-- Zero value of `State`. -/
def State.zero {F : Type} : State F := ⟨GoValue.nil⟩

/-- Zero value of `Capability`. -/
def Capability.zero {F : Type} : Capability F := ⟨⟨[]⟩, ⟨[]⟩, Parameter.zero, State.zero⟩

/-- Zero value of `DeviceInfo`. -/
def DeviceInfo.zero {F : Type} : DeviceInfo F := ⟨⟨[]⟩, ⟨[]⟩, ⟨[]⟩, ⟨[]⟩, Slice.nil⟩

/-- Zero value of `DeviceStatePayload`. -/
def DeviceStatePayload.zero : DeviceStatePayload := ⟨⟨[]⟩, ⟨[]⟩⟩

/-- Zero value of `RequestPayload`. -/
def RequestPayload.zero : RequestPayload := ⟨⟨[]⟩, DeviceStatePayload.zero⟩

/-! ## Measures of a JSON value -/

/-- A character the scanner passes through a string literal unchanged. -/
abbrev plainChar (c : Char) : Prop := c ≠ '"' ∧ c ≠ '\\' ∧ ¬ c.toNat < 0x20

/-- Whether the input ends here or goes on with a comma or a closing bracket
or brace, as the text after a value inside a compact JSON text does. -/
def isDelimited (rest : List Char) : Bool :=
  match rest with
  | [] => true
  | c :: _ => c == ',' || c == ']' || c == '}'

/-- Whether a text is a number literal of the JSON grammar. -/
def validNumber (lit : String) : Prop := scanNumber lit.data = some (lit.data, [])

instance (lit : String) : Decidable (validNumber lit) := by
  unfold validNumber
  exact inferInstance

mutual
/-- How deep arrays and objects nest in a value. -/
def JSON.depth : JSON → Nat
  | JSON.arr es => 1 + JSON.depthElems es
  | JSON.obj ms => 1 + JSON.depthMembers ms
  | _ => 0
/-- The greatest depth among the elements of an array. -/
def JSON.depthElems : List JSON → Nat
  | [] => 0
  | e :: es => max e.depth (JSON.depthElems es)
/-- The greatest depth among the members of an object. -/
def JSON.depthMembers : List (String × JSON) → Nat
  | [] => 0
  | (_, v) :: ms => max v.depth (JSON.depthMembers ms)
end

mutual
/-- Every number of the value is a number literal of the JSON grammar. -/
def JSON.NumbersValid : JSON → Prop
  | JSON.num lit => validNumber lit
  | JSON.arr es => JSON.NumbersValidElems es
  | JSON.obj ms => JSON.NumbersValidMembers ms
  | _ => True
/-- Every number of the elements is a number literal. -/
def JSON.NumbersValidElems : List JSON → Prop
  | [] => True
  | e :: es => e.NumbersValid ∧ JSON.NumbersValidElems es
/-- Every number of the members is a number literal. -/
def JSON.NumbersValidMembers : List (String × JSON) → Prop
  | [] => True
  | (_, v) :: ms => v.NumbersValid ∧ JSON.NumbersValidMembers ms
end

mutual
/-- An amount of fuel with which `parseValue` scans the text of a value. -/
def JSON.fuel : JSON → Nat
  | JSON.arr es => 1 + JSON.fuelElems es
  | JSON.obj ms => 1 + JSON.fuelMembers ms
  | _ => 1
/-- An amount of fuel with which `parseElems` scans the elements. -/
def JSON.fuelElems : List JSON → Nat
  | [] => 0
  | e :: es => 1 + e.fuel + JSON.fuelElems es
/-- An amount of fuel with which `parseMembers` scans the members. -/
def JSON.fuelMembers : List (String × JSON) → Nat
  | [] => 0
  | (_, v) :: ms => 1 + v.fuel + JSON.fuelMembers ms
end

/-! ## `json.Unmarshal` into the types of `types.go`

The decoder stores into an existing value: a struct field named twice in an
object is decoded twice into the same field, `null` leaves a scalar or struct
field as it was and sets a slice, pointer or interface to nil, and a key that
selects no field is skipped.  The text of a decoding error is approximate; the
client only wraps it. -/

/-- Case folding of one rune of an object key (`foldRune`, the least rune of
the simple-folding orbit).  The field tags of `types.go` are ASCII; the only
runes outside ASCII that fold to an ASCII letter are U+017F and U+212A, and
the other runes, whose image is never ASCII, are left as they are. -/
def foldRune (c : Char) : Char :=
  if 'a' ≤ c ∧ c ≤ 'z' then Char.ofNat (c.toNat - 32)
  else if c = Char.ofNat 0x17F then 'S'
  else if c = Char.ofNat 0x212A then 'K'
  else c

/-- Folded form of a key or tag (`foldName`). -/
def foldName (s : String) : String := String.mk (s.data.map foldRune)

/-- The field tag an object key selects: the tag equal to the key, else the
first tag equal to it under case folding, else none. -/
def lookupField (tags : List String) (key : String) : Option String :=
  if key ∈ tags then some key
  else tags.find? (fun t => foldName t == foldName key)

/-- JSON tags of `DeviceInfo`, in declaration order. -/
abbrev deviceTags : List String := ["sku", "device", "deviceName", "type", "capabilities"]

/-- JSON tags of `Capability`. -/
abbrev capabilityTags : List String := ["type", "instance", "parameters", "state"]

/-- JSON tag of `State`. -/
abbrev stateValueTags : List String := ["value"]

/-- JSON tags of `DiscoveryApiResponse`, those of the embedded status first. -/
abbrev discoveryTags : List String := ["requestId", "code", "msg", "data"]

/-- JSON tags of `DeviceStateApiResponse`. -/
abbrev stateTags : List String := ["requestId", "code", "msg", "payload"]

/-- JSON tags of `RequestPayload`. -/
abbrev requestTags : List String := ["requestId", "payload"]

/-- JSON tags of `DeviceStatePayload`. -/
abbrev payloadTags : List String := ["sku", "device"]

/-- How `UnmarshalTypeError` names the JSON value it met. -/
def JSON.describe : JSON → String
  | JSON.null => "null"
  | JSON.bool _ => "bool"
  | JSON.num lit => "number " ++ lit
  | JSON.str _ => "string"
  | JSON.arr _ => "array"
  | JSON.obj _ => "object"

/-- Text of an `UnmarshalTypeError`. -/
def unmarshalTypeError (j : JSON) (goType : String) : String :=
  "json: cannot unmarshal " ++ j.describe ++ " into Go value of type " ++ goType

/-- Value of a non-empty string of decimal digits. -/
def digitsValue : List Char → Option Nat
  | [] => none
  | c :: cs =>
    (c :: cs).foldlM (fun acc d => if d.isDigit then some (acc * 10 + (d.toNat - 48)) else none) 0

/-- Model of `strconv.ParseInt(lit, 10, 64)`: an optional sign and decimal
digits, within the range of `int64`. -/
def parseInt (lit : String) : Option Int :=
  let signed : Option Int :=
    match lit.data with
    | '-' :: ds => (digitsValue ds).map (fun n => - (n : Int))
    | '+' :: ds => (digitsValue ds).map (fun n => (n : Int))
    | ds => (digitsValue ds).map (fun n => (n : Int))
  match signed with
  | some n => if - (2 : Int) ^ 63 ≤ n ∧ n < (2 : Int) ^ 63 then some n else none
  | none => none

/-- Decode into a `string`: the bytes of the unquoted JSON string, which are
well-formed UTF-8. -/
def decodeString (cur : GoString) : JSON → Except String GoString
  | JSON.null => Except.ok cur
  | JSON.str s => Except.ok (goString s)
  | j => Except.error (unmarshalTypeError j "string")

/-- Decode into an `int`. -/
def decodeInt (cur : Int) : JSON → Except String Int
  | JSON.null => Except.ok cur
  | JSON.num lit =>
    match parseInt lit with
    | some n => Except.ok n
    | none => Except.error (unmarshalTypeError (JSON.num lit) "int")
  | j => Except.error (unmarshalTypeError j "int")

/-- Decode into a `bool`. -/
def decodeBool (cur : Bool) : JSON → Except String Bool
  | JSON.null => Except.ok cur
  | JSON.bool b => Except.ok b
  | j => Except.error (unmarshalTypeError j "bool")

/-- Decode the elements of an array into the backing array of a slice:
element `i` is decoded into the element that the backing array holds at `i`
(within the length of the slice or past it), or into a zero value when the
array has to grow. -/
def decodeElems {α : Type} (zero : α) (dec : α → JSON → Except String α) :
    List α → List JSON → Except String (List α)
  | _, [] => Except.ok []
  | backing, e :: es =>
    match dec (backing.headD zero) e with
    | Except.error err => Except.error err
    | Except.ok x =>
      match decodeElems zero dec backing.tail es with
      | Except.error err => Except.error err
      | Except.ok xs => Except.ok (x :: xs)

/-- Decode into a slice `[]T` (`array` of the decoder).  `null` sets the slice
to nil and an empty array sets it to a new empty slice.  Otherwise the elements
are decoded one by one into the backing array, the length of the slice becomes
the number of elements, and what the backing array holds past that length
stays where it is. -/
def decodeSlice {α : Type} (goType : String) (zero : α) (dec : α → JSON → Except String α)
    (cur : Slice α) : JSON → Except String (Slice α)
  | JSON.null => Except.ok Slice.nil
  | JSON.arr [] => Except.ok Slice.nil
  | JSON.arr (e :: es) =>
    match decodeElems zero dec (cur.elems ++ cur.spare) (e :: es) with
    | Except.error err => Except.error err
    | Except.ok xs => Except.ok ⟨xs, (cur.elems ++ cur.spare).drop (e :: es).length⟩
  | j => Except.error (unmarshalTypeError j goType)

/-- Decode the members of an object into a struct, one after the other. -/
def decodeMembers {α : Type} (field : α → String → JSON → Except String α) :
    α → List (String × JSON) → Except String α
  | cur, [] => Except.ok cur
  | cur, (k, v) :: ms =>
    match field cur k v with
    | Except.error err => Except.error err
    | Except.ok next => decodeMembers field next ms

/-- Decode into a struct. -/
def decodeStruct {α : Type} (goType : String) (field : α → String → JSON → Except String α)
    (cur : α) : JSON → Except String α
  | JSON.null => Except.ok cur
  | JSON.obj ms => decodeMembers field cur ms
  | j => Except.error (unmarshalTypeError j goType)

/-- Store `v` under `k` in a map kept in ascending key order; an entry with
the same key is replaced. -/
def mapSet {α : Type} (k : String) (v : α) : List (String × α) → List (String × α)
  | [] => [(k, v)]
  | (k1, v1) :: m =>
    if k < k1 then (k, v) :: (k1, v1) :: m
    else if k = k1 then (k, v) :: m
    else (k1, v1) :: mapSet k v m

/-- Look a key up in a map. -/
def mapGet {α : Type} (k : String) : List (String × α) → Option α
  | [] => none
  | (k1, v1) :: m => if k = k1 then some v1 else mapGet k m

section Decoders

variable {F : Type} (parseFloat : String → Option F)

mutual
/-- Decode into an empty `interface{}` (`valueInterface`): a fresh value of
the kind of the JSON value; a number is converted by `strconv.ParseFloat`
(the parameter `parseFloat`), which can fail. -/
def decodeInterface : JSON → Except String (GoValue F)
  | JSON.null => Except.ok GoValue.nil
  | JSON.bool b => Except.ok (GoValue.bool b)
  | JSON.num lit =>
    match parseFloat lit with
    | some f => Except.ok (GoValue.float64 f)
    | none => Except.error (unmarshalTypeError (JSON.num lit) "float64")
  | JSON.str s => Except.ok (GoValue.string s)
  | JSON.arr es =>
    match decodeInterfaceElems es with
    | Except.ok vs => Except.ok (GoValue.slice vs)
    | Except.error err => Except.error err
  | JSON.obj ms =>
    match decodeInterfaceMembers [] ms with
    | Except.ok m => Except.ok (GoValue.map m)
    | Except.error err => Except.error err
/-- Decode the elements of an array into a `[]interface{}`. -/
def decodeInterfaceElems : List JSON → Except String (List (GoValue F))
  | [] => Except.ok []
  | e :: es =>
    match decodeInterface e with
    | Except.error err => Except.error err
    | Except.ok v =>
      match decodeInterfaceElems es with
      | Except.error err => Except.error err
      | Except.ok vs => Except.ok (v :: vs)
/-- Decode the members of an object into a `map[string]interface{}`, in
source order, a later member replacing an earlier one with the same key. -/
def decodeInterfaceMembers :
    List (String × GoValue F) → List (String × JSON) → Except String (List (String × GoValue F))
  | acc, [] => Except.ok acc
  | acc, (k, j) :: ms =>
    match decodeInterface j with
    | Except.error err => Except.error err
    | Except.ok v => decodeInterfaceMembers (mapSet k v acc) ms
end

/-- Field decoder of `Option`. -/
def CapabilityOption.decodeField (cur : CapabilityOption) (key : String) (v : JSON) :
    Except String CapabilityOption :=
  match lookupField ["name", "value"] key with
  | some "name" => (decodeString cur.Name v).map (fun x => { cur with Name := x })
  | some "value" => (decodeInt cur.Value v).map (fun x => { cur with Value := x })
  | _ => Except.ok cur

/-- Decode into an `Option`. -/
def CapabilityOption.decode : CapabilityOption → JSON → Except String CapabilityOption :=
  decodeStruct "Option" CapabilityOption.decodeField

/-- Field decoder of `Range`. -/
def Range.decodeField (cur : Range) (key : String) (v : JSON) : Except String Range :=
  match lookupField ["min", "max", "precision"] key with
  | some "min" => (decodeInt cur.Min v).map (fun x => { cur with Min := x })
  | some "max" => (decodeInt cur.Max v).map (fun x => { cur with Max := x })
  | some "precision" => (decodeInt cur.Precision v).map (fun x => { cur with Precision := x })
  | _ => Except.ok cur

/-- Decode into a `Range`. -/
def Range.decode : Range → JSON → Except String Range :=
  decodeStruct "Range" Range.decodeField

/-- Field decoder of `Field`. -/
def Field.decodeField (cur : Field) (key : String) (v : JSON) : Except String Field :=
  match lookupField ["fieldName", "dataType", "options", "range", "required"] key with
  | some "fieldName" => (decodeString cur.FieldName v).map (fun x => { cur with FieldName := x })
  | some "dataType" => (decodeString cur.DataType v).map (fun x => { cur with DataType := x })
  | some "options" =>
    (decodeSlice "[]Option" CapabilityOption.zero CapabilityOption.decode cur.Options v).map
      (fun x => { cur with Options := x })
  | some "range" => (Range.decode cur.Range v).map (fun x => { cur with Range := x })
  | some "required" => (decodeBool cur.Required v).map (fun x => { cur with Required := x })
  | _ => Except.ok cur

/-- Decode into a `Field`. -/
def Field.decode : Field → JSON → Except String Field :=
  decodeStruct "Field" Field.decodeField

/-- Field decoder of `Parameter`. -/
def Parameter.decodeField (cur : Parameter) (key : String) (v : JSON) : Except String Parameter :=
  match lookupField ["unit", "dataType", "options", "range", "fields"] key with
  | some "unit" => (decodeString cur.Unit v).map (fun x => { cur with Unit := x })
  | some "dataType" => (decodeString cur.DataType v).map (fun x => { cur with DataType := x })
  | some "options" =>
    (decodeSlice "[]Option" CapabilityOption.zero CapabilityOption.decode cur.Options v).map
      (fun x => { cur with Options := x })
  | some "range" => (Range.decode cur.Range v).map (fun x => { cur with Range := x })
  | some "fields" =>
    (decodeSlice "[]Field" Field.zero Field.decode cur.Fields v).map
      (fun x => { cur with Fields := x })
  | _ => Except.ok cur

/-- Decode into a `Parameter`. -/
def Parameter.decode : Parameter → JSON → Except String Parameter :=
  decodeStruct "Parameter" Parameter.decodeField

/-- Field decoder of `State`: `value` is stored afresh into the interface. -/
def State.decodeField (cur : State F) (key : String) (v : JSON) : Except String (State F) :=
  match lookupField stateValueTags key with
  | some "value" => (decodeInterface parseFloat v).map (fun x => { cur with Value := x })
  | _ => Except.ok cur

/-- Decode into a `State`. -/
def State.decode : State F → JSON → Except String (State F) :=
  decodeStruct "State" (State.decodeField parseFloat)

/-- Field decoder of `Capability`. -/
def Capability.decodeField (cur : Capability F) (key : String) (v : JSON) :
    Except String (Capability F) :=
  match lookupField capabilityTags key with
  | some "type" => (decodeString cur.Type_ v).map (fun x => { cur with Type_ := x })
  | some "instance" => (decodeString cur.Instance v).map (fun x => { cur with Instance := x })
  | some "parameters" =>
    (Parameter.decode cur.Parameters v).map (fun x => { cur with Parameters := x })
  | some "state" => (State.decode parseFloat cur.State v).map (fun x => { cur with State := x })
  | _ => Except.ok cur

/-- Decode into a `Capability`. -/
def Capability.decode : Capability F → JSON → Except String (Capability F) :=
  decodeStruct "Capability" (Capability.decodeField parseFloat)

/-- Field decoder of `DeviceInfo`. -/
def DeviceInfo.decodeField (cur : DeviceInfo F) (key : String) (v : JSON) :
    Except String (DeviceInfo F) :=
  match lookupField deviceTags key with
  | some "sku" => (decodeString cur.SKU v).map (fun x => { cur with SKU := x })
  | some "device" => (decodeString cur.Device v).map (fun x => { cur with Device := x })
  | some "deviceName" => (decodeString cur.DeviceName v).map (fun x => { cur with DeviceName := x })
  | some "type" => (decodeString cur.Type_ v).map (fun x => { cur with Type_ := x })
  | some "capabilities" =>
    (decodeSlice "[]Capability" Capability.zero (Capability.decode parseFloat)
      cur.Capabilities v).map (fun x => { cur with Capabilities := x })
  | _ => Except.ok cur

/-- Decode into a `DeviceInfo`. -/
def DeviceInfo.decode : DeviceInfo F → JSON → Except String (DeviceInfo F) :=
  decodeStruct "DeviceInfo" (DeviceInfo.decodeField parseFloat)

/-- Field decoder of the embedded `ApiResponseStatus`, for a key that is one
of its tags. -/
def ApiResponseStatus.decodeField (cur : ApiResponseStatus) (tag : String) (v : JSON) :
    Except String ApiResponseStatus :=
  if tag = "requestId" then
    (decodeString cur.RequestId v).map (fun x => { cur with RequestId := x })
  else if tag = "code" then (decodeInt cur.Code v).map (fun x => { cur with Code := x })
  else if tag = "msg" then (decodeString cur.Message v).map (fun x => { cur with Message := x })
  else Except.ok cur

/-- Field decoder of `DiscoveryApiResponse`: the promoted fields of the
embedded status, and `data`. -/
def DiscoveryApiResponse.decodeField (cur : DiscoveryApiResponse F) (key : String) (v : JSON) :
    Except String (DiscoveryApiResponse F) :=
  match lookupField discoveryTags key with
  | some "data" =>
    (decodeSlice "[]DeviceInfo" DeviceInfo.zero (DeviceInfo.decode parseFloat) cur.Data v).map
      (fun x => { cur with Data := x })
  | some tag => (ApiResponseStatus.decodeField cur.Status tag v).map
      (fun x => { cur with Status := x })
  | none => Except.ok cur

/-- Decode into a `DiscoveryApiResponse`. -/
def DiscoveryApiResponse.decode :
    DiscoveryApiResponse F → JSON → Except String (DiscoveryApiResponse F) :=
  decodeStruct "DiscoveryApiResponse" (DiscoveryApiResponse.decodeField parseFloat)

/-- Decode into a `*DeviceInfo`: `null` sets the pointer to nil, anything else
is decoded into the struct it points to, allocated when the pointer is nil. -/
def decodeDeviceInfoPtr (cur : Option (DeviceInfo F)) : JSON → Except String (Option (DeviceInfo F))
  | JSON.null => Except.ok none
  | j => (DeviceInfo.decode parseFloat (cur.getD DeviceInfo.zero) j).map some

/-- Field decoder of `DeviceStateApiResponse`: the promoted fields of the
embedded status, and `payload`. -/
def DeviceStateApiResponse.decodeField (cur : DeviceStateApiResponse F) (key : String)
    (v : JSON) : Except String (DeviceStateApiResponse F) :=
  match lookupField stateTags key with
  | some "payload" =>
    (decodeDeviceInfoPtr parseFloat cur.Payload v).map (fun x => { cur with Payload := x })
  | some tag => (ApiResponseStatus.decodeField cur.Status tag v).map
      (fun x => { cur with Status := x })
  | none => Except.ok cur

/-- Decode into a `DeviceStateApiResponse`. -/
def DeviceStateApiResponse.decode :
    DeviceStateApiResponse F → JSON → Except String (DeviceStateApiResponse F) :=
  decodeStruct "DeviceStateApiResponse" (DeviceStateApiResponse.decodeField parseFloat)

/-- Model of `json.Unmarshal(body, &DiscoveryApiResponse{})`: a syntax error
when the body is not one JSON text, else the decoding of the scanned value. -/
def unmarshalDiscoveryApiResponse (body : String) : Except String (DiscoveryApiResponse F) :=
  match parseJSON body with
  | none => Except.error "invalid JSON text"
  | some j => DiscoveryApiResponse.decode parseFloat ⟨ApiResponseStatus.zero, Slice.nil⟩ j

/-- Model of `json.Unmarshal(body, &DeviceStateApiResponse{})`. -/
def unmarshalDeviceStateApiResponse (body : String) :
    Except String (DeviceStateApiResponse F) :=
  match parseJSON body with
  | none => Except.error "invalid JSON text"
  | some j => DeviceStateApiResponse.decode parseFloat ⟨ApiResponseStatus.zero, none⟩ j

end Decoders

/-- Field decoder of `DeviceStatePayload`. -/
def DeviceStatePayload.decodeField (cur : DeviceStatePayload) (key : String) (v : JSON) :
    Except String DeviceStatePayload :=
  match lookupField payloadTags key with
  | some "sku" => (decodeString cur.SKU v).map (fun x => { cur with SKU := x })
  | some "device" => (decodeString cur.Device v).map (fun x => { cur with Device := x })
  | _ => Except.ok cur

/-- Decode into a `DeviceStatePayload`. -/
def DeviceStatePayload.decode : DeviceStatePayload → JSON → Except String DeviceStatePayload :=
  decodeStruct "DeviceStatePayload" DeviceStatePayload.decodeField

/-- Field decoder of `RequestPayload`. -/
def RequestPayload.decodeField (cur : RequestPayload) (key : String) (v : JSON) :
    Except String RequestPayload :=
  match lookupField requestTags key with
  | some "requestId" => (decodeString cur.RequestId v).map (fun x => { cur with RequestId := x })
  | some "payload" =>
    (DeviceStatePayload.decode cur.Payload v).map (fun x => { cur with Payload := x })
  | _ => Except.ok cur

/-- Decode into a `RequestPayload`. -/
def RequestPayload.decode : RequestPayload → JSON → Except String RequestPayload :=
  decodeStruct "RequestPayload" RequestPayload.decodeField

/-- Model of `json.Unmarshal(body, &RequestPayload{})`. -/
def unmarshalRequestPayload (body : String) : Except String RequestPayload :=
  match parseJSON body with
  | none => Except.error "invalid JSON text"
  | some j => RequestPayload.decode RequestPayload.zero j

/-! ## Well-formed envelopes -/

/-- Whether a JSON value fits the status field of an envelope that `tag`
names: a string or `null` for `requestId` and `msg`, an integer literal in the
range of `int` or `null` for `code`.  Any other tag asks nothing. -/
def statusValueOk (tag : String) (v : JSON) : Bool :=
  if tag = "code" then
    match v with
    | JSON.null => true
    | JSON.num lit => (parseInt lit).isSome
    | _ => false
  else if tag = "requestId" ∨ tag = "msg" then
    match v with
    | JSON.null => true
    | JSON.str _ => true
    | _ => false
  else true

/-- Whether a member of an envelope with the given tags is either unknown
(it selects no field) or fits the status field it selects. -/
def statusMemberOk (tags : List String) (m : String × JSON) : Bool :=
  match lookupField tags m.1 with
  | some tag => statusValueOk tag m.2
  | none => true

/-! ## `json.Marshal` -/

/-- Lower-case hexadecimal digit (`hex` of the encoder). -/
def hexDigit (n : Nat) : Char := "0123456789abcdef".data.getD n '0'

/-- How the encoder writes one character of a string (`appendString` with
HTML escaping, as `json.Marshal` uses it): short escapes for the quote, the
backslash and the five named controls, `\u00XX` for the other controls and for
`<`, `>`, `&`, `\u2028` and `\u2029` for the two line separators, and every
other character as it is. -/
def escapeChar (c : Char) : List Char :=
  if c = '"' then ['\\', '"']
  else if c = '\\' then ['\\', '\\']
  else if c = Char.ofNat 8 then ['\\', 'b']
  else if c = Char.ofNat 12 then ['\\', 'f']
  else if c = '\n' then ['\\', 'n']
  else if c = '\r' then ['\\', 'r']
  else if c = '\t' then ['\\', 't']
  else if c.toNat < 0x20 ∨ c = '<' ∨ c = '>' ∨ c = '&' then
    ['\\', 'u', '0', '0', hexDigit (c.toNat / 16), hexDigit (c.toNat % 16)]
  else if c = Char.ofNat 0x2028 then ['\\', 'u', '2', '0', '2', '8']
  else if c = Char.ofNat 0x2029 then ['\\', 'u', '2', '0', '2', '9']
  else [c]

/-- Escape every character of a string. -/
def escapeAll : List Char → List Char
  | [] => []
  | c :: cs => escapeChar c ++ escapeAll cs

/-- A string literal: the escaped text between quotes. -/
def quoteString (s : String) : List Char := '"' :: (escapeAll s.data ++ ['"'])

mutual
/-- The compact text of a JSON value, as `json.Marshal` writes it. -/
def printJSON : JSON → List Char
  | JSON.null => "null".data
  | JSON.bool b => if b then "true".data else "false".data
  | JSON.num lit => lit.data
  | JSON.str s => quoteString s
  | JSON.arr es => '[' :: printElems true es
  | JSON.obj ms => '{' :: printMembers true ms
/-- The elements of an array and the closing bracket; `first` tells that no
element was written yet, so that no comma is due. -/
def printElems : Bool → List JSON → List Char
  | _, [] => [']']
  | first, e :: es => (if first then [] else [',']) ++ (printJSON e ++ printElems false es)
/-- The members of an object and the closing brace. -/
def printMembers : Bool → List (String × JSON) → List Char
  | _, [] => ['}']
  | first, (k, v) :: ms =>
    (if first then [] else [',']) ++ (quoteString k ++ (':' :: (printJSON v ++ printMembers false ms)))
end

/-- How the encoder writes one rune of a Go string (`appendString`): the six
characters `\ufffd` for an ill-formed byte, and a well-formed rune as
`escapeChar` tells. -/
def escapeRune : Option Char → List Char
  | some c => escapeChar c
  | none => ['\\', 'u', 'f', 'f', 'f', 'd']

/-- Escape every rune of a string. -/
def escapeRunes : List (Option Char) → List Char
  | [] => []
  | r :: rs => escapeRune r ++ escapeRunes rs

/-- The string literal that the encoder writes for a Go string. -/
def quoteGoString (s : GoString) : List Char := '"' :: (escapeRunes s.runes ++ ['"'])

/-- The text that a Go string has after `json.Marshal` and `json.Unmarshal`:
its runes, with U+FFFD in the place of every ill-formed byte. -/
def GoString.text (s : GoString) : String :=
  String.mk (s.runes.map (fun r => r.getD replacementChar))

/-- The text `json.Marshal` writes for a `DeviceStatePayload`: its two tagged
fields in declaration order. -/
def DeviceStatePayload.marshal (p : DeviceStatePayload) : List Char :=
  "\x7b\"sku\":".data ++ (quoteGoString p.SKU ++
    (",\"device\":".data ++ (quoteGoString p.Device ++ "\x7d".data)))

/-- The text `json.Marshal` writes for a `RequestPayload`. -/
def RequestPayload.marshal (r : RequestPayload) : List Char :=
  "\x7b\"requestId\":".data ++ (quoteGoString r.RequestId ++
    (",\"payload\":".data ++ (r.Payload.marshal ++ "\x7d".data)))

/-- Model of `json.Marshal(RequestPayload)`; it cannot fail on this type. -/
def jsonMarshalRequestPayload (r : RequestPayload) : Except String String :=
  Except.ok (String.mk r.marshal)

/-- The envelope of a state request as a JSON value: `requestId`, and
`payload` with `sku` and `device`. -/
def stateRequestJSON (requestId sku device : String) : JSON :=
  JSON.obj [("requestId", JSON.str requestId),
    ("payload", JSON.obj [("sku", JSON.str sku), ("device", JSON.str device)])]

/-- The decimal digit of a number below ten. -/
def digitChar (d : Nat) : Char := Char.ofNat (48 + d)

/-- The decimal digits of a natural number, the most significant first;
`fuel` bounds the number of digits. -/
def formatNatAux : Nat → Nat → List Char
  | 0, _ => []
  | fuel + 1, n =>
    if n < 10 then [digitChar n] else formatNatAux fuel (n / 10) ++ [digitChar (n % 10)]

/-- Model of `strconv.FormatInt(n, 10)`. -/
def formatInt (n : Int) : String :=
  if n < 0 then String.mk ('-' :: formatNatAux (n.natAbs + 1) n.natAbs)
  else String.mk (formatNatAux (n.natAbs + 1) n.natAbs)

section Encoders

variable {F : Type} (formatFloat : F → Option String)

mutual
/-- The JSON value `json.Marshal` writes for the content of an
`interface{}`; a `float64` is written by the parameter `formatFloat`, which
refuses NaN and the infinities; map entries are written in key order. -/
def encodeInterface : GoValue F → Except String JSON
  | GoValue.nil => Except.ok JSON.null
  | GoValue.bool b => Except.ok (JSON.bool b)
  | GoValue.float64 f =>
    match formatFloat f with
    | some lit => Except.ok (JSON.num lit)
    | none => Except.error "json: unsupported value"
  | GoValue.string s => Except.ok (JSON.str s)
  | GoValue.slice vs =>
    match encodeInterfaceElems vs with
    | Except.ok es => Except.ok (JSON.arr es)
    | Except.error err => Except.error err
  | GoValue.map m =>
    match encodeInterfaceEntries m with
    | Except.ok ms => Except.ok (JSON.obj ms)
    | Except.error err => Except.error err
/-- Encode the elements of a `[]interface{}`. -/
def encodeInterfaceElems : List (GoValue F) → Except String (List JSON)
  | [] => Except.ok []
  | v :: vs =>
    match encodeInterface v with
    | Except.error err => Except.error err
    | Except.ok e =>
      match encodeInterfaceElems vs with
      | Except.error err => Except.error err
      | Except.ok es => Except.ok (e :: es)
/-- Encode the entries of a `map[string]interface{}`. -/
def encodeInterfaceEntries : List (String × GoValue F) → Except String (List (String × JSON))
  | [] => Except.ok []
  | (k, v) :: m =>
    match encodeInterface v with
    | Except.error err => Except.error err
    | Except.ok e =>
      match encodeInterfaceEntries m with
      | Except.error err => Except.error err
      | Except.ok ms => Except.ok ((k, e) :: ms)
end

/-- Model of `json.Marshal` applied to the content of an `interface{}`. -/
def jsonMarshalInterface (v : GoValue F) : Except String String :=
  match encodeInterface formatFloat v with
  | Except.ok j => Except.ok (String.mk (printJSON j))
  | Except.error err => Except.error err

end Encoders

/-- Model of `json.Unmarshal(text, &v)` for `v` an empty `interface{}`. -/
def unmarshalInterface {F : Type} (parseFloat : String → Option F) (text : String) :
    Except String (GoValue F) :=
  match parseJSON text with
  | none => Except.error "invalid JSON text"
  | some j => decodeInterface parseFloat j

/-- Model of `json.Unmarshal(text, &Capability{})`. -/
def unmarshalCapability {F : Type} (parseFloat : String → Option F) (text : String) :
    Except String (Capability F) :=
  match parseJSON text with
  | none => Except.error "invalid JSON text"
  | some j => Capability.decode parseFloat Capability.zero j

/-! ## The client (`client.go`) -/

/-- Constant `version`. -/
def version : String := "1.0.0"

/-- Constant `goveeApiUrl`. -/
def goveeApiUrl : String := "https://openapi.api.govee.com/router/api/v1"

/-- Constant `goveeDevices`. -/
def goveeDevices : String := "user/devices"

/-- Constant `goveeDeviceState`. -/
def goveeDeviceState : String := "device/state"

/-- Constant `requestLimit`. -/
def requestLimit : Int := 10000

/-- A non-nil `*http.Client`: the package-level `http.DefaultClient` or a
client the caller made. -/
inductive HttpClient where
  | DefaultClient : HttpClient
  | custom (id : Nat) : HttpClient
  deriving Repr, DecidableEq

/-- A non-nil `context.Context`. -/
inductive Context where
  | Background : Context
  | other (id : Nat) : Context
  deriving Repr, DecidableEq

/-- Source type `Client`; a nil `HTTPClient` or `Ctx` is `none`. -/
structure Client where
  ApiKey : String
  HTTPClient : Option HttpClient
  Ctx : Option Context
  deriving Repr, DecidableEq

/-- What the client reads of an `http.Request`. -/
structure Request where
  Method : String
  URL : String
  Header : List (String × String)
  Body : String
  deriving Repr, DecidableEq

/-- The body of a response as `io.ReadAll` finds it: the data it delivers and
the error, if any, that ends the reading before the end of the body. -/
structure Body where
  data : String
  readErr : Option String
  deriving Repr, DecidableEq

/-- What the client reads of an `http.Response`. -/
structure Response where
  Status : String
  StatusCode : Int
  Body : Body
  deriving Repr, DecidableEq

/-- What the embedding takes as given from outside the package: the build
constants `runtime.GOOS` and `runtime.GOARCH`, the effect of
`(*http.Client).Do` (a response or a transport error), and the conversion
`strconv.ParseFloat(lit, 64)` of a number literal. -/
structure Env (F : Type) where
  GOOS : String
  GOARCH : String
  Do : HttpClient → Request → Except String Response
  ParseFloat : String → Option F

/-- The result of a call: the returned pair of value and error, or a panic. -/
inductive Outcome (α : Type) where
  | returned (value : α) (err : Option String) : Outcome α
  | panicked (reason : String) : Outcome α
  deriving Repr, DecidableEq

/-- The run-time error of a nil pointer dereference. -/
def nilDereference : String :=
  "runtime error: invalid memory address or nil pointer dereference"

/-- Constant `userAgent`. -/
def userAgent {F : Type} (env : Env F) : String :=
  "govee-go/" ++ version ++ " (" ++ env.GOOS ++ "; " ++ env.GOARCH ++ ")"

/-- Model of `url.JoinPath(base, elem)` for a base without trailing slash and
a clean relative element, as the constants of the package are. -/
def urlJoinPath (base elem : String) : Except String String :=
  Except.ok (base ++ "/" ++ elem)

/-- Model of `http.NewRequest` for a valid method and URL: a request without
headers. -/
def httpNewRequest (method url body : String) : Except String Request :=
  Except.ok { Method := method, URL := url, Header := [], Body := body }

/-- Model of `textproto.CanonicalMIMEHeaderKey` on a key of letters, digits
and hyphens: upper case at the start and after a hyphen, lower case elsewhere. -/
def canonicalHeaderKey : Bool → List Char → List Char
  | _, [] => []
  | upper, c :: cs =>
    (if upper then c.toUpper else c.toLower) :: canonicalHeaderKey (c == '-') cs

/-- Model of `Header.Set`: the value replaces those of the canonical key. -/
def Request.headerSet (req : Request) (key value : String) : Request :=
  let k := String.mk (canonicalHeaderKey true key.data)
  { req with Header := (req.Header.filter (fun kv => kv.1 != k)) ++ [(k, value)] }

/-- Model of `http.StatusText`: the reason phrase of a registered status
code, and the empty string for any other code. -/
def statusText (code : Int) : String :=
  match code with
  | 100 => "Continue"
  | 101 => "Switching Protocols"
  | 102 => "Processing"
  | 103 => "Early Hints"
  | 200 => "OK"
  | 201 => "Created"
  | 202 => "Accepted"
  | 203 => "Non-Authoritative Information"
  | 204 => "No Content"
  | 205 => "Reset Content"
  | 206 => "Partial Content"
  | 207 => "Multi-Status"
  | 208 => "Already Reported"
  | 226 => "IM Used"
  | 300 => "Multiple Choices"
  | 301 => "Moved Permanently"
  | 302 => "Found"
  | 303 => "See Other"
  | 304 => "Not Modified"
  | 305 => "Use Proxy"
  | 307 => "Temporary Redirect"
  | 308 => "Permanent Redirect"
  | 400 => "Bad Request"
  | 401 => "Unauthorized"
  | 402 => "Payment Required"
  | 403 => "Forbidden"
  | 404 => "Not Found"
  | 405 => "Method Not Allowed"
  | 406 => "Not Acceptable"
  | 407 => "Proxy Authentication Required"
  | 408 => "Request Timeout"
  | 409 => "Conflict"
  | 410 => "Gone"
  | 411 => "Length Required"
  | 412 => "Precondition Failed"
  | 413 => "Request Entity Too Large"
  | 414 => "Request URI Too Long"
  | 415 => "Unsupported Media Type"
  | 416 => "Requested Range Not Satisfiable"
  | 417 => "Expectation Failed"
  | 418 => "I\x27m a teapot"
  | 421 => "Misdirected Request"
  | 422 => "Unprocessable Entity"
  | 423 => "Locked"
  | 424 => "Failed Dependency"
  | 425 => "Too Early"
  | 426 => "Upgrade Required"
  | 428 => "Precondition Required"
  | 429 => "Too Many Requests"
  | 431 => "Request Header Fields Too Large"
  | 451 => "Unavailable For Legal Reasons"
  | 500 => "Internal Server Error"
  | 501 => "Not Implemented"
  | 502 => "Bad Gateway"
  | 503 => "Service Unavailable"
  | 504 => "Gateway Timeout"
  | 505 => "HTTP Version Not Supported"
  | 506 => "Variant Also Negotiates"
  | 507 => "Insufficient Storage"
  | 508 => "Loop Detected"
  | 510 => "Not Extended"
  | 511 => "Network Authentication Required"
  | _ => ""

/-- The status codes that have a registered reason phrase, each with its
phrase (the table of `net/http`). -/
def reasonPhrases : List (Int × String) :=
  [(100, "Continue"), (101, "Switching Protocols"), (102, "Processing"), (103, "Early Hints"),
   (200, "OK"), (201, "Created"), (202, "Accepted"), (203, "Non-Authoritative Information"),
   (204, "No Content"), (205, "Reset Content"), (206, "Partial Content"), (207, "Multi-Status"),
   (208, "Already Reported"), (226, "IM Used"), (300, "Multiple Choices"),
   (301, "Moved Permanently"), (302, "Found"), (303, "See Other"), (304, "Not Modified"),
   (305, "Use Proxy"), (307, "Temporary Redirect"), (308, "Permanent Redirect"),
   (400, "Bad Request"), (401, "Unauthorized"), (402, "Payment Required"), (403, "Forbidden"),
   (404, "Not Found"), (405, "Method Not Allowed"), (406, "Not Acceptable"),
   (407, "Proxy Authentication Required"), (408, "Request Timeout"), (409, "Conflict"),
   (410, "Gone"), (411, "Length Required"), (412, "Precondition Failed"),
   (413, "Request Entity Too Large"), (414, "Request URI Too Long"),
   (415, "Unsupported Media Type"), (416, "Requested Range Not Satisfiable"),
   (417, "Expectation Failed"), (418, "I\x27m a teapot"), (421, "Misdirected Request"),
   (422, "Unprocessable Entity"), (423, "Locked"), (424, "Failed Dependency"),
   (425, "Too Early"), (426, "Upgrade Required"), (428, "Precondition Required"),
   (429, "Too Many Requests"), (431, "Request Header Fields Too Large"),
   (451, "Unavailable For Legal Reasons"), (500, "Internal Server Error"),
   (501, "Not Implemented"), (502, "Bad Gateway"), (503, "Service Unavailable"),
   (504, "Gateway Timeout"), (505, "HTTP Version Not Supported"),
   (506, "Variant Also Negotiates"), (507, "Insufficient Storage"), (508, "Loop Detected"),
   (510, "Not Extended"), (511, "Network Authentication Required")]

/-- Source function `New`. -/
def New (apiKey : String) : Outcome (Option Client) :=
  if apiKey = "" then Outcome.returned none (some "missing Govee API Key")
  else
    Outcome.returned
      (some { ApiKey := apiKey, Ctx := some Context.Background,
              HTTPClient := some HttpClient.DefaultClient })
      none

/-- Source function `resolveHTTPError`; `none` is the nil error. -/
def resolveHTTPError (r : Response) : Option String :=
  if r.StatusCode ≥ 200 ∧ r.StatusCode < 300 then none
  else if r.StatusCode = 401 then some (r.Status ++ ": a valid Govee API key is required")
  else if r.StatusCode = 429 then
    some (r.Status ++ ": accounts are limited to " ++ toString requestLimit ++ " requests a day")
  else some (r.Status ++ ": " ++ statusText r.StatusCode)

/-- The request `doRequest` hands to the HTTP client (the first part of
`Client.doRequest`): the marshalled body, if there is one, in a new request
with the three headers set.  The `body interface{}` is nil or a
`RequestPayload`, the only type the package passes. -/
def Client.buildRequest {F : Type} (env : Env F) (c : Client) (method url : String)
    (body : Option RequestPayload) : Except String Request :=
  let marshalled : Except String String :=
    match body with
    | none => Except.ok ""
    | some b => jsonMarshalRequestPayload b
  match marshalled with
  | Except.error err => Except.error err
  | Except.ok reqBody =>
    match httpNewRequest method url reqBody with
    | Except.error err => Except.error err
    | Except.ok req =>
      Except.ok (((req.headerSet "Govee-API-Key" c.ApiKey).headerSet
        "Content-Type" "application/json").headerSet "User-Agent" (userAgent env))

/-- Source method `Client.doRequest`: build the request, send it through
`c.HTTPClient` (a nil pointer there is dereferenced), classify the status and
read the body with `io.ReadAll`, which returns what it read and its error. -/
def Client.doRequest {F : Type} (env : Env F) (c : Client) (method url : String)
    (body : Option RequestPayload) : Outcome String :=
  match c.buildRequest env method url body with
  | Except.error err => Outcome.returned "" (some err)
  | Except.ok req =>
    match c.HTTPClient with
    | none => Outcome.panicked nilDereference
    | some hc =>
      match env.Do hc req with
      | Except.error err => Outcome.returned "" (some err)
      | Except.ok resp =>
        match resolveHTTPError resp with
        | some err => Outcome.returned "" (some err)
        | none => Outcome.returned resp.Body.data resp.Body.readErr

/-- Source method `Client.GetDevices`; the returned slice is given by its
elements. -/
def Client.GetDevices {F : Type} (env : Env F) (c : Client) : Outcome (List (DeviceInfo F)) :=
  match urlJoinPath goveeApiUrl goveeDevices with
  | Except.error err => Outcome.returned [] (some ("error creating URL for devices: " ++ err))
  | Except.ok goveeURL =>
    match c.doRequest env "GET" goveeURL none with
    | Outcome.panicked reason => Outcome.panicked reason
    | Outcome.returned _ (some err) => Outcome.returned [] (some err)
    | Outcome.returned respBody none =>
      match unmarshalDiscoveryApiResponse env.ParseFloat respBody with
      | Except.error err =>
        Outcome.returned [] (some ("error unmarshalling devices response: " ++ err))
      | Except.ok devicesResponse => Outcome.returned devicesResponse.Data.elems none

/-- The request payload `GetDeviceState` builds for a device. -/
def stateRequestPayload {F : Type} (device : DeviceInfo F) : RequestPayload :=
  { RequestId := goString "uuid", Payload := { SKU := device.SKU, Device := device.Device } }

/-- Source method `Client.GetDeviceState`. -/
def Client.GetDeviceState {F : Type} (env : Env F) (c : Client) (device : DeviceInfo F) :
    Outcome (Option (DeviceInfo F)) :=
  match urlJoinPath goveeApiUrl goveeDeviceState with
  | Except.error err =>
    Outcome.returned none (some ("error creating URL for device state: " ++ err))
  | Except.ok goveeURL =>
    let requestPayload := stateRequestPayload device
    match c.doRequest env "POST" goveeURL (some requestPayload) with
    | Outcome.panicked reason => Outcome.panicked reason
    | Outcome.returned _ (some err) => Outcome.returned none (some err)
    | Outcome.returned respBody none =>
      match unmarshalDeviceStateApiResponse env.ParseFloat respBody with
      | Except.error err =>
        Outcome.returned none (some ("error unmarshalling devices response: " ++ err))
      | Except.ok deviceState => Outcome.returned deviceState.Payload none

/-- Source method `Client.Close`: the call on a nil `HTTPClient` dereferences
it; the idle connections it closes are not part of the embedding. -/
def Client.Close (c : Client) : Outcome Unit :=
  match c.HTTPClient with
  | none => Outcome.panicked nilDereference
  | some _ => Outcome.returned () none

/-! ## The open `State.Value` -/

mutual
/-- No object of the value names a key twice. -/
def JSON.DistinctKeys : JSON → Prop
  | JSON.arr es => JSON.DistinctKeysElems es
  | JSON.obj ms => (ms.map Prod.fst).Nodup ∧ JSON.DistinctKeysMembers ms
  | _ => True
/-- No object among the elements names a key twice. -/
def JSON.DistinctKeysElems : List JSON → Prop
  | [] => True
  | e :: es => e.DistinctKeys ∧ JSON.DistinctKeysElems es
/-- No object among the member values names a key twice. -/
def JSON.DistinctKeysMembers : List (String × JSON) → Prop
  | [] => True
  | (_, v) :: ms => v.DistinctKeys ∧ JSON.DistinctKeysMembers ms
end

mutual
/-- The conversion to `float64` accepts every number literal of the value. -/
def JSON.NumbersParse {F : Type} (parseFloat : String → Option F) : JSON → Prop
  | JSON.num lit => (parseFloat lit).isSome = true
  | JSON.arr es => JSON.NumbersParseElems parseFloat es
  | JSON.obj ms => JSON.NumbersParseMembers parseFloat ms
  | _ => True
/-- The conversion accepts every number literal of the elements. -/
def JSON.NumbersParseElems {F : Type} (parseFloat : String → Option F) : List JSON → Prop
  | [] => True
  | e :: es => e.NumbersParse parseFloat ∧ JSON.NumbersParseElems parseFloat es
/-- The conversion accepts every number literal of the member values. -/
def JSON.NumbersParseMembers {F : Type} (parseFloat : String → Option F) :
    List (String × JSON) → Prop
  | [] => True
  | (_, v) :: ms => v.NumbersParse parseFloat ∧ JSON.NumbersParseMembers parseFloat ms
end

mutual
/-- Whether a decoded value carries a JSON value: the same kind at every
place, every element of an array in its place, every member of an object
under its key, every string and boolean leaf itself, and every number leaf
as the `float64` its literal converts to. -/
def carries {F : Type} [DecidableEq F] (parseFloat : String → Option F) :
    JSON → GoValue F → Bool
  | JSON.null, GoValue.nil => true
  | JSON.bool b, GoValue.bool c => b == c
  | JSON.num lit, GoValue.float64 f => parseFloat lit == some f
  | JSON.str s, GoValue.string t => s == t
  | JSON.arr es, GoValue.slice vs => carriesElems parseFloat es vs
  | JSON.obj ms, GoValue.map m => carriesMembers parseFloat ms m
  | _, _ => false
/-- Whether a slice carries the elements of an array, one for one. -/
def carriesElems {F : Type} [DecidableEq F] (parseFloat : String → Option F) :
    List JSON → List (GoValue F) → Bool
  | [], [] => true
  | e :: es, v :: vs => carries parseFloat e v && carriesElems parseFloat es vs
  | _, _ => false
/-- Whether a map carries every member of an object under its key. -/
def carriesMembers {F : Type} [DecidableEq F] (parseFloat : String → Option F) :
    List (String × JSON) → List (String × GoValue F) → Bool
  | [], _ => true
  | (k, j) :: ms, m =>
    (match mapGet k m with
      | some v => carries parseFloat j v
      | none => false) && carriesMembers parseFloat ms m
end

mutual
/-- How deep slices and maps nest in a decoded value. -/
def GoValue.depth {F : Type} : GoValue F → Nat
  | GoValue.slice vs => 1 + GoValue.depthElems vs
  | GoValue.map m => 1 + GoValue.depthEntries m
  | _ => 0
/-- The greatest depth among the elements of a slice. -/
def GoValue.depthElems {F : Type} : List (GoValue F) → Nat
  | [] => 0
  | v :: vs => max v.depth (GoValue.depthElems vs)
/-- The greatest depth among the entries of a map. -/
def GoValue.depthEntries {F : Type} : List (String × GoValue F) → Nat
  | [] => 0
  | (_, v) :: m => max v.depth (GoValue.depthEntries m)
end

/-- The keys of a map are in strictly ascending order. -/
def keysAscending {α : Type} (m : List (String × α)) : Prop :=
  List.Pairwise (fun a b => a.1 < b.1) m

mutual
/-- A value as the decoder makes it: every map in ascending key order and
every `float64` the conversion of some literal. -/
def GoValue.Decoded {F : Type} (parseFloat : String → Option F) : GoValue F → Prop
  | GoValue.float64 f => ∃ lit, parseFloat lit = some f
  | GoValue.slice vs => GoValue.DecodedElems parseFloat vs
  | GoValue.map m => keysAscending m ∧ GoValue.DecodedEntries parseFloat m
  | _ => True
/-- Every element is as the decoder makes it. -/
def GoValue.DecodedElems {F : Type} (parseFloat : String → Option F) :
    List (GoValue F) → Prop
  | [] => True
  | v :: vs => v.Decoded parseFloat ∧ GoValue.DecodedElems parseFloat vs
/-- Every entry value is as the decoder makes it. -/
def GoValue.DecodedEntries {F : Type} (parseFloat : String → Option F) :
    List (String × GoValue F) → Prop
  | [] => True
  | (_, v) :: m => v.Decoded parseFloat ∧ GoValue.DecodedEntries parseFloat m
end

/-- The round-trip property of `strconv` that the encoder relies on: a
`float64` that `ParseFloat` returned is finite, the encoder writes it as a
number literal of the JSON grammar, and `ParseFloat` of that literal returns
the same `float64`. -/
def FloatRoundTrips {F : Type} (parseFloat : String → Option F)
    (formatFloat : F → Option String) : Prop :=
  ∀ lit f, parseFloat lit = some f →
    ∃ lit2, formatFloat f = some lit2 ∧ validNumber lit2 ∧ parseFloat lit2 = some f

/-! ## The JSON shape of the data model

The API writes a device as the object `{sku, device, deviceName, type,
capabilities: [{type, instance, parameters: {...}, state: {value}}]}`.  The
functions below spell that object out for a value of the data model, every
field under its tag.  The client itself only decodes these types; the
functions state what its decoders are expected to read. -/

/-- A Go string that is well-formed UTF-8: the encoding of some text. -/
def GoString.Valid (s : GoString) : Prop := ∃ t : String, s = goString t

/-- An integer within the range of a 64-bit `int`. -/
def inInt64 (n : Int) : Prop := - (2 : Int) ^ 63 ≤ n ∧ n < (2 : Int) ^ 63

/-- A slice without hidden capacity whose elements all satisfy `P`. -/
def Slice.WellFormed {α : Type} (P : α → Prop) (s : Slice α) : Prop :=
  s.spare = [] ∧ ∀ x ∈ s.elems, P x

/-- An `Option` with a well-formed name and a 64-bit value. -/
def CapabilityOption.WellFormed (o : CapabilityOption) : Prop :=
  o.Name.Valid ∧ inInt64 o.Value

/-- A `Range` of 64-bit numbers. -/
def Range.WellFormed (r : Range) : Prop :=
  inInt64 r.Min ∧ inInt64 r.Max ∧ inInt64 r.Precision

/-- A `Field` with well-formed parts. -/
def Field.WellFormed (f : Field) : Prop :=
  f.FieldName.Valid ∧ f.DataType.Valid ∧ f.Options.WellFormed CapabilityOption.WellFormed ∧
    f.Range.WellFormed

/-- A `Parameter` with well-formed parts. -/
def Parameter.WellFormed (p : Parameter) : Prop :=
  p.Unit.Valid ∧ p.DataType.Valid ∧ p.Options.WellFormed CapabilityOption.WellFormed ∧
    p.Range.WellFormed ∧ p.Fields.WellFormed Field.WellFormed

/-- The JSON object of an `Option`. -/
def CapabilityOption.toJSON (o : CapabilityOption) : JSON :=
  JSON.obj [("name", JSON.str o.Name.text), ("value", JSON.num (formatInt o.Value))]

/-- The JSON object of a `Range`. -/
def Range.toJSON (r : Range) : JSON :=
  JSON.obj [("min", JSON.num (formatInt r.Min)), ("max", JSON.num (formatInt r.Max)),
    ("precision", JSON.num (formatInt r.Precision))]

/-- The JSON object of a `Field`. -/
def Field.toJSON (f : Field) : JSON :=
  JSON.obj [("fieldName", JSON.str f.FieldName.text), ("dataType", JSON.str f.DataType.text),
    ("options", JSON.arr (f.Options.elems.map CapabilityOption.toJSON)),
    ("range", f.Range.toJSON), ("required", JSON.bool f.Required)]

/-- The JSON object of a `Parameter`. -/
def Parameter.toJSON (p : Parameter) : JSON :=
  JSON.obj [("unit", JSON.str p.Unit.text), ("dataType", JSON.str p.DataType.text),
    ("options", JSON.arr (p.Options.elems.map CapabilityOption.toJSON)),
    ("range", p.Range.toJSON), ("fields", JSON.arr (p.Fields.elems.map Field.toJSON))]

/-- The JSON object of an `ApiResponseStatus` followed by one more member. -/
def ApiResponseStatus.toJSON (st : ApiResponseStatus) (tag : String) (v : JSON) : JSON :=
  JSON.obj [("requestId", JSON.str st.RequestId.text), ("code", JSON.num (formatInt st.Code)),
    ("msg", JSON.str st.Message.text), (tag, v)]

/-- Apply a function that can fail to every element of a list. -/
def mapAll {α β : Type} (f : α → Except String β) : List α → Except String (List β)
  | [] => Except.ok []
  | x :: xs =>
    match f x with
    | Except.error err => Except.error err
    | Except.ok y =>
      match mapAll f xs with
      | Except.error err => Except.error err
      | Except.ok ys => Except.ok (y :: ys)

section Shape

variable {F : Type} (parseFloat : String → Option F) (formatFloat : F → Option String)

/-- A `Capability` with well-formed parts, whose state value is as the decoder
makes values. -/
def Capability.WellFormed (c : Capability F) : Prop :=
  c.Type_.Valid ∧ c.Instance.Valid ∧ c.Parameters.WellFormed ∧ c.State.Value.Decoded parseFloat

/-- A `DeviceInfo` with well-formed parts. -/
def DeviceInfo.WellFormed (d : DeviceInfo F) : Prop :=
  d.SKU.Valid ∧ d.Device.Valid ∧ d.DeviceName.Valid ∧ d.Type_.Valid ∧
    d.Capabilities.WellFormed (Capability.WellFormed parseFloat)

/-- An `ApiResponseStatus` with well-formed parts. -/
def ApiResponseStatus.WellFormed (st : ApiResponseStatus) : Prop :=
  st.RequestId.Valid ∧ inInt64 st.Code ∧ st.Message.Valid

/-- The JSON object of a `Capability`; it fails when the state value holds a
`float64` that has no JSON form. -/
def Capability.toJSON (c : Capability F) : Except String JSON :=
  match encodeInterface formatFloat c.State.Value with
  | Except.error err => Except.error err
  | Except.ok value =>
    Except.ok (JSON.obj [("type", JSON.str c.Type_.text), ("instance", JSON.str c.Instance.text),
      ("parameters", c.Parameters.toJSON), ("state", JSON.obj [("value", value)])])

/-- The JSON object of a `DeviceInfo`. -/
def DeviceInfo.toJSON (d : DeviceInfo F) : Except String JSON :=
  match mapAll (Capability.toJSON formatFloat) d.Capabilities.elems with
  | Except.error err => Except.error err
  | Except.ok caps =>
    Except.ok (JSON.obj [("sku", JSON.str d.SKU.text), ("device", JSON.str d.Device.text),
      ("deviceName", JSON.str d.DeviceName.text), ("type", JSON.str d.Type_.text),
      ("capabilities", JSON.arr caps)])

/-- The discovery envelope with the given status and devices. -/
def discoveryEnvelope (st : ApiResponseStatus) (devs : List (DeviceInfo F)) :
    Except String JSON :=
  match mapAll (DeviceInfo.toJSON formatFloat) devs with
  | Except.error err => Except.error err
  | Except.ok elems => Except.ok (st.toJSON "data" (JSON.arr elems))

/-- The state envelope with the given status and payload; a nil payload is
written as `null`. -/
def stateEnvelope (st : ApiResponseStatus) (payload : Option (DeviceInfo F)) :
    Except String JSON :=
  match payload with
  | none => Except.ok (st.toJSON "payload" JSON.null)
  | some d =>
    match DeviceInfo.toJSON formatFloat d with
    | Except.error err => Except.error err
    | Except.ok j => Except.ok (st.toJSON "payload" j)

end Shape

/-- The capability object with the given type, instance and state value. -/
def capabilityJSON (type_ inst : String) (value : JSON) : JSON :=
  JSON.obj [("type", JSON.str type_), ("instance", JSON.str inst),
    ("state", JSON.obj [("value", value)])]

/-- A state value that names the key `a` twice. -/
def duplicateKeyValue : JSON := JSON.obj [("a", JSON.str "x"), ("a", JSON.str "y")]

/-- The text of a capability whose state value is `duplicateKeyValue`. -/
def duplicateKeyCapabilityText : String :=
  "\x7b\"type\":\"devices.capabilities.mode\",\"instance\":\"m\",\"state\":\x7b\"value\":\x7b\"a\":\"x\",\"a\":\"y\"\x7d\x7d\x7d"

/-- A nested state value with distinct keys. -/
def exampleStructValue : JSON :=
  JSON.obj [("b", JSON.arr [JSON.num "1", JSON.str "s", JSON.bool true, JSON.null]),
    ("a", JSON.obj [("x", JSON.num "-2.5e3")])]

/-- The text of a capability whose state value is `exampleStructValue`, laid
out with spaces and over two lines. -/
def exampleStructCapabilityText : String :=
  "\x7b\"type\": \"devices.capabilities.mode\", \"instance\": \"m\",\n \"state\": \x7b\"value\": \x7b\"b\": [1, \"s\", true, null], \"a\": \x7b\"x\": -2.5e3\x7d\x7d\x7d\x7d"

/-- What `exampleStructValue` decodes to when a number is kept as its literal:
the entries of each map in key order. -/
def exampleStructGoValue : GoValue String :=
  GoValue.map [("a", GoValue.map [("x", GoValue.float64 "-2.5e3")]),
    ("b", GoValue.slice [GoValue.float64 "1", GoValue.string "s", GoValue.bool true,
      GoValue.nil])]

/-- The text `json.Marshal` writes for `exampleStructGoValue`. -/
def exampleStructValueText : String :=
  "\x7b\"a\":\x7b\"x\":-2.5e3\x7d,\"b\":[1,\"s\",true,null]\x7d"

/-- The text of a capability whose state value holds a number beyond the range
of `float64`. -/
def outOfRangeCapabilityText : String :=
  "\x7b\"state\":\x7b\"value\":\x7b\"a\":1e999\x7d\x7d\x7d"

/-- The text of a capability whose state value is an object holding 9998
arrays, one inside the other: with the capability, its state and the value
itself, 10001 levels. -/
def deepCapabilityText : String :=
  String.mk ('\x7b' :: '"' :: ("state".data ++ ('"' :: ':' :: '\x7b' :: '"' :: ("value".data ++
    ('"' :: ':' :: '\x7b' :: '"' :: ("a".data ++ ('"' :: ':' ::
      (List.replicate 9998 '[' ++ (List.replicate 9998 ']' ++ "\x7d\x7d\x7d".data)))))))))

/-- Value of a string of decimal digits; 0 for the empty string. -/
def digitsNat (ds : List Char) : Nat := ds.foldl (fun acc d => acc * 10 + (d.toNat - 48)) 0

/-- Whether the magnitude of a number literal of the JSON grammar rounds to a
finite `float64`, that is, whether it is below `2^1024 - 2^970`, halfway
between the largest `float64` and `2^1024`.  For any other literal
`strconv.ParseFloat` reports a range error.  The magnitude is the digits of
the integer and fraction parts, scaled by ten to the exponent less the number
of fraction digits. -/
def float64InRange (lit : String) : Bool :=
  let unsigned : List Char :=
    match lit.data with
    | '-' :: cs => cs
    | cs => cs
  let intPart := takeDigits unsigned
  let fracPart : List Char × List Char :=
    match intPart.2 with
    | '.' :: cs => takeDigits cs
    | cs => ([], cs)
  let exponent : Int :=
    match fracPart.2 with
    | _ :: '-' :: ds => - (digitsNat ds : Int)
    | _ :: '+' :: ds => (digitsNat ds : Int)
    | _ :: ds => (digitsNat ds : Int)
    | [] => 0
  let mantissa : Nat := digitsNat (intPart.1 ++ fracPart.1)
  let scale : Int := exponent - fracPart.1.length
  let limit : Nat := (2 ^ 54 - 1) * 2 ^ 970
  if 0 ≤ scale then decide (mantissa * 10 ^ scale.toNat < limit)
  else decide (mantissa < limit * 10 ^ (-scale).toNat)

/-- A conversion of number literals for the closed examples: it accepts the
literals that `strconv.ParseFloat` accepts, those within the range of
`float64`, and keeps a number as its literal, so that formatting gives it
back. -/
def literalParseFloat : String → Option String :=
  fun lit => if validNumber lit ∧ float64InRange lit = true then some lit else none

/-- The formatting that goes with `literalParseFloat`. -/
def literalFormatFloat : String → Option String := fun f => some f

/-- The text `s` begins with the text `p`. -/
def beginsWith (p s : String) : Prop := p.data <+: s.data

/-- The text `s` contains the text `t` as a substring. -/
def containsText (t s : String) : Prop := t.data <:+: s.data

/-- The build and transport used in the closed examples: every request is
answered by `resp`; number literals are kept as integers when they are. -/
def exampleEnv (resp : Response) : Env Int :=
  { GOOS := "linux", GOARCH := "amd64", Do := fun _ _ => Except.ok resp,
    ParseFloat := fun lit => parseInt lit }

/-- A client as `New` makes it. -/
def exampleClient : Client :=
  { ApiKey := "key", HTTPClient := some HttpClient.DefaultClient, Ctx := some Context.Background }

/-- The request `GetDevices` sends for `exampleClient`. -/
def exampleDevicesRequest : Request :=
  { Method := "GET", URL := "https://openapi.api.govee.com/router/api/v1/user/devices",
    Header := [("Govee-Api-Key", "key"), ("Content-Type", "application/json"),
      ("User-Agent", "govee-go/1.0.0 (linux; amd64)")],
    Body := "" }

/-- The device of the round-trip example of the specification. -/
def exampleDevice : DeviceInfo Int :=
  { SKU := goString "H6160", Device := goString "AA:BB:CC:DD:EE:FF:11:22",
    DeviceName := goString "Light", Type_ := goString "devices.types.light",
    Capabilities := Slice.nil }

/-- The request `GetDeviceState` sends for `exampleClient` and `exampleDevice`. -/
def exampleStateRequest : Request :=
  { Method := "POST", URL := "https://openapi.api.govee.com/router/api/v1/device/state",
    Header := [("Govee-Api-Key", "key"), ("Content-Type", "application/json"),
      ("User-Agent", "govee-go/1.0.0 (linux; amd64)")],
    Body := "\x7b\"requestId\":\"uuid\",\"payload\":\x7b\"sku\":\"H6160\",\"device\":\"AA:BB:CC:DD:EE:FF:11:22\"\x7d\x7d" }

/-- A device whose SKU is the two bytes FF FE, which are not UTF-8. -/
def illFormedDevice : DeviceInfo Int :=
  { SKU := ⟨[0xFF, 0xFE]⟩, Device := goString "d1", DeviceName := goString "",
    Type_ := goString "", Capabilities := Slice.nil }

/-- The request `GetDeviceState` sends for `exampleClient` and
`illFormedDevice`: each byte of the SKU is written as `\ufffd`. -/
def illFormedStateRequest : Request :=
  { Method := "POST", URL := "https://openapi.api.govee.com/router/api/v1/device/state",
    Header := [("Govee-Api-Key", "key"), ("Content-Type", "application/json"),
      ("User-Agent", "govee-go/1.0.0 (linux; amd64)")],
    Body := "\x7b\"requestId\":\"uuid\",\"payload\":\x7b\"sku\":\"\\ufffd\\ufffd\",\"device\":\"d1\"\x7d\x7d" }

/-- A response with status 401 and some body. -/
def response401 : Response := ⟨"401 Unauthorized", 401, ⟨"denied", none⟩⟩

/-- A response with status 429 and some body. -/
def response429 : Response := ⟨"429 Too Many Requests", 429, ⟨"slow down", none⟩⟩

/-- A response with a status code that has no registered reason phrase. -/
def response799 : Response := ⟨"799 Odd", 799, ⟨"odd", none⟩⟩

/-- A response with status 404 and a JSON body. -/
def response404 : Response := ⟨"404 Not Found", 404, ⟨"\x7b\"msg\":\"unknown device\"\x7d", none⟩⟩

/-- An informational response (1xx). -/
def response100 : Response := ⟨"100 Continue", 100, ⟨"", none⟩⟩

/-- A redirection (3xx). -/
def response301 : Response := ⟨"301 Moved Permanently", 301, ⟨"moved", none⟩⟩

/-- A server error (5xx). -/
def response503 : Response := ⟨"503 Service Unavailable", 503, ⟨"", none⟩⟩

/-- A successful response with a small body. -/
def response200 : Response := ⟨"200 OK", 200, ⟨"[]", none⟩⟩

/-- The discovery body of the specification: one device, no capabilities. -/
def exampleDiscoveryBody : String :=
  "\x7b\"requestId\":\"r1\",\"code\":200,\"msg\":\"ok\",\"data\":[\x7b\"sku\":\"H6160\",\"device\":\"d1\",\"deviceName\":\"Light\",\"type\":\"devices.types.light\",\"capabilities\":[]\x7d]\x7d"

/-- The device of `exampleDiscoveryBody`. -/
def exampleDiscoveredDevice : DeviceInfo Int :=
  { SKU := goString "H6160", Device := goString "d1", DeviceName := goString "Light",
    Type_ := goString "devices.types.light", Capabilities := Slice.nil }

/-- A state body whose payload is `null`. -/
def exampleNullStateBody : String :=
  "\x7b\"requestId\":\"uuid\",\"code\":200,\"msg\":\"success\",\"payload\":null\x7d"

/-- A state body whose payload is a device with one capability. -/
def exampleStateBody : String :=
  "\x7b\"requestId\":\"uuid\",\"code\":200,\"msg\":\"success\",\"payload\":\x7b\"sku\":\"H6160\",\"device\":\"d1\",\"capabilities\":[\x7b\"type\":\"devices.capabilities.on_off\",\"instance\":\"powerSwitch\",\"state\":\x7b\"value\":1\x7d\x7d]\x7d\x7d"

/-- The device of `exampleStateBody`. -/
def exampleStateDevice : DeviceInfo Int :=
  { SKU := goString "H6160", Device := goString "d1", DeviceName := goString "",
    Type_ := goString "",
    Capabilities := Slice.ofList [⟨goString "devices.capabilities.on_off",
      goString "powerSwitch", Parameter.zero, ⟨GoValue.float64 1⟩⟩] }

/-- A successful response carrying `exampleDiscoveryBody`. -/
def responseDiscovery : Response := ⟨"200 OK", 200, ⟨exampleDiscoveryBody, none⟩⟩

/-- A successful response carrying `exampleNullStateBody`. -/
def responseNullState : Response := ⟨"200 OK", 200, ⟨exampleNullStateBody, none⟩⟩

/-- A successful response carrying `exampleStateBody`. -/
def responseState : Response := ⟨"200 OK", 200, ⟨exampleStateBody, none⟩⟩

/-- A discovery body laid out over several lines, with members that select no
field (`total`, `firmware`), a key in another case (`SKU`), escapes in a
string, capabilities with parameters, and `null` for a capability list. -/
def exampleSpacedDiscoveryBody : String :=
  "\x7b\r\n  \"requestId\": \"r2\",\n  \"code\": 200,\n  \"msg\": \"success\",\n  \"total\": 2,\n  \"data\": [\n    \x7b\n      \"sku\": \"H7143\", \"device\": \"d2\", \"deviceName\": \"Humidifier \\\"Pro\\\" é\\u00e9\",\n      \"type\": \"devices.types.humidifier\", \"firmware\": \x7b\"v\": [1, 2]\x7d,\n      \"capabilities\": [\n        \x7b\"type\": \"devices.capabilities.range\", \"instance\": \"humidity\",\n\t \"parameters\": \x7b\"unit\": \"unit.percent\", \"dataType\": \"INTEGER\",\n\t                \"range\": \x7b\"min\": 40, \"max\": 80, \"precision\": 1\x7d\x7d\x7d,\n        \x7b\"type\": \"devices.capabilities.work_mode\", \"instance\": \"workMode\",\n         \"parameters\": \x7b\"dataType\": \"STRUCT\", \"fields\": [\n            \x7b\"fieldName\": \"workMode\", \"dataType\": \"ENUM\", \"required\": true,\n             \"options\": [\x7b\"name\": \"Manual\", \"value\": 1\x7d, \x7b\"name\": \"Auto\", \"value\": 3\x7d]\x7d,\n            \x7b\"fieldName\": \"modeValue\", \"dataType\": \"INTEGER\",\n             \"range\": \x7b\"min\": -1, \"max\": 9, \"precision\": 1\x7d\x7d]\x7d\x7d\n      ]\n    \x7d,\n    \x7b\"SKU\": \"H6160\", \"device\": \"d1\", \"capabilities\": null\x7d\n  ]\n\x7d"

/-- The first device of `exampleSpacedDiscoveryBody`. -/
def exampleHumidifier : DeviceInfo Int :=
  { SKU := goString "H7143", Device := goString "d2",
    DeviceName := goString "Humidifier \"Pro\" éé",
    Type_ := goString "devices.types.humidifier",
    Capabilities := Slice.ofList
      [{ Type_ := goString "devices.capabilities.range", Instance := goString "humidity",
         Parameters :=
           { Unit := goString "unit.percent", DataType := goString "INTEGER",
             Options := Slice.nil, Range := ⟨40, 80, 1⟩, Fields := Slice.nil },
         State := State.zero },
       { Type_ := goString "devices.capabilities.work_mode", Instance := goString "workMode",
         Parameters :=
           { Unit := goString "", DataType := goString "STRUCT", Options := Slice.nil,
             Range := Range.zero,
             Fields := Slice.ofList
               [{ FieldName := goString "workMode", DataType := goString "ENUM",
                  Options := Slice.ofList [⟨goString "Manual", 1⟩, ⟨goString "Auto", 3⟩],
                  Range := Range.zero, Required := true },
                { FieldName := goString "modeValue", DataType := goString "INTEGER",
                  Options := Slice.nil, Range := ⟨-1, 9, 1⟩, Required := false }] },
         State := State.zero }] }

/-- The second device of `exampleSpacedDiscoveryBody`. -/
def exampleBareDevice : DeviceInfo Int :=
  { SKU := goString "H6160", Device := goString "d1", DeviceName := goString "",
    Type_ := goString "", Capabilities := Slice.nil }

/-- A state body laid out over several lines, whose capabilities hold a
boolean, a number, a string and an object as state value. -/
def exampleSpacedStateBody : String :=
  "\x7b \"requestId\": \"uuid\", \"msg\": \"success\", \"code\": 200,\n  \"payload\": \x7b\n    \"sku\": \"H7143\", \"device\": \"d2\",\n    \"capabilities\": [\n      \x7b\"type\": \"devices.capabilities.online\", \"instance\": \"online\", \"state\": \x7b\"value\": false\x7d\x7d,\n      \x7b\"type\": \"devices.capabilities.on_off\", \"instance\": \"powerSwitch\", \"state\": \x7b\"value\": 1\x7d\x7d,\n      \x7b\"type\": \"devices.capabilities.range\", \"instance\": \"humidity\", \"state\": \x7b\"value\": \"\"\x7d\x7d,\n      \x7b\"type\": \"devices.capabilities.work_mode\", \"instance\": \"workMode\",\n       \"state\": \x7b\"value\": \x7b\"workMode\": [1, 5]\x7d\x7d\x7d\n    ]\n  \x7d\n\x7d"

/-- The capability with the given type, instance and state value, and no
parameters. -/
def stateCapability (type_ inst : String) (value : GoValue Int) : Capability Int :=
  { Type_ := goString type_, Instance := goString inst, Parameters := Parameter.zero,
    State := ⟨value⟩ }

/-- The device of `exampleSpacedStateBody`. -/
def exampleHumidifierState : DeviceInfo Int :=
  { SKU := goString "H7143", Device := goString "d2", DeviceName := goString "",
    Type_ := goString "",
    Capabilities := Slice.ofList
      [stateCapability "devices.capabilities.online" "online" (GoValue.bool false),
       stateCapability "devices.capabilities.on_off" "powerSwitch" (GoValue.float64 1),
       stateCapability "devices.capabilities.range" "humidity" (GoValue.string ""),
       stateCapability "devices.capabilities.work_mode" "workMode"
         (GoValue.map [("workMode", GoValue.slice [GoValue.float64 1, GoValue.float64 5])])] }

/-- A state body without a `payload` member. -/
def exampleNoPayloadStateBody : String :=
  "\x7b\"requestId\":\"uuid\",\"code\":200,\"msg\":\"success\"\x7d"

/-- A state body whose payload names `capabilities` three times, with two
elements, then one, then two. -/
def exampleRepeatedStateBody : String :=
  "\x7b\"code\":200,\"payload\":\x7b\"sku\":\"H6160\",\"capabilities\":[\x7b\"type\":\"t1\",\"instance\":\"i1\"\x7d,\x7b\"type\":\"t2\",\"instance\":\"i2\"\x7d],\"capabilities\":[\x7b\"instance\":\"j\"\x7d],\"capabilities\":[\x7b\x7d,\x7b\x7d]\x7d\x7d"

/-- The device of `exampleRepeatedStateBody`: the second capability is the one
the first array left in the backing array, which the third array decodes into. -/
def exampleRepeatedStateDevice : DeviceInfo Int :=
  { SKU := goString "H6160", Device := goString "", DeviceName := goString "",
    Type_ := goString "",
    Capabilities := Slice.ofList
      [stateCapability "t1" "j" GoValue.nil, stateCapability "t2" "i2" GoValue.nil] }

/-- A successful response carrying `exampleSpacedDiscoveryBody`. -/
def responseSpacedDiscovery : Response := ⟨"200 OK", 200, ⟨exampleSpacedDiscoveryBody, none⟩⟩

/-- A successful response carrying `exampleSpacedStateBody`. -/
def responseSpacedState : Response := ⟨"200 OK", 200, ⟨exampleSpacedStateBody, none⟩⟩

/-- A successful response carrying `exampleNoPayloadStateBody`. -/
def responseNoPayloadState : Response := ⟨"200 OK", 200, ⟨exampleNoPayloadStateBody, none⟩⟩

/-- A successful response carrying `exampleRepeatedStateBody`. -/
def responseRepeatedState : Response := ⟨"200 OK", 200, ⟨exampleRepeatedStateBody, none⟩⟩

/-- The formatting of numbers that goes with `exampleEnv`. -/
def exampleFormatFloat : Int → Option String := fun n => some (formatInt n)

/-- The state body that spells out `exampleStateDevice` in the JSON shape of
the API, every field under its tag. -/
def exampleShapeStateBody : String :=
  "\x7b\"requestId\":\"uuid\",\"code\":200,\"msg\":\"success\",\"payload\":\x7b\"sku\":\"H6160\",\"device\":\"d1\",\"deviceName\":\"\",\"type\":\"\",\"capabilities\":[\x7b\"type\":\"devices.capabilities.on_off\",\"instance\":\"powerSwitch\",\"parameters\":\x7b\"unit\":\"\",\"dataType\":\"\",\"options\":[],\"range\":\x7b\"min\":0,\"max\":0,\"precision\":0\x7d,\"fields\":[]\x7d,\"state\":\x7b\"value\":1\x7d\x7d]\x7d\x7d"

/-- A successful response carrying `exampleShapeStateBody`. -/
def responseShapeState : Response := ⟨"200 OK", 200, ⟨exampleShapeStateBody, none⟩⟩

/-! ## Construction and error classification -/

theorem buildRequest_isOk {F : Type} (env : Env F) (c : Client) (method url : String)
    (body : Option RequestPayload) : ∃ req, c.buildRequest env method url body = Except.ok req := by
  cases body <;> simp [Client.buildRequest, jsonMarshalRequestPayload, httpNewRequest]

theorem resolveHTTPError_eq_none_iff (r : Response) :
    resolveHTTPError r = none ↔ 200 ≤ r.StatusCode ∧ r.StatusCode < 300 := by
  unfold resolveHTTPError
  by_cases h : r.StatusCode ≥ 200 ∧ r.StatusCode < 300
  · simp [h]
  · rw [if_neg h]
    constructor
    · intro h2
      split_ifs at h2
    · intro h2
      exact absurd h2 h

theorem doRequest_of_response {F : Type} (env : Env F) (c : Client) (hc : HttpClient)
    (method url : String) (body : Option RequestPayload) (req : Request) (resp : Response)
    (hclient : c.HTTPClient = some hc)
    (hreq : c.buildRequest env method url body = Except.ok req)
    (hdo : env.Do hc req = Except.ok resp) :
    c.doRequest env method url body =
      (resolveHTTPError resp).elim (Outcome.returned resp.Body.data resp.Body.readErr)
        (fun err => Outcome.returned "" (some err)) := by
  cases hres : resolveHTTPError resp <;>
    simp [Client.doRequest, hreq, hclient, hdo, hres]

/-- C1: `New(apiKey)` fails exactly when `apiKey` is the empty string, and
when it succeeds the client carries `apiKey` and `http.DefaultClient`. -/
theorem New_fails_iff_empty (apiKey : String) :
    ((∃ msg, New apiKey = Outcome.returned none (some msg)) ↔ apiKey = "") ∧
    (apiKey ≠ "" → ∃ c, New apiKey = Outcome.returned (some c) none ∧
      c.ApiKey = apiKey ∧ c.HTTPClient = some HttpClient.DefaultClient) ∧
    (∀ r, New apiKey ≠ Outcome.panicked r) := by
  unfold New
  by_cases h : apiKey = ""
  · simp [h]
  · simp [h]

/-- Witness of C1 at the key `"key"`. -/
theorem New_fails_iff_empty_witness :
    ((∃ msg, New "key" = Outcome.returned none (some msg)) ↔ "key" = "") ∧
    ("key" ≠ "" → ∃ c, New "key" = Outcome.returned (some c) none ∧
      c.ApiKey = "key" ∧ c.HTTPClient = some HttpClient.DefaultClient) ∧
    (∀ r, New "key" ≠ Outcome.panicked r) :=
  New_fails_iff_empty "key"

/-- C2: for a response the transport returns, `resolveHTTPError` gives no
error exactly when the status code is in [200,300); in that case `doRequest`
returns the data of the response body as `io.ReadAll` delivers it (with the
error of the reading, if there is one), and for any other status code it
returns an error, the one of `resolveHTTPError`, and no data. -/
theorem doRequest_body_iff_2xx {F : Type} (env : Env F) (c : Client) (hc : HttpClient)
    (method url : String) (body : Option RequestPayload) (req : Request) (resp : Response)
    (hclient : c.HTTPClient = some hc)
    (hreq : c.buildRequest env method url body = Except.ok req)
    (hdo : env.Do hc req = Except.ok resp) :
    (resolveHTTPError resp = none ↔ 200 ≤ resp.StatusCode ∧ resp.StatusCode < 300) ∧
    (200 ≤ resp.StatusCode ∧ resp.StatusCode < 300 →
      c.doRequest env method url body = Outcome.returned resp.Body.data resp.Body.readErr) ∧
    (¬ (200 ≤ resp.StatusCode ∧ resp.StatusCode < 300) →
      ∃ err, resolveHTTPError resp = some err ∧
        c.doRequest env method url body = Outcome.returned "" (some err)) := by
  refine ⟨resolveHTTPError_eq_none_iff resp, ?_, ?_⟩
  · intro h
    rw [doRequest_of_response env c hc method url body req resp hclient hreq hdo,
      (resolveHTTPError_eq_none_iff resp).2 h]
    rfl
  · intro h
    rw [doRequest_of_response env c hc method url body req resp hclient hreq hdo]
    cases hr : resolveHTTPError resp with
    | none => exact absurd ((resolveHTTPError_eq_none_iff resp).1 hr) h
    | some err => exact ⟨err, rfl, rfl⟩


theorem GetDevices_of_doRequest_error {F : Type} (env : Env F) (c : Client) (url b err : String)
    (hurl : urlJoinPath goveeApiUrl goveeDevices = Except.ok url)
    (h : c.doRequest env "GET" url none = Outcome.returned b (some err)) :
    c.GetDevices env = Outcome.returned [] (some err) := by
  unfold Client.GetDevices
  simp only [hurl, h]

theorem GetDeviceState_of_doRequest_error {F : Type} (env : Env F) (c : Client)
    (device : DeviceInfo F) (url b err : String)
    (hurl : urlJoinPath goveeApiUrl goveeDeviceState = Except.ok url)
    (h : c.doRequest env "POST" url (some (stateRequestPayload device)) =
      Outcome.returned b (some err)) :
    c.GetDeviceState env device = Outcome.returned none (some err) := by
  unfold Client.GetDeviceState
  simp only [hurl, h]

theorem beginsWith_append (p t : String) : beginsWith p (p ++ t) := by
  unfold beginsWith
  rw [String.data_append]
  exact List.prefix_append _ _

theorem containsText_append (p a t b : String) : containsText t (p ++ (a ++ t ++ b)) := by
  unfold containsText
  simp only [String.data_append]
  exact ⟨p.data ++ a.data, b.data, by simp⟩

theorem resolveHTTPError_401 (r : Response) (h : r.StatusCode = 401) :
    resolveHTTPError r = some (r.Status ++ ": a valid Govee API key is required") := by
  simp [resolveHTTPError, h]

theorem resolveHTTPError_429 (r : Response) (h : r.StatusCode = 429) :
    resolveHTTPError r =
      some (r.Status ++ ": accounts are limited to " ++ "10000" ++ " requests a day") := by
  simp [resolveHTTPError, h]
  rfl

/-- A failing status makes both calls return no result and the error of
`resolveHTTPError`. -/
theorem calls_fail_of_status_error {F : Type} (env : Env F) (c : Client) (hc : HttpClient)
    (resp : Response) (err : String) (hclient : c.HTTPClient = some hc)
    (herr : resolveHTTPError resp = some err) :
    (∀ url req, urlJoinPath goveeApiUrl goveeDevices = Except.ok url →
      c.buildRequest env "GET" url none = Except.ok req → env.Do hc req = Except.ok resp →
      c.GetDevices env = Outcome.returned [] (some err)) ∧
    (∀ device url req, urlJoinPath goveeApiUrl goveeDeviceState = Except.ok url →
      c.buildRequest env "POST" url (some (stateRequestPayload device)) = Except.ok req →
      env.Do hc req = Except.ok resp →
      c.GetDeviceState env device = Outcome.returned none (some err)) := by
  constructor
  · intro url req hurl hreq hdo
    refine GetDevices_of_doRequest_error env c url "" err hurl ?_
    rw [doRequest_of_response env c hc "GET" url none req resp hclient hreq hdo, herr]
    rfl
  · intro device url req hurl hreq hdo
    refine GetDeviceState_of_doRequest_error env c device url "" err hurl ?_
    rw [doRequest_of_response env c hc "POST" url _ req resp hclient hreq hdo, herr]
    rfl

/-- C3: when the transport answers with status code 401, `GetDevices` and
`GetDeviceState` (for any device) return no result and an error whose message
begins with the status line of the response and contains "API key"; the body
of the response plays no part. -/
theorem unauthorized_calls_fail {F : Type} (env : Env F) (c : Client) (hc : HttpClient)
    (resp : Response) (hclient : c.HTTPClient = some hc) (h401 : resp.StatusCode = 401) :
    ∃ msg, beginsWith resp.Status msg ∧ containsText "API key" msg ∧
      (∀ url req, urlJoinPath goveeApiUrl goveeDevices = Except.ok url →
        c.buildRequest env "GET" url none = Except.ok req → env.Do hc req = Except.ok resp →
        c.GetDevices env = Outcome.returned [] (some msg)) ∧
      (∀ device url req, urlJoinPath goveeApiUrl goveeDeviceState = Except.ok url →
        c.buildRequest env "POST" url (some (stateRequestPayload device)) = Except.ok req →
        env.Do hc req = Except.ok resp →
        c.GetDeviceState env device = Outcome.returned none (some msg)) := by
  refine ⟨resp.Status ++ ": a valid Govee API key is required", beginsWith_append _ _, ?_,
    calls_fail_of_status_error env c hc resp _ hclient (resolveHTTPError_401 resp h401)⟩
  exact containsText_append resp.Status ": a valid Govee " "API key" " is required"

/-- C4: when the transport answers with status code 429, `GetDevices` and
`GetDeviceState` (for any device) return no result and an error whose message
begins with the status line of the response and contains the decimal text of
`requestLimit`, which is "10000". -/
theorem rate_limited_calls_fail {F : Type} (env : Env F) (c : Client) (hc : HttpClient)
    (resp : Response) (hclient : c.HTTPClient = some hc) (h429 : resp.StatusCode = 429) :
    ∃ msg, beginsWith resp.Status msg ∧ containsText (toString requestLimit) msg ∧
      toString requestLimit = "10000" ∧
      (∀ url req, urlJoinPath goveeApiUrl goveeDevices = Except.ok url →
        c.buildRequest env "GET" url none = Except.ok req → env.Do hc req = Except.ok resp →
        c.GetDevices env = Outcome.returned [] (some msg)) ∧
      (∀ device url req, urlJoinPath goveeApiUrl goveeDeviceState = Except.ok url →
        c.buildRequest env "POST" url (some (stateRequestPayload device)) = Except.ok req →
        env.Do hc req = Except.ok resp →
        c.GetDeviceState env device = Outcome.returned none (some msg)) := by
  refine ⟨resp.Status ++ ": accounts are limited to " ++ "10000" ++ " requests a day", ?_, ?_, rfl,
    calls_fail_of_status_error env c hc resp _ hclient (resolveHTTPError_429 resp h429)⟩
  · rw [String.append_assoc, String.append_assoc]
    exact beginsWith_append _ _
  · rw [String.append_assoc, String.append_assoc]
    have : toString requestLimit = "10000" := rfl
    rw [this]
    have := containsText_append resp.Status ": accounts are limited to " "10000" " requests a day"
    simpa [String.append_assoc] using this

theorem statusText_registered :
    ∀ p ∈ reasonPhrases, statusText p.1 = p.2 := by
  decide

set_option maxHeartbeats 4000000 in
theorem statusText_unregistered (code : Int) (h : code ∉ reasonPhrases.map Prod.fst) :
    statusText code = "" := by
  unfold statusText
  split <;> first
    | rfl
    | (exfalso; revert h; decide)

/-- C5: for a status code outside [200,300) other than 401 and 429, the
error of `resolveHTTPError` is the status line, then ": ", then the reason
phrase of the code: the phrase that the table of registered status codes gives
for it, and the empty text for a code that the table does not hold.  Two
responses with the same status line and code get the same error, whatever
their bodies. -/
theorem resolveHTTPError_other_status (r : Response)
    (hout : ¬ (200 ≤ r.StatusCode ∧ r.StatusCode < 300))
    (h401 : r.StatusCode ≠ 401) (h429 : r.StatusCode ≠ 429) :
    resolveHTTPError r = some (r.Status ++ ": " ++ statusText r.StatusCode) ∧
    (∀ r2 : Response, r2.Status = r.Status → r2.StatusCode = r.StatusCode →
      resolveHTTPError r2 = resolveHTTPError r) ∧
    (∀ phrase, (r.StatusCode, phrase) ∈ reasonPhrases →
      resolveHTTPError r = some (r.Status ++ ": " ++ phrase)) ∧
    (r.StatusCode ∉ reasonPhrases.map Prod.fst →
      resolveHTTPError r = some (r.Status ++ ": ")) := by
  have hmain : resolveHTTPError r = some (r.Status ++ ": " ++ statusText r.StatusCode) := by
    unfold resolveHTTPError
    have h : ¬ (r.StatusCode ≥ 200 ∧ r.StatusCode < 300) := hout
    rw [if_neg h, if_neg h401, if_neg h429]
  refine ⟨hmain, ?_, ?_, ?_⟩
  · intro r2 hs hc
    unfold resolveHTTPError
    rw [hs, hc]
  · intro phrase hp
    rw [hmain, statusText_registered _ hp]
  · intro hp
    rw [hmain, statusText_unregistered _ hp]
    simp

/-- C10 (the code at the failing input): with a nil `HTTPClient`,
`GetDevices`, `GetDeviceState` and `Close` dereference the nil pointer and
panic; `http.DefaultClient` is not substituted. -/
theorem nil_HTTPClient_panics {F : Type} (env : Env F) (device : DeviceInfo F) :
    Client.GetDevices env { ApiKey := "key", HTTPClient := none, Ctx := none } =
      Outcome.panicked nilDereference ∧
    Client.GetDeviceState env { ApiKey := "key", HTTPClient := none, Ctx := none } device =
      Outcome.panicked nilDereference ∧
    Client.Close { ApiKey := "key", HTTPClient := none, Ctx := none } =
      Outcome.panicked nilDereference := by
  refine ⟨?_, ?_, rfl⟩
  · obtain ⟨req, hreq⟩ := buildRequest_isOk env { ApiKey := "key", HTTPClient := none, Ctx := none }
      "GET" (goveeApiUrl ++ "/" ++ goveeDevices) none
    simp [Client.GetDevices, urlJoinPath, Client.doRequest, hreq]
  · obtain ⟨req, hreq⟩ := buildRequest_isOk env { ApiKey := "key", HTTPClient := none, Ctx := none }
      "POST" (goveeApiUrl ++ "/" ++ goveeDeviceState) (some (stateRequestPayload device))
    simp [Client.GetDeviceState, urlJoinPath, Client.doRequest, hreq]

/-- Witness of C2 at a 200 response: `doRequest` returns its body. -/
theorem doRequest_body_iff_2xx_witness :
    resolveHTTPError response200 = none ∧
    exampleClient.doRequest (exampleEnv response200) "GET"
      "https://openapi.api.govee.com/router/api/v1/user/devices" none =
      Outcome.returned "[]" none := by
  obtain ⟨h1, h2, _⟩ := doRequest_body_iff_2xx (exampleEnv response200) exampleClient
    HttpClient.DefaultClient "GET" "https://openapi.api.govee.com/router/api/v1/user/devices" none
    exampleDevicesRequest response200 rfl rfl rfl
  exact ⟨h1.2 (by decide), h2 (by decide)⟩

/-- Witness of C3: both calls at a 401 response. -/
theorem unauthorized_calls_fail_witness :
    ∃ msg, beginsWith "401 Unauthorized" msg ∧ containsText "API key" msg ∧
      exampleClient.GetDevices (exampleEnv response401) = Outcome.returned [] (some msg) ∧
      exampleClient.GetDeviceState (exampleEnv response401) exampleDevice =
        Outcome.returned none (some msg) := by
  obtain ⟨msg, h1, h2, h3, h4⟩ := unauthorized_calls_fail (exampleEnv response401) exampleClient
    HttpClient.DefaultClient response401 rfl rfl
  exact ⟨msg, h1, h2, h3 _ exampleDevicesRequest rfl rfl rfl,
    h4 exampleDevice _ exampleStateRequest rfl rfl rfl⟩

/-- Witness of C4: both calls at a 429 response. -/
theorem rate_limited_calls_fail_witness :
    ∃ msg, beginsWith "429 Too Many Requests" msg ∧ containsText "10000" msg ∧
      exampleClient.GetDevices (exampleEnv response429) = Outcome.returned [] (some msg) ∧
      exampleClient.GetDeviceState (exampleEnv response429) exampleDevice =
        Outcome.returned none (some msg) := by
  obtain ⟨msg, h1, h2, _, h3, h4⟩ := rate_limited_calls_fail (exampleEnv response429)
    exampleClient HttpClient.DefaultClient response429 rfl rfl
  exact ⟨msg, h1, h2, h3 _ exampleDevicesRequest rfl rfl rfl,
    h4 exampleDevice _ exampleStateRequest rfl rfl rfl⟩

/-- Witness of C5 at a registered client error with a JSON body, at an
informational, a redirection and a server-error code, and at a status code
without a reason phrase. -/
theorem resolveHTTPError_other_status_witness :
    resolveHTTPError response404 = some "404 Not Found: Not Found" ∧
    resolveHTTPError response100 = some "100 Continue: Continue" ∧
    resolveHTTPError response301 = some "301 Moved Permanently: Moved Permanently" ∧
    resolveHTTPError response503 = some "503 Service Unavailable: Service Unavailable" ∧
    resolveHTTPError response799 = some "799 Odd: " :=
  ⟨(resolveHTTPError_other_status response404 (by decide) (by decide) (by decide)).2.2.1
      "Not Found" (by decide),
   (resolveHTTPError_other_status response100 (by decide) (by decide) (by decide)).2.2.1
      "Continue" (by decide),
   (resolveHTTPError_other_status response301 (by decide) (by decide) (by decide)).2.2.1
      "Moved Permanently" (by decide),
   (resolveHTTPError_other_status response503 (by decide) (by decide) (by decide)).2.2.1
      "Service Unavailable" (by decide),
   (resolveHTTPError_other_status response799 (by decide) (by decide) (by decide)).2.2.2
      (by decide)⟩

/-! ## Decoding of envelopes -/

theorem Except_map_eq_ok_iff {ε α β : Type} (f : α → β) (e : Except ε α) (y : β) :
    e.map f = Except.ok y ↔ ∃ x, e = Except.ok x ∧ f x = y := by
  cases e <;> simp [Except.map]

theorem decodeMembers_append {α : Type} (field : α → String → JSON → Except String α)
    (a b : List (String × JSON)) (cur : α) :
    decodeMembers field cur (a ++ b) =
      (decodeMembers field cur a).bind (fun mid => decodeMembers field mid b) := by
  induction a generalizing cur with
  | nil => simp [decodeMembers, Except.bind]
  | cons m a ih =>
    obtain ⟨k, v⟩ := m
    simp only [List.cons_append, decodeMembers]
    cases field cur k v with
    | error e => simp [Except.bind]
    | ok next => simpa using ih next

theorem decodeMembers_invariant {α : Type} (field : α → String → JSON → Except String α)
    (P : α → Prop) (ms : List (String × JSON))
    (h : ∀ cur m, m ∈ ms → P cur → ∃ next, field cur m.1 m.2 = Except.ok next ∧ P next)
    (cur : α) (hcur : P cur) :
    ∃ final, decodeMembers field cur ms = Except.ok final ∧ P final := by
  induction ms generalizing cur with
  | nil => exact ⟨cur, rfl, hcur⟩
  | cons m ms ih =>
    obtain ⟨k, v⟩ := m
    obtain ⟨next, hnext, hP⟩ := h cur (k, v) (List.mem_cons_self _ _) hcur
    obtain ⟨final, hfinal, hPf⟩ :=
      ih (fun cur m hm hc => h cur m (List.mem_cons_of_mem _ hm) hc) next hP
    exact ⟨final, by simp [decodeMembers, hnext, hfinal], hPf⟩

theorem decodeElems_of_forall₂ {α : Type} (zero : α) (dec : α → JSON → Except String α)
    (es : List JSON) (ds : List α)
    (h : List.Forall₂ (fun e d => dec zero e = Except.ok d) es ds) :
    decodeElems zero dec [] es = Except.ok ds := by
  induction h with
  | nil => rfl
  | cons hd _ ih => simp [decodeElems, hd, ih]

theorem decodeSlice_fresh {α : Type} (goType : String) (zero : α)
    (dec : α → JSON → Except String α) (es : List JSON) (ds : List α)
    (h : List.Forall₂ (fun e d => dec zero e = Except.ok d) es ds) :
    decodeSlice goType zero dec Slice.nil (JSON.arr es) = Except.ok (Slice.ofList ds) := by
  cases h with
  | nil => rfl
  | cons hd tl =>
    have := decodeElems_of_forall₂ zero dec _ _ (List.Forall₂.cons hd tl)
    simp only [decodeSlice, Slice.nil, List.append_nil, this, List.drop_nil]
    rfl

theorem ApiResponseStatus_decodeField_ok (cur : ApiResponseStatus) (tag : String) (v : JSON)
    (h : statusValueOk tag v = true) :
    ∃ next, ApiResponseStatus.decodeField cur tag v = Except.ok next := by
  unfold ApiResponseStatus.decodeField
  unfold statusValueOk at h
  by_cases h1 : tag = "code"
  · have h2 : tag ≠ "requestId" := by rw [h1]; decide
    simp only [h1, if_true] at h
    rw [if_neg h2, if_pos h1]
    cases v <;> simp [decodeInt, Except.map] at h ⊢
    rename_i lit
    cases hp : parseInt lit with
    | none => simp [hp] at h
    | some n => simp
  · rw [if_neg h1] at h
    by_cases h2 : tag = "requestId"
    · rw [if_pos h2]
      simp only [h2, true_or, if_true] at h
      cases v <;> simp [decodeString, Except.map] at h ⊢
    · rw [if_neg h2, if_neg h1]
      by_cases h3 : tag = "msg"
      · rw [if_pos h3]
        simp only [h3, or_true, if_true] at h
        cases v <;> simp [decodeString, Except.map] at h ⊢
      · rw [if_neg h3]
        exact ⟨cur, rfl⟩

theorem DiscoveryApiResponse_decodeField_status {F : Type} (pf : String → Option F)
    (cur : DiscoveryApiResponse F) (m : String × JSON)
    (hnot : lookupField discoveryTags m.1 ≠ some "data")
    (hok : statusMemberOk discoveryTags m = true) :
    ∃ next, DiscoveryApiResponse.decodeField pf cur m.1 m.2 = Except.ok next ∧
      next.Data = cur.Data := by
  unfold DiscoveryApiResponse.decodeField
  unfold statusMemberOk at hok
  cases hl : lookupField discoveryTags m.1 with
  | none => exact ⟨cur, rfl, rfl⟩
  | some tag =>
    rw [hl] at hok hnot
    have htag : tag ≠ "data" := fun h => hnot (by rw [h])
    obtain ⟨st, hst⟩ := ApiResponseStatus_decodeField_ok cur.Status tag m.2 hok
    split
    · rename_i heq
      exact absurd (Option.some.inj heq) htag
    · rename_i tag2 _ heq
      have : tag2 = tag := (Option.some.inj heq).symm
      subst this
      exact ⟨{ cur with Status := st }, by simp [hst, Except.map], rfl⟩
    · rename_i heq
      exact absurd heq (by simp)

theorem DiscoveryApiResponse_decode_data {F : Type} (pf : String → Option F)
    (pre post : List (String × JSON)) (k : String) (elems : List JSON)
    (devs : List (DeviceInfo F))
    (hk : lookupField discoveryTags k = some "data")
    (hothers : ∀ m ∈ pre ++ post,
      lookupField discoveryTags m.1 ≠ some "data" ∧ statusMemberOk discoveryTags m = true)
    (hdevs : List.Forall₂ (fun e d => DeviceInfo.decode pf DeviceInfo.zero e = Except.ok d)
      elems devs) :
    ∃ final, DiscoveryApiResponse.decode pf ⟨ApiResponseStatus.zero, Slice.nil⟩
        (JSON.obj (pre ++ (k, JSON.arr elems) :: post)) = Except.ok final ∧
      final.Data = Slice.ofList devs := by
  have hstep : ∀ (ms : List (String × JSON)) (data : Slice (DeviceInfo F)),
      (∀ m ∈ ms, lookupField discoveryTags m.1 ≠ some "data" ∧
        statusMemberOk discoveryTags m = true) →
      ∀ cur : DiscoveryApiResponse F, cur.Data = data →
      ∃ final, decodeMembers (DiscoveryApiResponse.decodeField pf) cur ms = Except.ok final ∧
        final.Data = data := by
    intro ms data hms cur hcur
    refine decodeMembers_invariant _ (fun r => r.Data = data) ms ?_ cur hcur
    intro cur m hm hc
    obtain ⟨next, h1, h2⟩ :=
      DiscoveryApiResponse_decodeField_status pf cur m (hms m hm).1 (hms m hm).2
    exact ⟨next, h1, h2.trans hc⟩
  obtain ⟨mid, hmid, hmidData⟩ := hstep pre Slice.nil
    (fun m hm => hothers m (List.mem_append_left _ hm)) ⟨ApiResponseStatus.zero, Slice.nil⟩ rfl
  have hfield : DiscoveryApiResponse.decodeField pf mid k (JSON.arr elems) =
      Except.ok { mid with Data := Slice.ofList devs } := by
    unfold DiscoveryApiResponse.decodeField
    rw [hk]
    simp only [hmidData, decodeSlice_fresh _ _ _ _ _ hdevs, Except.map]
  obtain ⟨final, hfinal, hfinalData⟩ := hstep post (Slice.ofList devs)
    (fun m hm => hothers m (List.mem_append_right _ hm)) { mid with Data := Slice.ofList devs } rfl
  refine ⟨final, ?_, hfinalData⟩
  show decodeMembers _ _ (pre ++ (k, JSON.arr elems) :: post) = _
  rw [decodeMembers_append, hmid]
  simp [Except.bind, decodeMembers, hfield, hfinal]

theorem GetDevices_of_body {F : Type} (env : Env F) (c : Client) (hc : HttpClient)
    (url : String) (req : Request) (resp : Response)
    (hclient : c.HTTPClient = some hc)
    (hurl : urlJoinPath goveeApiUrl goveeDevices = Except.ok url)
    (hreq : c.buildRequest env "GET" url none = Except.ok req)
    (hdo : env.Do hc req = Except.ok resp)
    (h2xx : 200 ≤ resp.StatusCode ∧ resp.StatusCode < 300)
    (hread : resp.Body.readErr = none)
    (final : DiscoveryApiResponse F)
    (hdec : unmarshalDiscoveryApiResponse env.ParseFloat resp.Body.data = Except.ok final) :
    c.GetDevices env = Outcome.returned final.Data.elems none := by
  have hdoReq := doRequest_of_response env c hc "GET" url none req resp hclient hreq hdo
  rw [(resolveHTTPError_eq_none_iff resp).2 h2xx, hread] at hdoReq
  unfold Client.GetDevices
  simp only [hurl]
  rw [hdoReq]
  simp [Option.elim, hdec]

theorem DeviceInfo_decodeField_unknown {F : Type} (pf : String → Option F)
    (cur : DeviceInfo F) (key : String) (v : JSON) (h : lookupField deviceTags key = none) :
    DeviceInfo.decodeField pf cur key v = Except.ok cur := by
  unfold DeviceInfo.decodeField
  rw [h]

theorem DeviceInfo_decodeField_capabilities {F : Type} (pf : String → Option F)
    (cur next : DeviceInfo F) (key : String) (v : JSON)
    (h : DeviceInfo.decodeField pf cur key v = Except.ok next)
    (hv : lookupField deviceTags key = some "capabilities" → v = JSON.arr []) :
    next.Capabilities = Slice.nil ∨ next.Capabilities = cur.Capabilities := by
  unfold DeviceInfo.decodeField at h
  split at h
  all_goals first
    | (rw [Except_map_eq_ok_iff] at h
       obtain ⟨x, _, hx⟩ := h
       rw [← hx]
       exact Or.inr rfl)
    | (rename_i heq
       rw [hv heq] at h
       simp only [decodeSlice, Except.map] at h
       injection h with h
       rw [← h]
       exact Or.inl rfl)
    | (injection h with h
       rw [← h]
       exact Or.inr rfl)

theorem decodeMembers_preserves {α : Type} (field : α → String → JSON → Except String α)
    (P : α → Prop) (ms : List (String × JSON))
    (h : ∀ cur next m, m ∈ ms → field cur m.1 m.2 = Except.ok next → P cur → P next)
    (cur final : α) (hdec : decodeMembers field cur ms = Except.ok final) (hcur : P cur) :
    P final := by
  induction ms generalizing cur with
  | nil =>
    simp only [decodeMembers] at hdec
    injection hdec with hdec
    exact hdec ▸ hcur
  | cons m ms ih =>
    obtain ⟨k, v⟩ := m
    simp only [decodeMembers] at hdec
    cases hf : field cur k v with
    | error e => simp [hf] at hdec
    | ok next =>
      simp only [hf] at hdec
      exact ih (fun cur next m hm => h cur next m (List.mem_cons_of_mem _ hm)) next hdec
        (h cur next (k, v) (List.mem_cons_self _ _) hf hcur)

theorem DeviceInfo_decode_no_capabilities {F : Type} (pf : String → Option F)
    (dms : List (String × JSON)) (d : DeviceInfo F)
    (hdec : DeviceInfo.decode pf DeviceInfo.zero (JSON.obj dms) = Except.ok d)
    (hcap : ∀ m ∈ dms, lookupField deviceTags m.1 = some "capabilities" → m.2 = JSON.arr []) :
    d.Capabilities = Slice.nil := by
  refine decodeMembers_preserves (DeviceInfo.decodeField pf)
    (fun r => r.Capabilities = Slice.nil) dms ?_ DeviceInfo.zero d hdec rfl
  intro cur next m hm hf hcur
  rcases DeviceInfo_decodeField_capabilities pf cur next m.1 m.2 hf (hcap m hm) with h | h
  · exact h
  · exact h.trans hcur

theorem DeviceStateApiResponse_decodeField_status {F : Type} (pf : String → Option F)
    (cur : DeviceStateApiResponse F) (m : String × JSON)
    (hnot : lookupField stateTags m.1 ≠ some "payload")
    (hok : statusMemberOk stateTags m = true) :
    ∃ next, DeviceStateApiResponse.decodeField pf cur m.1 m.2 = Except.ok next ∧
      next.Payload = cur.Payload := by
  unfold DeviceStateApiResponse.decodeField
  unfold statusMemberOk at hok
  cases hl : lookupField stateTags m.1 with
  | none => exact ⟨cur, rfl, rfl⟩
  | some tag =>
    rw [hl] at hok hnot
    have htag : tag ≠ "payload" := fun h => hnot (by rw [h])
    obtain ⟨st, hst⟩ := ApiResponseStatus_decodeField_ok cur.Status tag m.2 hok
    split
    · rename_i heq
      exact absurd (Option.some.inj heq) htag
    · rename_i tag2 _ heq
      have : tag2 = tag := (Option.some.inj heq).symm
      subst this
      exact ⟨{ cur with Status := st }, by simp [hst, Except.map], rfl⟩
    · rename_i heq
      exact absurd heq (by simp)

theorem DeviceStateApiResponse_decodeField_null_or_status {F : Type} (pf : String → Option F)
    (cur : DeviceStateApiResponse F) (m : String × JSON)
    (hnull : lookupField stateTags m.1 = some "payload" → m.2 = JSON.null)
    (hok : statusMemberOk stateTags m = true) (hcur : cur.Payload = none) :
    ∃ next, DeviceStateApiResponse.decodeField pf cur m.1 m.2 = Except.ok next ∧
      next.Payload = none := by
  by_cases hp : lookupField stateTags m.1 = some "payload"
  · refine ⟨{ cur with Payload := none }, ?_, rfl⟩
    unfold DeviceStateApiResponse.decodeField
    rw [hp, hnull hp]
    simp [decodeDeviceInfoPtr, Except.map]
  · obtain ⟨next, h1, h2⟩ := DeviceStateApiResponse_decodeField_status pf cur m hp hok
    exact ⟨next, h1, h2.trans hcur⟩

theorem DeviceStateApiResponse_decode_null {F : Type} (pf : String → Option F)
    (ms : List (String × JSON))
    (hms : ∀ m ∈ ms, (lookupField stateTags m.1 = some "payload" → m.2 = JSON.null) ∧
      statusMemberOk stateTags m = true) :
    ∃ final, DeviceStateApiResponse.decode pf ⟨ApiResponseStatus.zero, none⟩ (JSON.obj ms) =
      Except.ok final ∧ final.Payload = none := by
  refine decodeMembers_invariant (DeviceStateApiResponse.decodeField pf)
    (fun r : DeviceStateApiResponse F => r.Payload = none) ms ?_
    ⟨ApiResponseStatus.zero, none⟩ rfl
  intro cur m hm hc
  exact DeviceStateApiResponse_decodeField_null_or_status pf cur m (hms m hm).1 (hms m hm).2 hc

theorem DeviceStateApiResponse_decode_device {F : Type} (pf : String → Option F)
    (pre post : List (String × JSON)) (k : String) (dms : List (String × JSON))
    (d : DeviceInfo F)
    (hk : lookupField stateTags k = some "payload")
    (hothers : ∀ m ∈ pre ++ post,
      lookupField stateTags m.1 ≠ some "payload" ∧ statusMemberOk stateTags m = true)
    (hdev : DeviceInfo.decode pf DeviceInfo.zero (JSON.obj dms) = Except.ok d) :
    ∃ final, DeviceStateApiResponse.decode pf ⟨ApiResponseStatus.zero, none⟩
        (JSON.obj (pre ++ (k, JSON.obj dms) :: post)) = Except.ok final ∧
      final.Payload = some d := by
  have hstep : ∀ (ms : List (String × JSON)) (p : Option (DeviceInfo F)),
      (∀ m ∈ ms, lookupField stateTags m.1 ≠ some "payload" ∧
        statusMemberOk stateTags m = true) →
      ∀ cur : DeviceStateApiResponse F, cur.Payload = p →
      ∃ final, decodeMembers (DeviceStateApiResponse.decodeField pf) cur ms = Except.ok final ∧
        final.Payload = p := by
    intro ms p hms cur hcur
    refine decodeMembers_invariant _ (fun r => r.Payload = p) ms ?_ cur hcur
    intro cur m hm hc
    obtain ⟨next, h1, h2⟩ :=
      DeviceStateApiResponse_decodeField_status pf cur m (hms m hm).1 (hms m hm).2
    exact ⟨next, h1, h2.trans hc⟩
  obtain ⟨mid, hmid, hmidP⟩ := hstep pre none
    (fun m hm => hothers m (List.mem_append_left _ hm)) ⟨ApiResponseStatus.zero, none⟩ rfl
  have hfield : DeviceStateApiResponse.decodeField pf mid k (JSON.obj dms) =
      Except.ok { mid with Payload := some d } := by
    unfold DeviceStateApiResponse.decodeField
    rw [hk]
    simp [decodeDeviceInfoPtr, hmidP, hdev, Except.map]
  obtain ⟨final, hfinal, hfinalP⟩ := hstep post (some d)
    (fun m hm => hothers m (List.mem_append_right _ hm)) { mid with Payload := some d } rfl
  refine ⟨final, ?_, hfinalP⟩
  show decodeMembers _ _ (pre ++ (k, JSON.obj dms) :: post) = _
  rw [decodeMembers_append, hmid]
  simp [Except.bind, decodeMembers, hfield, hfinal]

theorem GetDeviceState_of_body {F : Type} (env : Env F) (c : Client) (hc : HttpClient)
    (device : DeviceInfo F) (url : String) (req : Request) (resp : Response)
    (hclient : c.HTTPClient = some hc)
    (hurl : urlJoinPath goveeApiUrl goveeDeviceState = Except.ok url)
    (hreq : c.buildRequest env "POST" url (some (stateRequestPayload device)) = Except.ok req)
    (hdo : env.Do hc req = Except.ok resp)
    (h2xx : 200 ≤ resp.StatusCode ∧ resp.StatusCode < 300)
    (hread : resp.Body.readErr = none)
    (final : DeviceStateApiResponse F)
    (hdec : unmarshalDeviceStateApiResponse env.ParseFloat resp.Body.data = Except.ok final) :
    c.GetDeviceState env device = Outcome.returned final.Payload none := by
  have hdoReq := doRequest_of_response env c hc "POST" url (some (stateRequestPayload device))
    req resp hclient hreq hdo
  rw [(resolveHTTPError_eq_none_iff resp).2 h2xx, hread] at hdoReq
  unfold Client.GetDeviceState
  simp only [hurl]
  rw [hdoReq]
  simp [Option.elim, hdec]

/-! ## Scanning what the encoder wrote -/

theorem hexDigit_plain : ∀ n : Nat, n < 16 → plainChar (hexDigit n) := by
  decide

theorem hex4_low : ∀ n : Nat, n < 128 →
    hex4 '0' '0' (hexDigit (n / 16)) (hexDigit (n % 16)) = some n ∧ isSurrogate n = false := by
  decide

theorem Char_ofNat_toNat (c : Char) : Char.ofNat c.toNat = c := by
  have h : c.toNat.isValidChar := c.valid
  simp only [Char.ofNat, h, dite_true]
  rfl

theorem scanString_cons_plain (c : Char) (tail : List Char)
    (h1 : c ≠ '"') (h2 : c ≠ '\\') (h3 : ¬ c.toNat < 0x20) :
    scanString (c :: tail) = consRaw [c] (scanString tail) := by
  rw [scanString.eq_def]
  simp only [h1, h2, h3, if_false]

theorem consRaw_consRaw (a b : List Char) (r : Option (List Char × List Char)) :
    consRaw a (consRaw b r) = consRaw (a ++ b) r := by
  cases r with
  | none => rfl
  | some p => simp [consRaw]

theorem scanString_hex_escape (a b x y : Char) (n : Nat) (tail : List Char)
    (hn : hex4 a b x y = some n)
    (ha : a ≠ '"' ∧ a ≠ '\\' ∧ ¬ a.toNat < 0x20) (hb : b ≠ '"' ∧ b ≠ '\\' ∧ ¬ b.toNat < 0x20)
    (hx : x ≠ '"' ∧ x ≠ '\\' ∧ ¬ x.toNat < 0x20) (hy : y ≠ '"' ∧ y ≠ '\\' ∧ ¬ y.toNat < 0x20) :
    scanString ('\\' :: 'u' :: a :: b :: x :: y :: tail) =
      consRaw ['\\', 'u', a, b, x, y] (scanString tail) := by
  rw [scanString.eq_def]
  simp only [hexPrefix, hn]
  rw [scanString_cons_plain a _ ha.1 ha.2.1 ha.2.2, scanString_cons_plain b _ hb.1 hb.2.1 hb.2.2,
    scanString_cons_plain x _ hx.1 hx.2.1 hx.2.2, scanString_cons_plain y _ hy.1 hy.2.1 hy.2.2]
  simp [consRaw_consRaw]

theorem unquoteAux_hex_escape (fuel : Nat) (a b x y : Char) (n : Nat) (tail : List Char)
    (hn : hex4 a b x y = some n) (hs : isSurrogate n = false) :
    unquoteAux (fuel + 1) ('\\' :: 'u' :: a :: b :: x :: y :: tail) =
      (unquoteAux fuel tail).map (List.cons (Char.ofNat n)) := by
  rw [unquoteAux.eq_def]
  simp [hexPrefix, hn, hs]

theorem escapeChar_cases (c : Char) :
    (∃ e, escapeChar c = ['\\', e] ∧ e ≠ 'u' ∧ unescapeChar e = some c) ∨
    (∃ a b x y, escapeChar c = ['\\', 'u', a, b, x, y] ∧ hex4 a b x y = some c.toNat ∧
      isSurrogate c.toNat = false ∧ plainChar a ∧ plainChar b ∧ plainChar x ∧ plainChar y) ∨
    (escapeChar c = [c] ∧ plainChar c) := by
  by_cases h1 : c = '"'
  · subst h1; exact Or.inl ⟨'"', by decide, by decide, by decide⟩
  by_cases h2 : c = '\\'
  · subst h2; exact Or.inl ⟨'\\', by decide, by decide, by decide⟩
  by_cases h3 : c = Char.ofNat 8
  · subst h3; exact Or.inl ⟨'b', by decide, by decide, by decide⟩
  by_cases h4 : c = Char.ofNat 12
  · subst h4; exact Or.inl ⟨'f', by decide, by decide, by decide⟩
  by_cases h5 : c = '\n'
  · subst h5; exact Or.inl ⟨'n', by decide, by decide, by decide⟩
  by_cases h6 : c = '\r'
  · subst h6; exact Or.inl ⟨'r', by decide, by decide, by decide⟩
  by_cases h7 : c = '\t'
  · subst h7; exact Or.inl ⟨'t', by decide, by decide, by decide⟩
  by_cases h8 : c.toNat < 0x20 ∨ c = '<' ∨ c = '>' ∨ c = '&'
  · have hlt : c.toNat < 128 := by
      rcases h8 with h | h | h | h
      · omega
      · subst h; decide
      · subst h; decide
      · subst h; decide
    obtain ⟨hh, hs⟩ := hex4_low c.toNat hlt
    refine Or.inr (Or.inl ⟨'0', '0', hexDigit (c.toNat / 16), hexDigit (c.toNat % 16), ?_, hh, hs,
      by decide, by decide, hexDigit_plain _ (by omega), hexDigit_plain _ (by omega)⟩)
    unfold escapeChar
    rw [if_neg h1, if_neg h2, if_neg h3, if_neg h4, if_neg h5, if_neg h6, if_neg h7, if_pos h8]
  by_cases h9 : c = Char.ofNat 0x2028
  · subst h9
    exact Or.inr (Or.inl ⟨'2', '0', '2', '8', by decide, by decide, by decide, by decide,
      by decide, by decide, by decide⟩)
  by_cases h10 : c = Char.ofNat 0x2029
  · subst h10
    exact Or.inr (Or.inl ⟨'2', '0', '2', '9', by decide, by decide, by decide, by decide,
      by decide, by decide, by decide⟩)
  refine Or.inr (Or.inr ⟨?_, h1, h2, fun h => h8 (Or.inl h)⟩)
  unfold escapeChar
  rw [if_neg h1, if_neg h2, if_neg h3, if_neg h4, if_neg h5, if_neg h6, if_neg h7, if_neg h8,
    if_neg h9, if_neg h10]

theorem escapeChar_spec (c : Char) (tail : List Char) (fuel : Nat) :
    scanString (escapeChar c ++ tail) = consRaw (escapeChar c) (scanString tail) ∧
    unquoteAux (fuel + 1) (escapeChar c ++ tail) = (unquoteAux fuel tail).map (List.cons c) := by
  rcases escapeChar_cases c with ⟨e, hesc, he, hu⟩ | ⟨a, b, x, y, hesc, hn, hs, ha, hb, hx, hy⟩ |
    ⟨hesc, h1, h2, h3⟩
  · rw [hesc]
    constructor
    · show scanString ('\\' :: e :: tail) = _
      rw [scanString.eq_def]
      simp [he, hu]
    · show unquoteAux (fuel + 1) ('\\' :: e :: tail) = _
      rw [unquoteAux.eq_def]
      simp [he, hu]
  · rw [hesc]
    constructor
    · exact scanString_hex_escape a b x y _ tail hn ha hb hx hy
    · have := unquoteAux_hex_escape fuel a b x y _ tail hn hs
      rw [Char_ofNat_toNat] at this
      exact this
  · rw [hesc]
    constructor
    · exact scanString_cons_plain c tail h1 h2 h3
    · show unquoteAux (fuel + 1) (c :: tail) = _
      rw [unquoteAux.eq_def]
      simp [h2]

theorem escapeAll_length (s : List Char) : s.length ≤ (escapeAll s).length := by
  induction s with
  | nil => simp [escapeAll]
  | cons c s ih =>
    have : 1 ≤ (escapeChar c).length := by
      rcases escapeChar_cases c with ⟨e, h, _⟩ | ⟨a, b, x, y, h, _⟩ | ⟨h, _⟩ <;> rw [h] <;> simp
    simp only [escapeAll, List.length_append, List.length_cons]
    omega

theorem scanString_escapeAll (s rest : List Char) :
    scanString (escapeAll s ++ '"' :: rest) = some (escapeAll s, rest) := by
  induction s with
  | nil =>
    show scanString ('"' :: rest) = _
    rw [scanString.eq_def]
    simp [escapeAll]
  | cons c s ih =>
    simp only [escapeAll, List.append_assoc]
    rw [(escapeChar_spec c _ 0).1, ih]
    simp [consRaw]

theorem unquoteAux_escapeAll (s : List Char) (fuel : Nat) (h : s.length ≤ fuel) :
    unquoteAux fuel (escapeAll s) = some s := by
  induction s generalizing fuel with
  | nil => simp [escapeAll, unquoteAux]
  | cons c s ih =>
    obtain ⟨fuel, rfl⟩ : ∃ f, fuel = f + 1 := ⟨fuel - 1, by simp at h; omega⟩
    have := (escapeChar_spec c (escapeAll s) fuel).2
    simp only [escapeAll]
    rw [this, ih fuel (by simpa using h)]
    rfl

/-- Scanning the literal of a string gives the string back. -/
theorem parseStringBody_quote (s rest : List Char) :
    parseStringBody (escapeAll s ++ '"' :: rest) = some (s, rest) := by
  unfold parseStringBody unquote
  rw [scanString_escapeAll]
  simp only
  rw [unquoteAux_escapeAll s _ (escapeAll_length s)]

/-! ### Number literals -/

theorem isDelimited_head (c : Char) (rest : List Char) (h : isDelimited (c :: rest) = true) :
    c = ',' ∨ c = ']' ∨ c = '}' := by
  simp only [isDelimited, Bool.or_eq_true, beq_iff_eq] at h
  tauto

theorem takeDigits_append (l rest : List Char) (h : isDelimited rest = true) :
    takeDigits (l ++ rest) = ((takeDigits l).1, (takeDigits l).2 ++ rest) := by
  induction l with
  | nil =>
    cases rest with
    | nil => rfl
    | cons c rest =>
      have hc : c.isDigit = false := by
        rcases isDelimited_head c rest h with h | h | h <;> subst h <;> decide
      simp [takeDigits, hc]
  | cons c l ih =>
    by_cases hc : c.isDigit = true
    · simp [takeDigits, hc, ih]
    · simp [takeDigits, hc]

theorem scanExponent_append (l rest t r : List Char) (h : isDelimited rest = true)
    (hl : scanExponent l = some (t, r)) :
    scanExponent (l ++ rest) = some (t, r ++ rest) := by
  cases l with
  | nil =>
    simp only [scanExponent] at hl
    obtain ⟨rfl, rfl⟩ : [] = t ∧ [] = r := by simpa using hl
    cases rest with
    | nil => rfl
    | cons c rest =>
      have hc : ¬ (c = 'e' ∨ c = 'E') := by
        rcases isDelimited_head c rest h with h | h | h <;> subst h <;> decide
      simp [scanExponent, hc]
  | cons e l =>
    by_cases he : e = 'e' ∨ e = 'E'
    · cases l with
      | nil => simp [scanExponent, he] at hl
      | cons s l =>
        by_cases hs : s = '+' ∨ s = '-'
        · simp only [scanExponent, he, hs, if_true, List.cons_append] at hl ⊢
          rw [takeDigits_append l rest h]
          by_cases hd : (takeDigits l).1 = []
          · simp [hd] at hl
          · simp only [hd, if_false, Option.some.injEq, Prod.mk.injEq] at hl ⊢
            obtain ⟨rfl, rfl⟩ := hl
            exact ⟨rfl, rfl⟩
        · simp only [scanExponent, he, hs, if_true, if_false, List.cons_append] at hl ⊢
          have := takeDigits_append (s :: l) rest h
          simp only [List.cons_append] at this
          rw [this]
          by_cases hd : (takeDigits (s :: l)).1 = []
          · simp [hd] at hl
          · simp only [hd, if_false, Option.some.injEq, Prod.mk.injEq] at hl ⊢
            obtain ⟨rfl, rfl⟩ := hl
            exact ⟨rfl, rfl⟩
    · simp only [scanExponent, he, if_false, List.cons_append] at hl ⊢
      simp only [Option.some.injEq, Prod.mk.injEq] at hl ⊢
      obtain ⟨rfl, rfl⟩ := hl
      exact ⟨rfl, rfl⟩

theorem scanFraction_append (l rest t r : List Char) (h : isDelimited rest = true)
    (hl : scanFraction l = some (t, r)) :
    scanFraction (l ++ rest) = some (t, r ++ rest) := by
  cases l with
  | nil =>
    simp only [scanFraction] at hl
    have := scanExponent_append [] rest t r h hl
    cases rest with
    | nil => simpa [scanFraction] using this
    | cons c rest =>
      have hc : c ≠ '.' := by
        rcases isDelimited_head c rest h with h | h | h <;> subst h <;> decide
      simpa [scanFraction, hc] using this
  | cons c l =>
    by_cases hc : c = '.'
    · simp only [scanFraction, hc, if_true, List.cons_append] at hl ⊢
      rw [takeDigits_append l rest h]
      by_cases hd : (takeDigits l).1 = []
      · simp [hd] at hl
      · simp only [hd, if_false] at hl ⊢
        cases hex : scanExponent (takeDigits l).2 with
        | none => simp [hex] at hl
        | some p =>
          obtain ⟨ex, r1⟩ := p
          rw [scanExponent_append _ rest ex r1 h hex]
          simp only [hex, Option.some.injEq, Prod.mk.injEq] at hl ⊢
          obtain ⟨rfl, rfl⟩ := hl
          exact ⟨rfl, rfl⟩
    · simp only [scanFraction, hc, if_false, List.cons_append] at hl ⊢
      exact scanExponent_append (c :: l) rest t r h hl

theorem scanUnsigned_append (l rest t r : List Char) (h : isDelimited rest = true)
    (hl : scanUnsigned l = some (t, r)) :
    scanUnsigned (l ++ rest) = some (t, r ++ rest) := by
  cases l with
  | nil => simp [scanUnsigned] at hl
  | cons c l =>
    by_cases hc : c = '0'
    · simp only [scanUnsigned, hc, if_true, List.cons_append] at hl ⊢
      cases hf : scanFraction l with
      | none => simp [hf] at hl
      | some p =>
        obtain ⟨t1, r1⟩ := p
        rw [scanFraction_append l rest t1 r1 h hf]
        simp only [hf, Option.some.injEq, Prod.mk.injEq] at hl ⊢
        obtain ⟨rfl, rfl⟩ := hl
        exact ⟨rfl, rfl⟩
    · by_cases hd : c.isDigit = true
      · simp only [scanUnsigned, hc, hd, if_true, if_false, List.cons_append] at hl ⊢
        rw [takeDigits_append l rest h]
        cases hf : scanFraction (takeDigits l).2 with
        | none => simp [hf] at hl
        | some p =>
          obtain ⟨t1, r1⟩ := p
          rw [scanFraction_append _ rest t1 r1 h hf]
          simp only [hf, Option.some.injEq, Prod.mk.injEq] at hl ⊢
          obtain ⟨rfl, rfl⟩ := hl
          exact ⟨rfl, rfl⟩
      · simp [scanUnsigned, hc, hd] at hl

theorem scanNumber_append (l rest t r : List Char) (h : isDelimited rest = true)
    (hl : scanNumber l = some (t, r)) :
    scanNumber (l ++ rest) = some (t, r ++ rest) := by
  cases l with
  | nil => simp [scanNumber] at hl
  | cons c l =>
    by_cases hc : c = '-'
    · simp only [scanNumber, hc, if_true, List.cons_append] at hl ⊢
      cases hf : scanUnsigned l with
      | none => simp [hf] at hl
      | some p =>
        obtain ⟨t1, r1⟩ := p
        rw [scanUnsigned_append l rest t1 r1 h hf]
        simp only [hf, Option.some.injEq, Prod.mk.injEq] at hl ⊢
        obtain ⟨rfl, rfl⟩ := hl
        exact ⟨rfl, rfl⟩
    · simp only [scanNumber, hc, if_false, List.cons_append] at hl ⊢
      exact scanUnsigned_append (c :: l) rest t r h hl

theorem scanNumber_head (l t r : List Char) (hl : scanNumber l = some (t, r)) :
    ∃ c tl, l = c :: tl ∧ (c = '-' ∨ c.isDigit = true) := by
  cases l with
  | nil => simp [scanNumber] at hl
  | cons c l =>
    refine ⟨c, l, rfl, ?_⟩
    by_cases hc : c = '-'
    · exact Or.inl hc
    · right
      simp only [scanNumber, hc, if_false] at hl
      by_cases h0 : c = '0'
      · subst h0; decide
      · by_cases hd : c.isDigit = true
        · exact hd
        · simp [scanUnsigned, h0, hd] at hl

/-- A number literal is scanned as itself in front of a delimiter. -/
theorem scanNumber_valid (lit : String) (rest : List Char) (hv : validNumber lit)
    (h : isDelimited rest = true) :
    scanNumber (lit.data ++ rest) = some (lit.data, rest) := by
  have := scanNumber_append lit.data rest lit.data [] h hv
  simpa using this

/-! ### Scanning the text of a value -/

theorem skipSpace_cons (c : Char) (cs : List Char) (h : isSpace c = false) :
    skipSpace (c :: cs) = c :: cs := by
  simp [skipSpace, h]

theorem stripWord_append (w rest : List Char) : stripWord w (w ++ rest) = some rest := by
  induction w with
  | nil => cases rest <;> rfl
  | cons c w ih => simp [stripWord, ih]

theorem String_mk_data (s : String) : String.mk s.data = s := rfl

theorem numberHead_facts (c : Char) (h : c = '-' ∨ c.isDigit = true) :
    isSpace c = false ∧ c ≠ '{' ∧ c ≠ '[' ∧ c ≠ '"' ∧ c ≠ 't' ∧ c ≠ 'f' ∧ c ≠ 'n' ∧
      c ≠ ']' ∧ c ≠ '}' := by
  rcases h with h | h
  · subst h; decide
  · have hne : ∀ d : Char, d.isDigit = false → c ≠ d := by
      intro d hd heq
      rw [heq, hd] at h
      exact Bool.false_ne_true h
    refine ⟨?_, hne _ (by decide), hne _ (by decide), hne _ (by decide), hne _ (by decide),
      hne _ (by decide), hne _ (by decide), hne _ (by decide), hne _ (by decide)⟩
    have h1 := hne ' ' (by decide)
    have h2 := hne '\t' (by decide)
    have h3 := hne '\r' (by decide)
    have h4 := hne '\n' (by decide)
    simp [isSpace, h1, h2, h3, h4]

/-- The text of a value starts with a character that is neither whitespace
nor a closing bracket or brace. -/
theorem printJSON_head (j : JSON) (hv : j.NumbersValid) :
    ∃ c tl, printJSON j = c :: tl ∧ isSpace c = false ∧ c ≠ ']' ∧ c ≠ '}' := by
  cases j with
  | null => exact ⟨'n', _, rfl, by decide, by decide, by decide⟩
  | bool b =>
    cases b
    · exact ⟨'f', _, rfl, by decide, by decide, by decide⟩
    · exact ⟨'t', _, rfl, by decide, by decide, by decide⟩
  | num lit =>
    simp only [JSON.NumbersValid] at hv
    obtain ⟨c, tl, hc, hd⟩ := scanNumber_head lit.data _ _ hv
    obtain ⟨h1, _, _, _, _, _, _, h8, h9⟩ := numberHead_facts c hd
    exact ⟨c, tl, by simp [printJSON, hc], h1, h8, h9⟩
  | str s => exact ⟨'"', escapeAll s.data ++ ['"'], rfl, by decide, by decide, by decide⟩
  | arr es => exact ⟨'[', printElems true es, rfl, by decide, by decide, by decide⟩
  | obj ms => exact ⟨'{', printMembers true ms, rfl, by decide, by decide, by decide⟩

theorem isDelimited_printElems (es : List JSON) (rest : List Char) :
    isDelimited (printElems false es ++ rest) = true := by
  cases es <;> simp [printElems, isDelimited]

theorem isDelimited_printMembers (ms : List (String × JSON)) (rest : List Char) :
    isDelimited (printMembers false ms ++ rest) = true := by
  cases ms with
  | nil => simp [printMembers, isDelimited]
  | cons m ms => obtain ⟨k, v⟩ := m; simp [printMembers, isDelimited]

theorem parseValue_atoms (fuel depth : Nat) (rest : List Char) (hr : isDelimited rest = true) :
    parseValue (fuel + 1) depth (printJSON JSON.null ++ rest) = some (JSON.null, rest) ∧
    (∀ b, parseValue (fuel + 1) depth (printJSON (JSON.bool b) ++ rest) =
      some (JSON.bool b, rest)) ∧
    (∀ s, parseValue (fuel + 1) depth (printJSON (JSON.str s) ++ rest) =
      some (JSON.str s, rest)) ∧
    (∀ lit, validNumber lit → parseValue (fuel + 1) depth (printJSON (JSON.num lit) ++ rest) =
      some (JSON.num lit, rest)) := by
  refine ⟨?_, ?_, ?_, ?_⟩
  · rw [parseValue]
    have h : printJSON JSON.null ++ rest = 'n' :: ('u' :: 'l' :: 'l' :: rest) := rfl
    rw [h, skipSpace_cons _ _ (by decide)]
    simp [stripWord]
  · intro b
    rw [parseValue]
    cases b
    · have h : printJSON (JSON.bool false) ++ rest = 'f' :: ('a' :: 'l' :: 's' :: 'e' :: rest) :=
        rfl
      rw [h, skipSpace_cons _ _ (by decide)]
      simp [stripWord]
    · have h : printJSON (JSON.bool true) ++ rest = 't' :: ('r' :: 'u' :: 'e' :: rest) := rfl
      rw [h, skipSpace_cons _ _ (by decide)]
      simp [stripWord]
  · intro s
    rw [parseValue]
    have h : printJSON (JSON.str s) ++ rest = '"' :: (escapeAll s.data ++ '"' :: rest) := by
      simp [printJSON, quoteString]
    rw [h, skipSpace_cons _ _ (by decide)]
    simp [parseStringBody_quote]
  · intro lit hv
    obtain ⟨c, tl, hc, hd⟩ := scanNumber_head lit.data _ _ hv
    obtain ⟨h1, h2, h3, h4, h5, h6, h7, _, _⟩ := numberHead_facts c hd
    have hscan := scanNumber_valid lit rest hv hr
    rw [parseValue]
    simp only [printJSON]
    rw [hc] at hscan ⊢
    simp only [List.cons_append] at hscan ⊢
    rw [skipSpace_cons _ _ h1]
    simp only [h2, h3, h4, h5, h6, h7, if_false, hscan]
    rw [← hc]

mutual
/-- The scanner reads the text of a value back as the value. -/
theorem parseValue_printJSON : ∀ (j : JSON) (fuel depth : Nat) (rest : List Char),
    j.fuel ≤ fuel → depth + j.depth ≤ maxNestingDepth → j.NumbersValid →
    isDelimited rest = true →
    parseValue fuel depth (printJSON j ++ rest) = some (j, rest)
  | JSON.null, fuel, depth, rest, hf, _, _, hr => by
    obtain ⟨f, rfl⟩ : ∃ f, fuel = f + 1 := ⟨fuel - 1, by simp only [JSON.fuel] at hf; omega⟩
    exact (parseValue_atoms f depth rest hr).1
  | JSON.bool b, fuel, depth, rest, hf, _, _, hr => by
    obtain ⟨f, rfl⟩ : ∃ f, fuel = f + 1 := ⟨fuel - 1, by simp only [JSON.fuel] at hf; omega⟩
    exact (parseValue_atoms f depth rest hr).2.1 b
  | JSON.str s, fuel, depth, rest, hf, _, _, hr => by
    obtain ⟨f, rfl⟩ : ∃ f, fuel = f + 1 := ⟨fuel - 1, by simp only [JSON.fuel] at hf; omega⟩
    exact (parseValue_atoms f depth rest hr).2.2.1 s
  | JSON.num lit, fuel, depth, rest, hf, _, hv, hr => by
    obtain ⟨f, rfl⟩ : ∃ f, fuel = f + 1 := ⟨fuel - 1, by simp only [JSON.fuel] at hf; omega⟩
    exact (parseValue_atoms f depth rest hr).2.2.2 lit (by simpa [JSON.NumbersValid] using hv)
  | JSON.arr [], fuel, depth, rest, hf, hd, _, _ => by
    obtain ⟨f, rfl⟩ : ∃ f, fuel = f + 1 := ⟨fuel - 1, by simp only [JSON.fuel] at hf; omega⟩
    have hdepth : ¬ maxNestingDepth ≤ depth := by simp only [JSON.depth] at hd; omega
    have h : printJSON (JSON.arr []) ++ rest = '[' :: (']' :: rest) := rfl
    rw [parseValue, h, skipSpace_cons _ _ (by decide)]
    simp [hdepth, skipSpace, isSpace]
  | JSON.arr (e :: es), fuel, depth, rest, hf, hd, hv, hr => by
    obtain ⟨f, rfl⟩ : ∃ f, fuel = f + 1 := ⟨fuel - 1, by simp only [JSON.fuel] at hf; omega⟩
    have hdepth : ¬ maxNestingDepth ≤ depth := by simp only [JSON.depth] at hd; omega
    have ih := parseElems_printElems (e :: es) f (depth + 1) rest (by simp)
      (by simp only [JSON.fuel] at hf; omega) (by simp only [JSON.depth] at hd; omega)
      (by simpa [JSON.NumbersValid] using hv) hr
    obtain ⟨c, tl, hc, hsp, hne, _⟩ := printJSON_head e
      (by simp only [JSON.NumbersValid, JSON.NumbersValidElems] at hv; exact hv.1)
    have h : printJSON (JSON.arr (e :: es)) ++ rest = '[' :: (printElems true (e :: es) ++ rest) :=
      rfl
    rw [parseValue, h, skipSpace_cons _ _ (by decide)]
    simp only [hdepth, if_false, ih]
    have h2 : printElems true (e :: es) ++ rest = c :: (tl ++ (printElems false es ++ rest)) := by
      simp [printElems, hc]
    rw [h2, skipSpace_cons _ _ hsp]
    simp [hne]
  | JSON.obj [], fuel, depth, rest, hf, hd, _, _ => by
    obtain ⟨f, rfl⟩ : ∃ f, fuel = f + 1 := ⟨fuel - 1, by simp only [JSON.fuel] at hf; omega⟩
    have hdepth : ¬ maxNestingDepth ≤ depth := by simp only [JSON.depth] at hd; omega
    have h : printJSON (JSON.obj []) ++ rest = '{' :: ('}' :: rest) := rfl
    rw [parseValue, h, skipSpace_cons _ _ (by decide)]
    simp [hdepth, skipSpace, isSpace]
  | JSON.obj (m :: ms), fuel, depth, rest, hf, hd, hv, hr => by
    obtain ⟨f, rfl⟩ : ∃ f, fuel = f + 1 := ⟨fuel - 1, by simp only [JSON.fuel] at hf; omega⟩
    have hdepth : ¬ maxNestingDepth ≤ depth := by simp only [JSON.depth] at hd; omega
    have ih := parseMembers_printMembers (m :: ms) f (depth + 1) rest (by simp)
      (by simp only [JSON.fuel] at hf; omega) (by simp only [JSON.depth] at hd; omega)
      (by simpa [JSON.NumbersValid] using hv) hr
    have h : printJSON (JSON.obj (m :: ms)) ++ rest =
        '{' :: (printMembers true (m :: ms) ++ rest) := rfl
    rw [parseValue, h, skipSpace_cons _ _ (by decide)]
    simp only [hdepth, if_false, ih]
    obtain ⟨k, v⟩ := m
    have h2 : printMembers true ((k, v) :: ms) ++ rest =
        '"' :: (escapeAll k.data ++ ['"'] ++ (':' :: (printJSON v ++ printMembers false ms)) ++
          rest) := by
      simp [printMembers, quoteString]
    rw [h2, skipSpace_cons _ _ (by decide)]
    simp
/-- The scanner reads the elements of an array back. -/
theorem parseElems_printElems : ∀ (es : List JSON) (fuel depth : Nat) (rest : List Char),
    es ≠ [] → JSON.fuelElems es ≤ fuel → depth + JSON.depthElems es ≤ maxNestingDepth →
    JSON.NumbersValidElems es → isDelimited rest = true →
    parseElems fuel depth (printElems true es ++ rest) = some (es, rest)
  | [], _, _, _, hne, _, _, _, _ => absurd rfl hne
  | [e], fuel, depth, rest, _, hf, hd, hv, _ => by
    obtain ⟨f, rfl⟩ : ∃ f, fuel = f + 1 := ⟨fuel - 1, by simp only [JSON.fuelElems] at hf; omega⟩
    have ih := parseValue_printJSON e f depth (']' :: rest)
      (by simp only [JSON.fuelElems] at hf; omega)
      (by simp only [JSON.depthElems] at hd; omega)
      (by simp only [JSON.NumbersValidElems] at hv; exact hv.1) (by simp [isDelimited])
    have h : printElems true [e] ++ rest = printJSON e ++ (']' :: rest) := by
      simp [printElems]
    rw [parseElems, h, ih]
    simp [skipSpace, isSpace]
  | e :: e2 :: es, fuel, depth, rest, _, hf, hd, hv, hr => by
    obtain ⟨f, rfl⟩ : ∃ f, fuel = f + 1 := ⟨fuel - 1, by simp only [JSON.fuelElems] at hf; omega⟩
    have ih := parseValue_printJSON e f depth (',' :: (printElems true (e2 :: es) ++ rest))
      (by simp only [JSON.fuelElems] at hf; omega)
      (by simp only [JSON.depthElems] at hd; omega)
      (by simp only [JSON.NumbersValidElems] at hv; exact hv.1) (by simp [isDelimited])
    have ih2 := parseElems_printElems (e2 :: es) f depth rest (by simp)
      (by simp only [JSON.fuelElems] at hf ⊢; omega)
      (by simp only [JSON.depthElems] at hd ⊢; omega)
      (by simp only [JSON.NumbersValidElems] at hv ⊢; exact hv.2) hr
    have h : printElems true (e :: e2 :: es) ++ rest =
        printJSON e ++ (',' :: (printElems true (e2 :: es) ++ rest)) := by
      simp [printElems]
    rw [parseElems, h, ih]
    simp [skipSpace, isSpace, ih2]
/-- The scanner reads the members of an object back. -/
theorem parseMembers_printMembers : ∀ (ms : List (String × JSON)) (fuel depth : Nat)
    (rest : List Char),
    ms ≠ [] → JSON.fuelMembers ms ≤ fuel → depth + JSON.depthMembers ms ≤ maxNestingDepth →
    JSON.NumbersValidMembers ms → isDelimited rest = true →
    parseMembers fuel depth (printMembers true ms ++ rest) = some (ms, rest)
  | [], _, _, _, hne, _, _, _, _ => absurd rfl hne
  | [(k, v)], fuel, depth, rest, _, hf, hd, hv, _ => by
    obtain ⟨f, rfl⟩ : ∃ f, fuel = f + 1 :=
      ⟨fuel - 1, by simp only [JSON.fuelMembers] at hf; omega⟩
    have ih := parseValue_printJSON v f depth ('}' :: rest)
      (by simp only [JSON.fuelMembers] at hf; omega)
      (by simp only [JSON.depthMembers] at hd; omega)
      (by simp only [JSON.NumbersValidMembers] at hv; exact hv.1) (by simp [isDelimited])
    have h : printMembers true [(k, v)] ++ rest =
        '"' :: (escapeAll k.data ++ '"' :: (':' :: (printJSON v ++ ('}' :: rest)))) := by
      simp [printMembers, quoteString]
    rw [parseMembers, h, skipSpace_cons _ _ (by decide)]
    simp only [if_true, parseStringBody_quote]
    rw [skipSpace_cons _ _ (by decide)]
    simp only [if_true, ih]
    simp [skipSpace, isSpace]
  | (k, v) :: m2 :: ms, fuel, depth, rest, _, hf, hd, hv, hr => by
    obtain ⟨f, rfl⟩ : ∃ f, fuel = f + 1 :=
      ⟨fuel - 1, by simp only [JSON.fuelMembers] at hf; omega⟩
    have ih := parseValue_printJSON v f depth (',' :: (printMembers true (m2 :: ms) ++ rest))
      (by simp only [JSON.fuelMembers] at hf; omega)
      (by simp only [JSON.depthMembers] at hd; omega)
      (by simp only [JSON.NumbersValidMembers] at hv; exact hv.1) (by simp [isDelimited])
    have ih2 := parseMembers_printMembers (m2 :: ms) f depth rest (by simp)
      (by
        obtain ⟨k2, v2⟩ := m2
        simp only [JSON.fuelMembers] at hf ⊢; omega)
      (by
        obtain ⟨k2, v2⟩ := m2
        simp only [JSON.depthMembers] at hd ⊢; omega)
      (by
        obtain ⟨k2, v2⟩ := m2
        simp only [JSON.NumbersValidMembers] at hv ⊢; exact hv.2) hr
    have h : printMembers true ((k, v) :: m2 :: ms) ++ rest =
        '"' :: (escapeAll k.data ++ '"' :: (':' :: (printJSON v ++
          (',' :: (printMembers true (m2 :: ms) ++ rest))))) := by
      obtain ⟨k2, v2⟩ := m2
      simp [printMembers, quoteString]
    rw [parseMembers, h, skipSpace_cons _ _ (by decide)]
    simp only [if_true, parseStringBody_quote]
    rw [skipSpace_cons _ _ (by decide)]
    simp only [if_true, ih]
    simp [skipSpace, isSpace, ih2]
end

mutual
/-- The fuel a value needs is bounded by the length of its text. -/
theorem fuel_le_length : ∀ (j : JSON), j.NumbersValid → j.fuel + 1 ≤ 2 * (printJSON j).length
  | JSON.null, _ => by decide
  | JSON.bool b, _ => by cases b <;> decide
  | JSON.str s, _ => by simp [JSON.fuel, printJSON, quoteString]
  | JSON.num lit, hv => by
    obtain ⟨c, tl, hc, _⟩ := scanNumber_head lit.data _ _ (by simpa [JSON.NumbersValid] using hv)
    simp [JSON.fuel, printJSON, hc]
  | JSON.arr es, hv => by
    have := fuelElems_le_length es true (by simpa [JSON.NumbersValid] using hv)
    simp only [JSON.fuel, printJSON, List.length_cons]
    omega
  | JSON.obj ms, hv => by
    have := fuelMembers_le_length ms true (by simpa [JSON.NumbersValid] using hv)
    simp only [JSON.fuel, printJSON, List.length_cons]
    omega
/-- The fuel the elements need is bounded by the length of their text. -/
theorem fuelElems_le_length : ∀ (es : List JSON) (first : Bool), JSON.NumbersValidElems es →
    JSON.fuelElems es ≤ 2 * (printElems first es).length
  | [], _, _ => by simp [JSON.fuelElems]
  | e :: es, first, hv => by
    have h1 := fuel_le_length e (by simp only [JSON.NumbersValidElems] at hv; exact hv.1)
    have h2 := fuelElems_le_length es false
      (by simp only [JSON.NumbersValidElems] at hv; exact hv.2)
    simp only [JSON.fuelElems, printElems, List.length_append]
    omega
/-- The fuel the members need is bounded by the length of their text. -/
theorem fuelMembers_le_length : ∀ (ms : List (String × JSON)) (first : Bool),
    JSON.NumbersValidMembers ms → JSON.fuelMembers ms ≤ 2 * (printMembers first ms).length
  | [], _, _ => by simp [JSON.fuelMembers]
  | (k, v) :: ms, first, hv => by
    have h1 := fuel_le_length v (by simp only [JSON.NumbersValidMembers] at hv; exact hv.1)
    have h2 := fuelMembers_le_length ms false
      (by simp only [JSON.NumbersValidMembers] at hv; exact hv.2)
    simp only [JSON.fuelMembers, printMembers, List.length_append, List.length_cons]
    omega
end

/-- Scanning the compact text of a value gives the value back, when its
numbers are number literals and it nests no deeper than the scanner allows. -/
theorem parseJSON_printJSON (j : JSON) (hv : j.NumbersValid)
    (hd : j.depth ≤ maxNestingDepth) :
    parseJSON (String.mk (printJSON j)) = some j := by
  unfold parseJSON
  have h := parseValue_printJSON j (2 * (printJSON j).length + 2) 0 []
    (by have := fuel_le_length j hv; omega) (by omega) hv rfl
  simp only [List.append_nil] at h
  simp [h, skipSpace]

/-! ## Maps of decoded values -/

theorem mapGet_mapSet_same {α : Type} (k : String) (v : α) (m : List (String × α)) :
    mapGet k (mapSet k v m) = some v := by
  induction m with
  | nil => simp [mapSet, mapGet]
  | cons p m ih =>
    obtain ⟨k1, v1⟩ := p
    by_cases h1 : k < k1
    · simp [mapSet, h1, mapGet]
    · by_cases h2 : k = k1
      · simp [mapSet, h1, h2, mapGet]
      · simp [mapSet, h1, h2, mapGet, ih]

theorem mapGet_mapSet_other {α : Type} (k k2 : String) (v : α) (m : List (String × α))
    (h : k2 ≠ k) : mapGet k2 (mapSet k v m) = mapGet k2 m := by
  induction m with
  | nil => simp [mapSet, mapGet, h]
  | cons p m ih =>
    obtain ⟨k1, v1⟩ := p
    by_cases h1 : k < k1
    · simp [mapSet, h1, mapGet, h]
    · by_cases h2 : k = k1
      · subst h2
        simp [mapSet, h1, mapGet, h]
      · simp [mapSet, h1, h2, mapGet, ih]

theorem mem_mapSet {α : Type} (k : String) (v : α) (m : List (String × α)) (x : String × α)
    (hx : x ∈ mapSet k v m) : x = (k, v) ∨ x ∈ m := by
  induction m with
  | nil => simpa [mapSet] using hx
  | cons p m ih =>
    obtain ⟨k1, v1⟩ := p
    by_cases h1 : k < k1
    · simp only [mapSet, h1, if_true, List.mem_cons] at hx ⊢
      tauto
    · by_cases h2 : k = k1
      · subst h2
        simp only [mapSet, h1, if_true, if_false, List.mem_cons] at hx ⊢
        tauto
      · simp only [mapSet, h1, h2, if_false, List.mem_cons] at hx ⊢
        rcases hx with hx | hx
        · exact Or.inr (Or.inl hx)
        · rcases ih hx with h | h
          · exact Or.inl h
          · exact Or.inr (Or.inr h)

theorem keysAscending_mapSet {α : Type} (k : String) (v : α) (m : List (String × α))
    (hm : keysAscending m) : keysAscending (mapSet k v m) := by
  unfold keysAscending at hm ⊢
  induction m with
  | nil => simp [mapSet]
  | cons p m ih =>
    obtain ⟨k1, v1⟩ := p
    rw [List.pairwise_cons] at hm
    by_cases h1 : k < k1
    · simp only [mapSet, h1, if_true]
      refine List.pairwise_cons.2 ⟨?_, List.pairwise_cons.2 hm⟩
      intro x hx
      rcases List.mem_cons.1 hx with hx | hx
      · rw [hx]; exact h1
      · exact lt_trans h1 (hm.1 x hx)
    · by_cases h2 : k = k1
      · subst h2
        simp only [mapSet, h1, if_true, if_false]
        exact List.pairwise_cons.2 ⟨hm.1, hm.2⟩
      · simp only [mapSet, h1, h2, if_false]
        refine List.pairwise_cons.2 ⟨?_, ih hm.2⟩
        intro x hx
        rcases mem_mapSet k v m x hx with hx | hx
        · rw [hx]
          exact lt_of_le_of_ne (not_lt.1 h1) (fun h => h2 h.symm)
        · exact hm.1 x hx

theorem mapSet_append_last {α : Type} (k : String) (v : α) (m : List (String × α))
    (h : ∀ x ∈ m, x.1 < k) : mapSet k v m = m ++ [(k, v)] := by
  induction m with
  | nil => rfl
  | cons p m ih =>
    obtain ⟨k1, v1⟩ := p
    have hk : k1 < k := h (k1, v1) (List.mem_cons_self _ _)
    have h1 : ¬ k < k1 := not_lt.2 (le_of_lt hk)
    have h2 : k ≠ k1 := fun h => (ne_of_lt hk) h.symm
    simp only [mapSet, h1, h2, if_false, List.cons_append]
    rw [ih (fun x hx => h x (List.mem_cons_of_mem _ hx))]

theorem depthEntries_mapSet {F : Type} (k : String) (v : GoValue F)
    (m : List (String × GoValue F)) :
    GoValue.depthEntries (mapSet k v m) ≤ max v.depth (GoValue.depthEntries m) := by
  induction m with
  | nil => simp [mapSet, GoValue.depthEntries]
  | cons p m ih =>
    obtain ⟨k1, v1⟩ := p
    by_cases h1 : k < k1
    · simp [mapSet, h1, GoValue.depthEntries]
    · by_cases h2 : k = k1
      · subst h2
        simp only [mapSet, h1, if_true, if_false, GoValue.depthEntries]
        omega
      · simp only [mapSet, h1, h2, if_false, GoValue.depthEntries]
        omega

theorem DecodedEntries_mapSet {F : Type} (pf : String → Option F) (k : String) (v : GoValue F)
    (m : List (String × GoValue F)) (hv : v.Decoded pf) (hm : GoValue.DecodedEntries pf m) :
    GoValue.DecodedEntries pf (mapSet k v m) := by
  induction m with
  | nil => simp [mapSet, GoValue.DecodedEntries, hv]
  | cons p m ih =>
    obtain ⟨k1, v1⟩ := p
    simp only [GoValue.DecodedEntries] at hm
    by_cases h1 : k < k1
    · simp [mapSet, h1, GoValue.DecodedEntries, hv, hm]
    · by_cases h2 : k = k1
      · simp [mapSet, h1, h2, GoValue.DecodedEntries, hv, hm]
      · simp [mapSet, h1, h2, GoValue.DecodedEntries, hm, ih hm.2]

mutual
/-- Decoding a value with distinct keys and convertible numbers succeeds, and
the decoded value carries the JSON value. -/
theorem decodeInterface_spec {F : Type} [DecidableEq F] (pf : String → Option F) :
    ∀ (j : JSON), j.NumbersParse pf → j.DistinctKeys →
    ∃ v, decodeInterface pf j = Except.ok v ∧ carries pf j v = true ∧ v.Decoded pf ∧
      v.depth ≤ j.depth
  | JSON.null, _, _ => ⟨GoValue.nil, rfl, rfl, trivial, le_refl _⟩
  | JSON.bool b, _, _ => ⟨GoValue.bool b, rfl, by simp [carries], trivial, le_refl _⟩
  | JSON.str s, _, _ => ⟨GoValue.string s, rfl, by simp [carries], trivial, le_refl _⟩
  | JSON.num lit, hn, _ => by
    simp only [JSON.NumbersParse] at hn
    obtain ⟨f, hf⟩ := Option.isSome_iff_exists.1 hn
    refine ⟨GoValue.float64 f, by simp [decodeInterface, hf], by simp [carries, hf], ?_,
      le_refl _⟩
    exact ⟨lit, hf⟩
  | JSON.arr es, hn, hk => by
    obtain ⟨vs, h1, h2, h3, h4⟩ := decodeInterfaceElems_spec pf es
      (by simpa [JSON.NumbersParse] using hn) (by simpa [JSON.DistinctKeys] using hk)
    refine ⟨GoValue.slice vs, by simp [decodeInterface, h1], by simpa [carries] using h2,
      by simpa [GoValue.Decoded] using h3, ?_⟩
    simp only [GoValue.depth, JSON.depth]
    omega
  | JSON.obj ms, hn, hk => by
    simp only [JSON.DistinctKeys] at hk
    obtain ⟨m, h1, _, h2, h3, h4, h5⟩ := decodeInterfaceMembers_spec pf ms []
      (by simpa [JSON.NumbersParse] using hn) hk.2 hk.1 List.Pairwise.nil trivial
    refine ⟨GoValue.map m, by simp [decodeInterface, h1], by simpa [carries] using h2,
      by simp only [GoValue.Decoded]; exact ⟨h3, h4⟩, ?_⟩
    simp only [GoValue.depth, JSON.depth, GoValue.depthEntries] at h5 ⊢
    omega
/-- Decoding the elements of an array succeeds, one value for each element. -/
theorem decodeInterfaceElems_spec {F : Type} [DecidableEq F] (pf : String → Option F) :
    ∀ (es : List JSON), JSON.NumbersParseElems pf es → JSON.DistinctKeysElems es →
    ∃ vs, decodeInterfaceElems pf es = Except.ok vs ∧ carriesElems pf es vs = true ∧
      GoValue.DecodedElems pf vs ∧ GoValue.depthElems vs ≤ JSON.depthElems es
  | [], _, _ => ⟨[], rfl, rfl, trivial, le_refl _⟩
  | e :: es, hn, hk => by
    simp only [JSON.NumbersParseElems] at hn
    simp only [JSON.DistinctKeysElems] at hk
    obtain ⟨v, h1, h2, h3, h4⟩ := decodeInterface_spec pf e hn.1 hk.1
    obtain ⟨vs, g1, g2, g3, g4⟩ := decodeInterfaceElems_spec pf es hn.2 hk.2
    refine ⟨v :: vs, by simp [decodeInterfaceElems, h1, g1], by simp [carriesElems, h2, g2],
      by simp only [GoValue.DecodedElems]; exact ⟨h3, g3⟩, ?_⟩
    simp only [GoValue.depthElems, JSON.depthElems]
    omega
/-- Decoding the members of an object into a map succeeds; the map keeps every
entry whose key the object does not name, and holds every member under its key. -/
theorem decodeInterfaceMembers_spec {F : Type} [DecidableEq F] (pf : String → Option F) :
    ∀ (ms : List (String × JSON)) (acc : List (String × GoValue F)),
    JSON.NumbersParseMembers pf ms → JSON.DistinctKeysMembers ms → (ms.map Prod.fst).Nodup →
    keysAscending acc → GoValue.DecodedEntries pf acc →
    ∃ m, decodeInterfaceMembers pf acc ms = Except.ok m ∧
      (∀ k, k ∉ ms.map Prod.fst → mapGet k m = mapGet k acc) ∧
      carriesMembers pf ms m = true ∧ keysAscending m ∧ GoValue.DecodedEntries pf m ∧
      GoValue.depthEntries m ≤ max (GoValue.depthEntries acc) (JSON.depthMembers ms)
  | [], acc, _, _, _, ha, hd =>
    ⟨acc, rfl, fun _ _ => rfl, rfl, ha, hd, by simp [JSON.depthMembers]⟩
  | (k, j) :: ms, acc, hn, hk, hnd, ha, hd => by
    simp only [JSON.NumbersParseMembers] at hn
    simp only [JSON.DistinctKeysMembers] at hk
    simp only [List.map_cons, List.nodup_cons] at hnd
    obtain ⟨v, h1, h2, h3, h4⟩ := decodeInterface_spec pf j hn.1 hk.1
    obtain ⟨m, g1, g2, g3, g4, g5, g6⟩ := decodeInterfaceMembers_spec pf ms (mapSet k v acc)
      hn.2 hk.2 hnd.2 (keysAscending_mapSet k v acc ha) (DecodedEntries_mapSet pf k v acc h3 hd)
    have hget : mapGet k m = some v := by
      rw [g2 k hnd.1, mapGet_mapSet_same]
    refine ⟨m, by simp [decodeInterfaceMembers, h1, g1], ?_, ?_, g4, g5, ?_⟩
    · intro k2 hk2
      simp only [List.map_cons, List.mem_cons, not_or] at hk2
      rw [g2 k2 hk2.2, mapGet_mapSet_other k k2 v acc hk2.1]
    · simp [carriesMembers, hget, h2, g3]
    · have := depthEntries_mapSet k v acc
      simp only [JSON.depthMembers]
      omega
end

mutual
/-- Encoding a decoded value succeeds, and decoding what was encoded gives
the value back. -/
theorem encodeInterface_spec {F : Type} (pf : String → Option F) (ff : F → Option String)
    (hc : FloatRoundTrips pf ff) :
    ∀ (v : GoValue F), v.Decoded pf →
    ∃ j, encodeInterface ff v = Except.ok j ∧ j.NumbersValid ∧ j.depth = v.depth ∧
      decodeInterface pf j = Except.ok v
  | GoValue.nil, _ => ⟨JSON.null, rfl, trivial, rfl, rfl⟩
  | GoValue.bool b, _ => ⟨JSON.bool b, rfl, trivial, rfl, rfl⟩
  | GoValue.string s, _ => ⟨JSON.str s, rfl, trivial, rfl, rfl⟩
  | GoValue.float64 f, hd => by
    simp only [GoValue.Decoded] at hd
    obtain ⟨lit, hlit⟩ := hd
    obtain ⟨lit2, h1, h2, h3⟩ := hc lit f hlit
    exact ⟨JSON.num lit2, by simp [encodeInterface, h1], by simpa [JSON.NumbersValid] using h2,
      rfl, by simp [decodeInterface, h3]⟩
  | GoValue.slice vs, hd => by
    obtain ⟨es, h1, h2, h3, h4⟩ := encodeInterfaceElems_spec pf ff hc vs
      (by simpa [GoValue.Decoded] using hd)
    exact ⟨JSON.arr es, by simp [encodeInterface, h1], by simpa [JSON.NumbersValid] using h2,
      by simp [JSON.depth, GoValue.depth, h3], by simp [decodeInterface, h4]⟩
  | GoValue.map m, hd => by
    simp only [GoValue.Decoded] at hd
    obtain ⟨ms, h1, h2, h3, h4⟩ := encodeInterfaceEntries_spec pf ff hc m hd.1 hd.2
    have h5 := h4 [] (by simp)
    exact ⟨JSON.obj ms, by simp [encodeInterface, h1], by simpa [JSON.NumbersValid] using h2,
      by simp [JSON.depth, GoValue.depth, h3], by simp [decodeInterface, h5]⟩
/-- Encoding the elements of a slice, and decoding them again. -/
theorem encodeInterfaceElems_spec {F : Type} (pf : String → Option F) (ff : F → Option String)
    (hc : FloatRoundTrips pf ff) :
    ∀ (vs : List (GoValue F)), GoValue.DecodedElems pf vs →
    ∃ es, encodeInterfaceElems ff vs = Except.ok es ∧ JSON.NumbersValidElems es ∧
      JSON.depthElems es = GoValue.depthElems vs ∧ decodeInterfaceElems pf es = Except.ok vs
  | [], _ => ⟨[], rfl, trivial, rfl, rfl⟩
  | v :: vs, hd => by
    simp only [GoValue.DecodedElems] at hd
    obtain ⟨e, h1, h2, h3, h4⟩ := encodeInterface_spec pf ff hc v hd.1
    obtain ⟨es, g1, g2, g3, g4⟩ := encodeInterfaceElems_spec pf ff hc vs hd.2
    exact ⟨e :: es, by simp [encodeInterfaceElems, h1, g1],
      by simp only [JSON.NumbersValidElems]; exact ⟨h2, g2⟩,
      by simp [JSON.depthElems, GoValue.depthElems, h3, g3],
      by simp [decodeInterfaceElems, h4, g4]⟩
/-- Encoding the entries of a map in key order, and decoding them again into
a map whose keys are all smaller. -/
theorem encodeInterfaceEntries_spec {F : Type} (pf : String → Option F)
    (ff : F → Option String) (hc : FloatRoundTrips pf ff) :
    ∀ (m : List (String × GoValue F)), keysAscending m → GoValue.DecodedEntries pf m →
    ∃ ms, encodeInterfaceEntries ff m = Except.ok ms ∧ JSON.NumbersValidMembers ms ∧
      JSON.depthMembers ms = GoValue.depthEntries m ∧
      ∀ acc : List (String × GoValue F), (∀ x ∈ acc, ∀ y ∈ m, x.1 < y.1) →
        decodeInterfaceMembers pf acc ms = Except.ok (acc ++ m)
  | [], _, _ => ⟨[], rfl, trivial, rfl, fun acc _ => by simp [decodeInterfaceMembers]⟩
  | (k, v) :: m, ha, hd => by
    simp only [GoValue.DecodedEntries] at hd
    unfold keysAscending at ha
    rw [List.pairwise_cons] at ha
    obtain ⟨e, h1, h2, h3, h4⟩ := encodeInterface_spec pf ff hc v hd.1
    obtain ⟨ms, g1, g2, g3, g4⟩ := encodeInterfaceEntries_spec pf ff hc m ha.2 hd.2
    refine ⟨(k, e) :: ms, by simp [encodeInterfaceEntries, h1, g1],
      by simp only [JSON.NumbersValidMembers]; exact ⟨h2, g2⟩,
      by simp [JSON.depthMembers, GoValue.depthEntries, h3, g3], ?_⟩
    intro acc hacc
    have hset : mapSet k v acc = acc ++ [(k, v)] :=
      mapSet_append_last k v acc (fun x hx => hacc x hx (k, v) (List.mem_cons_self _ _))
    have hnext := g4 (acc ++ [(k, v)]) (by
      intro x hx y hy
      rcases List.mem_append.1 hx with hx | hx
      · exact hacc x hx y (List.mem_cons_of_mem _ hy)
      · rw [List.mem_singleton.1 hx]
        exact ha.1 y hy)
    simp only [decodeInterfaceMembers, h4, hset, hnext]
    simp
end

/-! ## The state value of a capability -/

/-- A value with distinct keys, convertible numbers and admissible depth is
decoded, carried by what it decodes to, and restored by marshalling the
decoded value and unmarshalling the text. -/
theorem interface_roundtrip {F : Type} [DecidableEq F] (pf : String → Option F)
    (ff : F → Option String) (hc : FloatRoundTrips pf ff) (j : JSON)
    (hn : j.NumbersParse pf) (hk : j.DistinctKeys) (hd : j.depth ≤ maxNestingDepth) :
    ∃ v, decodeInterface pf j = Except.ok v ∧ carries pf j v = true ∧
      ∃ text, jsonMarshalInterface ff v = Except.ok text ∧
        unmarshalInterface pf text = Except.ok v := by
  obtain ⟨v, h1, h2, h3, h4⟩ := decodeInterface_spec pf j hn hk
  obtain ⟨j2, g1, g2, g3, g4⟩ := encodeInterface_spec pf ff hc v h3
  refine ⟨v, h1, h2, String.mk (printJSON j2), by simp [jsonMarshalInterface, g1], ?_⟩
  unfold unmarshalInterface
  rw [parseJSON_printJSON j2 g2 (by omega)]
  exact g4

theorem State_decodeField_other {F : Type} (pf : String → Option F) (cur : State F)
    (m : String × JSON) (h : lookupField stateValueTags m.1 ≠ some "value") :
    State.decodeField pf cur m.1 m.2 = Except.ok cur := by
  unfold State.decodeField
  split
  · rename_i heq
    exact absurd heq h
  · rfl

theorem State_decode_value {F : Type} (pf : String → Option F)
    (spre spost : List (String × JSON)) (ks : String) (value : JSON) (v : GoValue F)
    (hks : lookupField stateValueTags ks = some "value")
    (hothers : ∀ m ∈ spre ++ spost, lookupField stateValueTags m.1 ≠ some "value")
    (hv : decodeInterface pf value = Except.ok v) (cur : State F) :
    State.decode pf cur (JSON.obj (spre ++ (ks, value) :: spost)) = Except.ok ⟨v⟩ := by
  have hskip : ∀ (ms : List (String × JSON)) (c : State F),
      (∀ m ∈ ms, lookupField stateValueTags m.1 ≠ some "value") →
      decodeMembers (State.decodeField pf) c ms = Except.ok c := by
    intro ms c hms
    induction ms with
    | nil => rfl
    | cons m ms ih =>
      obtain ⟨k0, v0⟩ := m
      have := State_decodeField_other pf c (k0, v0) (hms _ (List.mem_cons_self _ _))
      simp only [decodeMembers]
      simp only at this
      rw [this]
      exact ih (fun m hm => hms m (List.mem_cons_of_mem _ hm))
  have hfield : State.decodeField pf cur ks value = Except.ok ⟨v⟩ := by
    unfold State.decodeField
    rw [hks]
    simp [hv, Except.map]
  show decodeMembers _ _ (spre ++ (ks, value) :: spost) = _
  rw [decodeMembers_append, hskip spre cur (fun m hm => hothers m (List.mem_append_left _ hm))]
  simp only [Except.bind, decodeMembers, hfield]
  exact hskip spost _ (fun m hm => hothers m (List.mem_append_right _ hm))

theorem Capability_decodeField_withState {F : Type} (pf : String → Option F)
    (cur : Capability F) (s : State F) (m : String × JSON)
    (h : lookupField capabilityTags m.1 ≠ some "state") :
    Capability.decodeField pf { cur with State := s } m.1 m.2 =
      (Capability.decodeField pf cur m.1 m.2).map (fun c => { c with State := s }) := by
  unfold Capability.decodeField
  split
  · cases decodeString cur.Type_ m.2 <;> rfl
  · cases decodeString cur.Instance m.2 <;> rfl
  · cases Parameter.decode cur.Parameters m.2 <;> rfl
  · rename_i heq
    exact absurd heq h
  · rfl

theorem Capability_decodeMembers_withState {F : Type} (pf : String → Option F)
    (ms : List (String × JSON)) (cur : Capability F) (s : State F)
    (h : ∀ m ∈ ms, lookupField capabilityTags m.1 ≠ some "state") :
    decodeMembers (Capability.decodeField pf) { cur with State := s } ms =
      (decodeMembers (Capability.decodeField pf) cur ms).map (fun c => { c with State := s }) := by
  induction ms generalizing cur with
  | nil => rfl
  | cons m ms ih =>
    obtain ⟨k0, v0⟩ := m
    have h0 := Capability_decodeField_withState pf cur s (k0, v0) (h _ (List.mem_cons_self _ _))
    simp only at h0
    simp only [decodeMembers]
    rw [h0]
    cases hf : Capability.decodeField pf cur k0 v0 with
    | error e => rfl
    | ok next =>
      simp only [Except.map]
      exact ih next (fun m hm => h m (List.mem_cons_of_mem _ hm))

theorem Capability_decode_state {F : Type} (pf : String → Option F)
    (pre post : List (String × JSON)) (k : String) (state : JSON) (c0 : Capability F)
    (s : State F)
    (hk : lookupField capabilityTags k = some "state")
    (hothers : ∀ m ∈ pre ++ post, lookupField capabilityTags m.1 ≠ some "state")
    (hrest : Capability.decode pf Capability.zero (JSON.obj (pre ++ post)) = Except.ok c0)
    (hstate : ∀ cur, State.decode pf cur state = Except.ok s) :
    Capability.decode pf Capability.zero (JSON.obj (pre ++ (k, state) :: post)) =
      Except.ok { c0 with State := s } := by
  have hrest2 : decodeMembers (Capability.decodeField pf) Capability.zero (pre ++ post) =
      Except.ok c0 := hrest
  rw [decodeMembers_append] at hrest2
  show decodeMembers _ _ (pre ++ (k, state) :: post) = _
  rw [decodeMembers_append]
  cases hpre : decodeMembers (Capability.decodeField pf) Capability.zero pre with
  | error e => simp [hpre, Except.bind] at hrest2
  | ok mid =>
    simp only [hpre, Except.bind] at hrest2 ⊢
    have hfield : Capability.decodeField pf mid k state = Except.ok { mid with State := s } := by
      unfold Capability.decodeField
      rw [hk]
      simp [hstate, Except.map]
    simp only [decodeMembers, hfield]
    rw [Capability_decodeMembers_withState pf post mid s
      (fun m hm => hothers m (List.mem_append_right _ hm)), hrest2]
    rfl

/-! ### The fuel of the scanner is enough -/

theorem skipSpace_length (cs : List Char) : (skipSpace cs).length ≤ cs.length := by
  induction cs with
  | nil => simp [skipSpace]
  | cons c cs ih =>
    by_cases h : isSpace c = true
    · simp only [skipSpace, h, if_true, List.length_cons]; omega
    · simp [skipSpace, h]

theorem consRaw_eq_some (pre : List Char) (r : Option (List Char × List Char))
    (raw rest : List Char) (h : consRaw pre r = some (raw, rest)) :
    ∃ raw0, r = some (raw0, rest) := by
  cases r with
  | none => simp [consRaw] at h
  | some p =>
    obtain ⟨a, b⟩ := p
    simp only [consRaw, Option.some.injEq, Prod.mk.injEq] at h
    exact ⟨a, by rw [h.2]⟩

theorem scanString_length : ∀ (cs raw rest : List Char),
    scanString cs = some (raw, rest) → rest.length < cs.length
  | [], _, _, h => by simp [scanString] at h
  | c :: cs, raw, rest, h => by
    rw [scanString.eq_def] at h
    simp only at h
    by_cases h1 : c = '"'
    · simp only [h1, if_true, Option.some.injEq, Prod.mk.injEq] at h
      rw [← h.2]; simp
    · simp only [h1, if_false] at h
      by_cases h2 : c = '\\'
      · simp only [h2, if_true] at h
        cases cs with
        | nil => simp at h
        | cons e cs1 =>
          simp only at h
          have key : consRaw ['\\', e] (scanString cs1) = some (raw, rest) →
              rest.length < (c :: e :: cs1).length := by
            intro hr
            obtain ⟨raw0, hr0⟩ := consRaw_eq_some _ _ _ _ hr
            have := scanString_length cs1 raw0 rest hr0
            simp only [List.length_cons]; omega
          by_cases h3 : e = 'u'
          · simp only [h3, if_true] at h
            cases hh : hexPrefix cs1 with
            | none => simp [hh] at h
            | some n =>
              simp only [hh] at h
              exact key (by rw [h3]; exact h)
          · simp only [h3, if_false] at h
            cases hu : unescapeChar e with
            | none => simp [hu] at h
            | some ch =>
              simp only [hu] at h
              exact key h
      · simp only [h2, if_false] at h
        by_cases h3 : c.toNat < 0x20
        · simp [h3] at h
        · simp only [h3, if_false] at h
          obtain ⟨raw0, hr0⟩ := consRaw_eq_some _ _ _ _ h
          have := scanString_length cs raw0 rest hr0
          simp only [List.length_cons]; omega

theorem parseStringBody_length (cs s rest : List Char)
    (h : parseStringBody cs = some (s, rest)) : rest.length < cs.length := by
  unfold parseStringBody at h
  cases hs : scanString cs with
  | none => simp [hs] at h
  | some p =>
    obtain ⟨raw, r⟩ := p
    simp only [hs] at h
    cases hu : unquote raw with
    | none => simp [hu] at h
    | some t =>
      simp only [hu, Option.some.injEq, Prod.mk.injEq] at h
      rw [← h.2]
      exact scanString_length cs raw r hs

theorem takeDigits_length (cs : List Char) : (takeDigits cs).2.length ≤ cs.length := by
  induction cs with
  | nil => simp [takeDigits]
  | cons c cs ih =>
    by_cases h : c.isDigit = true
    · simp only [takeDigits, h, if_true, List.length_cons]; omega
    · simp [takeDigits, h]

theorem scanExponent_length (cs t r : List Char) (h : scanExponent cs = some (t, r)) :
    r.length ≤ cs.length := by
  cases cs with
  | nil =>
    simp only [scanExponent, Option.some.injEq, Prod.mk.injEq] at h
    rw [← h.2]
  | cons e cs =>
    by_cases he : e = 'e' ∨ e = 'E'
    · cases cs with
      | nil => simp [scanExponent, he] at h
      | cons s cs =>
        by_cases hs : s = '+' ∨ s = '-'
        · simp only [scanExponent, he, hs, if_true] at h
          by_cases hd : (takeDigits cs).1 = []
          · simp [hd] at h
          · simp only [hd, if_false, Option.some.injEq, Prod.mk.injEq] at h
            rw [← h.2]
            have := takeDigits_length cs
            simp only [List.length_cons]; omega
        · simp only [scanExponent, he, hs, if_true, if_false] at h
          by_cases hd : (takeDigits (s :: cs)).1 = []
          · simp [hd] at h
          · simp only [hd, if_false, Option.some.injEq, Prod.mk.injEq] at h
            rw [← h.2]
            have := takeDigits_length (s :: cs)
            simp only [List.length_cons] at this ⊢; omega
    · simp only [scanExponent, he, if_false, Option.some.injEq, Prod.mk.injEq] at h
      rw [← h.2]

theorem scanFraction_length (cs t r : List Char) (h : scanFraction cs = some (t, r)) :
    r.length ≤ cs.length := by
  cases cs with
  | nil =>
    simp only [scanFraction] at h
    exact scanExponent_length [] t r h
  | cons c cs =>
    by_cases hc : c = '.'
    · simp only [scanFraction, hc, if_true] at h
      by_cases hd : (takeDigits cs).1 = []
      · simp [hd] at h
      · simp only [hd, if_false] at h
        cases hex : scanExponent (takeDigits cs).2 with
        | none => simp [hex] at h
        | some p =>
          obtain ⟨ex, r1⟩ := p
          simp only [hex, Option.some.injEq, Prod.mk.injEq] at h
          rw [← h.2]
          have h1 := scanExponent_length _ ex r1 hex
          have h2 := takeDigits_length cs
          simp only [List.length_cons]; omega
    · simp only [scanFraction, hc, if_false] at h
      exact scanExponent_length (c :: cs) t r h

theorem scanUnsigned_length (cs t r : List Char) (h : scanUnsigned cs = some (t, r)) :
    r.length < cs.length := by
  cases cs with
  | nil => simp [scanUnsigned] at h
  | cons c cs =>
    by_cases hc : c = '0'
    · simp only [scanUnsigned, hc, if_true] at h
      cases hf : scanFraction cs with
      | none => simp [hf] at h
      | some p =>
        obtain ⟨t1, r1⟩ := p
        simp only [hf, Option.some.injEq, Prod.mk.injEq] at h
        rw [← h.2]
        have := scanFraction_length cs t1 r1 hf
        simp only [List.length_cons]; omega
    · by_cases hd : c.isDigit = true
      · simp only [scanUnsigned, hc, hd, if_true, if_false] at h
        cases hf : scanFraction (takeDigits cs).2 with
        | none => simp [hf] at h
        | some p =>
          obtain ⟨t1, r1⟩ := p
          simp only [hf, Option.some.injEq, Prod.mk.injEq] at h
          rw [← h.2]
          have h1 := scanFraction_length _ t1 r1 hf
          have h2 := takeDigits_length cs
          simp only [List.length_cons]; omega
      · simp [scanUnsigned, hc, hd] at h

theorem scanNumber_length (cs t r : List Char) (h : scanNumber cs = some (t, r)) :
    r.length < cs.length := by
  cases cs with
  | nil => simp [scanNumber] at h
  | cons c cs =>
    by_cases hc : c = '-'
    · simp only [scanNumber, hc, if_true] at h
      cases hf : scanUnsigned cs with
      | none => simp [hf] at h
      | some p =>
        obtain ⟨t1, r1⟩ := p
        simp only [hf, Option.some.injEq, Prod.mk.injEq] at h
        rw [← h.2]
        have := scanUnsigned_length cs t1 r1 hf
        simp only [List.length_cons]; omega
    · simp only [scanNumber, hc, if_false] at h
      exact scanUnsigned_length (c :: cs) t r h

theorem stripWord_length : ∀ (w cs rest : List Char), stripWord w cs = some rest →
    rest.length ≤ cs.length
  | [], cs, rest, h => by
    cases cs <;> simp only [stripWord, Option.some.injEq] at h <;> rw [← h]
  | _ :: _, [], _, h => by simp [stripWord] at h
  | w :: ws, c :: cs, rest, h => by
    by_cases hw : w = c
    · simp only [stripWord, hw, if_true] at h
      have := stripWord_length ws cs rest h
      simp only [List.length_cons]; omega
    · simp [stripWord, hw] at h

/-- What a successful scan leaves is shorter than what it was given. -/
theorem parse_consumes (fuel : Nat) :
    (∀ depth cs v rest, parseValue fuel depth cs = some (v, rest) → rest.length < cs.length) ∧
    (∀ depth cs vs rest, parseElems fuel depth cs = some (vs, rest) →
      rest.length < cs.length) ∧
    (∀ depth cs ms rest, parseMembers fuel depth cs = some (ms, rest) →
      rest.length < cs.length) := by
  induction fuel with
  | zero =>
    refine ⟨?_, ?_, ?_⟩ <;> intro depth cs v rest h
    · simp [parseValue] at h
    · simp [parseElems] at h
    · simp [parseMembers] at h
  | succ f ih =>
    obtain ⟨ihv, ihe, ihm⟩ := ih
    refine ⟨?_, ?_, ?_⟩
    · intro depth cs v rest h
      rw [parseValue] at h
      have hs := skipSpace_length cs
      cases hsk : skipSpace cs with
      | nil => simp [hsk] at h
      | cons c rest0 =>
        rw [hsk] at hs
        simp only [hsk] at h
        simp only [List.length_cons] at hs
        have hs0 := skipSpace_length rest0
        split_ifs at h with h1 h2 h3 h4 h5 h6 h7 h8
        · cases hsk2 : skipSpace rest0 with
          | nil => simp [hsk2] at h
          | cons c1 rest1 =>
            rw [hsk2] at hs0
            simp only [hsk2] at h
            simp only [List.length_cons] at hs0
            split_ifs at h with h9
            · simp only [Option.some.injEq, Prod.mk.injEq] at h
              rw [← h.2]; omega
            · cases hp : parseMembers f (depth + 1) rest0 with
              | none => simp [hp] at h
              | some p =>
                obtain ⟨ms, r2⟩ := p
                simp only [hp, Option.some.injEq, Prod.mk.injEq] at h
                have := ihm _ _ _ _ hp
                rw [← h.2]; omega
        · cases hsk2 : skipSpace rest0 with
          | nil => simp [hsk2] at h
          | cons c1 rest1 =>
            rw [hsk2] at hs0
            simp only [hsk2] at h
            simp only [List.length_cons] at hs0
            split_ifs at h with h9
            · simp only [Option.some.injEq, Prod.mk.injEq] at h
              rw [← h.2]; omega
            · cases hp : parseElems f (depth + 1) rest0 with
              | none => simp [hp] at h
              | some p =>
                obtain ⟨es, r2⟩ := p
                simp only [hp, Option.some.injEq, Prod.mk.injEq] at h
                have := ihe _ _ _ _ hp
                rw [← h.2]; omega
        · cases hp : parseStringBody rest0 with
          | none => simp [hp] at h
          | some p =>
            obtain ⟨s0, r2⟩ := p
            simp only [hp, Option.some.injEq, Prod.mk.injEq] at h
            have := parseStringBody_length _ _ _ hp
            rw [← h.2]; omega
        · cases hp : stripWord "rue".data rest0 with
          | none => simp [hp] at h
          | some r2 =>
            simp only [hp, Option.some.injEq, Prod.mk.injEq] at h
            have := stripWord_length _ _ _ hp
            rw [← h.2]; omega
        · cases hp : stripWord "alse".data rest0 with
          | none => simp [hp] at h
          | some r2 =>
            simp only [hp, Option.some.injEq, Prod.mk.injEq] at h
            have := stripWord_length _ _ _ hp
            rw [← h.2]; omega
        · cases hp : stripWord "ull".data rest0 with
          | none => simp [hp] at h
          | some r2 =>
            simp only [hp, Option.some.injEq, Prod.mk.injEq] at h
            have := stripWord_length _ _ _ hp
            rw [← h.2]; omega
        · cases hp : scanNumber (c :: rest0) with
          | none => simp [hp] at h
          | some p =>
            obtain ⟨lit, r2⟩ := p
            simp only [hp, Option.some.injEq, Prod.mk.injEq] at h
            have := scanNumber_length _ _ _ hp
            simp only [List.length_cons] at this
            rw [← h.2]; omega
    · intro depth cs vs rest h
      rw [parseElems] at h
      cases hp : parseValue f depth cs with
      | none => simp [hp] at h
      | some p =>
        obtain ⟨v, r1⟩ := p
        simp only [hp] at h
        have h1 := ihv _ _ _ _ hp
        have hs := skipSpace_length r1
        cases hsk : skipSpace r1 with
        | nil => simp [hsk] at h
        | cons c r2 =>
          rw [hsk] at hs
          simp only [hsk] at h
          simp only [List.length_cons] at hs
          split_ifs at h with h2 h3
          · cases hq : parseElems f depth r2 with
            | none => simp [hq] at h
            | some q =>
              obtain ⟨vs2, r3⟩ := q
              simp only [hq, Option.some.injEq, Prod.mk.injEq] at h
              have := ihe _ _ _ _ hq
              rw [← h.2]; omega
          · simp only [Option.some.injEq, Prod.mk.injEq] at h
            rw [← h.2]; omega
    · intro depth cs ms rest h
      rw [parseMembers] at h
      have hs := skipSpace_length cs
      cases hsk : skipSpace cs with
      | nil => simp [hsk] at h
      | cons q rest0 =>
        rw [hsk] at hs
        simp only [hsk] at h
        simp only [List.length_cons] at hs
        split_ifs at h with h1
        cases hp : parseStringBody rest0 with
        | none => simp [hp] at h
        | some p =>
          obtain ⟨k, r1⟩ := p
          simp only [hp] at h
          have hk := parseStringBody_length _ _ _ hp
          have hs1 := skipSpace_length r1
          cases hsk1 : skipSpace r1 with
          | nil => simp [hsk1] at h
          | cons col r2 =>
            rw [hsk1] at hs1
            simp only [hsk1] at h
            simp only [List.length_cons] at hs1
            split_ifs at h with h2
            cases hv : parseValue f depth r2 with
            | none => simp [hv] at h
            | some pv =>
              obtain ⟨v, r3⟩ := pv
              simp only [hv] at h
              have hv1 := ihv _ _ _ _ hv
              have hs3 := skipSpace_length r3
              cases hsk3 : skipSpace r3 with
              | nil => simp [hsk3] at h
              | cons c r4 =>
                rw [hsk3] at hs3
                simp only [hsk3] at h
                simp only [List.length_cons] at hs3
                split_ifs at h with h3 h4
                · cases hq : parseMembers f depth r4 with
                  | none => simp [hq] at h
                  | some q =>
                    obtain ⟨ms2, r5⟩ := q
                    simp only [hq, Option.some.injEq, Prod.mk.injEq] at h
                    have := ihm _ _ _ _ hq
                    rw [← h.2]; omega
                · simp only [Option.some.injEq, Prod.mk.injEq] at h
                  rw [← h.2]; omega

/-- Past twice the length of the input, one more unit of fuel changes nothing. -/
theorem parse_fuel_stable (fuel : Nat) :
    (∀ depth cs, 2 * cs.length + 1 ≤ fuel →
      parseValue fuel depth cs = parseValue (fuel + 1) depth cs) ∧
    (∀ depth cs, 2 * cs.length + 2 ≤ fuel →
      parseElems fuel depth cs = parseElems (fuel + 1) depth cs) ∧
    (∀ depth cs, 2 * cs.length + 2 ≤ fuel →
      parseMembers fuel depth cs = parseMembers (fuel + 1) depth cs) := by
  induction fuel with
  | zero =>
    refine ⟨?_, ?_, ?_⟩ <;> intro depth cs h <;> omega
  | succ f ih =>
    obtain ⟨ihv, ihe, ihm⟩ := ih
    refine ⟨?_, ?_, ?_⟩
    · intro depth cs h
      rw [parseValue, parseValue]
      have hs := skipSpace_length cs
      cases hsk : skipSpace cs with
      | nil => rfl
      | cons c rest0 =>
        rw [hsk] at hs
        simp only [List.length_cons] at hs
        simp only
        rw [ihm (depth + 1) rest0 (by omega), ihe (depth + 1) rest0 (by omega)]
    · intro depth cs h
      rw [parseElems, parseElems, ihv depth cs (by omega)]
      cases hp : parseValue (f + 1) depth cs with
      | none => rfl
      | some p =>
        obtain ⟨v, r1⟩ := p
        have h1 := (parse_consumes (f + 1)).1 _ _ _ _ hp
        have hs := skipSpace_length r1
        simp only
        cases hsk : skipSpace r1 with
        | nil => rfl
        | cons c r2 =>
          rw [hsk] at hs
          simp only [List.length_cons] at hs
          simp only
          rw [ihe depth r2 (by omega)]
    · intro depth cs h
      rw [parseMembers, parseMembers]
      have hs := skipSpace_length cs
      cases hsk : skipSpace cs with
      | nil => rfl
      | cons q rest0 =>
        rw [hsk] at hs
        simp only [List.length_cons] at hs
        simp only
        by_cases hq : q = '"'
        · simp only [hq, if_true]
          cases hp : parseStringBody rest0 with
          | none => rfl
          | some p =>
            obtain ⟨k, r1⟩ := p
            have hk := parseStringBody_length _ _ _ hp
            have hs1 := skipSpace_length r1
            simp only
            cases hsk1 : skipSpace r1 with
            | nil => rfl
            | cons col r2 =>
              rw [hsk1] at hs1
              simp only [List.length_cons] at hs1
              simp only
              by_cases hcol : col = ':'
              · simp only [hcol, if_true]
                rw [ihv depth r2 (by omega)]
                cases hv : parseValue (f + 1) depth r2 with
                | none => rfl
                | some pv =>
                  obtain ⟨v, r3⟩ := pv
                  have hv1 := (parse_consumes (f + 1)).1 _ _ _ _ hv
                  have hs3 := skipSpace_length r3
                  simp only
                  cases hsk3 : skipSpace r3 with
                  | nil => rfl
                  | cons c r4 =>
                    rw [hsk3] at hs3
                    simp only [List.length_cons] at hs3
                    simp only
                    rw [ihm depth r4 (by omega)]
              · simp only [hcol, if_false]
        · simp only [hq, if_false]

/-- The fuel that `parseJSON` gives the scanner is enough: with any amount
more, the scan of the text has the same outcome. -/
theorem parseValue_fuel_enough (cs : List Char) (depth extra : Nat) :
    parseValue (2 * cs.length + 2 + extra) depth cs =
      parseValue (2 * cs.length + 2) depth cs := by
  induction extra with
  | zero => rfl
  | succ n ih =>
    rw [← ih]
    exact ((parse_fuel_stable (2 * cs.length + 2 + n)).1 depth cs (by omega)).symm

/-- The fuel that `unquote` gives `unquoteAux`, the length of the raw text, is
enough: one more unit changes nothing. -/
theorem unquoteAux_fuel_stable (fuel : Nat) :
    ∀ raw : List Char, raw.length ≤ fuel → unquoteAux fuel raw = unquoteAux (fuel + 1) raw := by
  induction fuel with
  | zero =>
    intro raw h
    cases raw with
    | nil => simp [unquoteAux]
    | cons c rest => simp at h
  | succ f ih =>
    intro raw h
    cases raw with
    | nil => simp [unquoteAux]
    | cons c rest =>
      simp only [List.length_cons] at h
      rw [unquoteAux.eq_def, unquoteAux.eq_def]
      simp only
      rw [ih rest (by omega)]
      cases rest with
      | nil => rfl
      | cons e rest1 =>
        simp only [List.length_cons] at h
        have h4 : (List.drop 4 rest1).length ≤ f := by
          rw [List.length_drop]; omega
        have h10 : (List.drop 10 rest1).length ≤ f := by
          rw [List.length_drop]; omega
        simp only
        rw [ih rest1 (by omega), ih _ h4, ih _ h10]

/-! ## Go strings through the codec, and the state request -/

theorem utf8EncodeChar_ne_nil (c : Char) : utf8EncodeChar c ≠ [] := by
  unfold utf8EncodeChar
  split_ifs <;> simp

theorem decodeRune_utf8EncodeChar (c : Char) (rest : List Nat) :
    decodeRune (utf8EncodeChar c ++ rest) = (some c, (utf8EncodeChar c).length) := by
  have hv : c.toNat < 0xD800 ∨ (0xDFFF < c.toNat ∧ c.toNat < 0x110000) := c.valid
  unfold utf8EncodeChar
  by_cases h1 : c.toNat < 0x80
  · rw [if_pos h1]
    simp only [List.singleton_append, List.length_singleton, decodeRune, if_pos h1]
    rw [Char_ofNat_toNat]
  · rw [if_neg h1]
    by_cases h2 : c.toNat < 0x800
    · rw [if_pos h2]
      have e1 : ¬ (0xC0 + c.toNat / 64 < 0x80) := by omega
      have e2 : 0xC2 ≤ 0xC0 + c.toNat / 64 ∧ 0xC0 + c.toNat / 64 ≤ 0xDF := by omega
      have e3 : isContinuation (0x80 + c.toNat % 64) = true := by
        simp only [isContinuation, Bool.and_eq_true, decide_eq_true_eq]
        omega
      have e4 : (0xC0 + c.toNat / 64 - 0xC0) * 64 + (0x80 + c.toNat % 64 - 0x80) = c.toNat := by
        omega
      simp only [List.cons_append, List.nil_append, decodeRune, if_neg e1, if_pos e2, e3, if_true,
        e4, List.length_cons, List.length_nil]
      rw [Char_ofNat_toNat]
    · rw [if_neg h2]
      by_cases h3 : c.toNat < 0x10000
      · rw [if_pos h3]
        have e1 : ¬ (0xE0 + c.toNat / 4096 < 0x80) := by omega
        have e2 : ¬ (0xC2 ≤ 0xE0 + c.toNat / 4096 ∧ 0xE0 + c.toNat / 4096 ≤ 0xDF) := by omega
        have e3 : 0xE0 ≤ 0xE0 + c.toNat / 4096 ∧ 0xE0 + c.toNat / 4096 ≤ 0xEF := by omega
        have e4 : isContinuation (0x80 + c.toNat % 64) = true := by
          simp only [isContinuation, Bool.and_eq_true, decide_eq_true_eq]
          omega
        have e5 : (if 0xE0 + c.toNat / 4096 = 0xE0 then 0xA0 else 0x80) ≤ 0x80 + c.toNat / 64 % 64 ∧
            0x80 + c.toNat / 64 % 64 ≤ (if 0xE0 + c.toNat / 4096 = 0xED then 0x9F else 0xBF) ∧
            isContinuation (0x80 + c.toNat % 64) = true := by
          refine ⟨?_, ?_, e4⟩
          · split_ifs <;> omega
          · split_ifs <;> omega
        have e6 : (0xE0 + c.toNat / 4096 - 0xE0) * 4096 + (0x80 + c.toNat / 64 % 64 - 0x80) * 64 +
            (0x80 + c.toNat % 64 - 0x80) = c.toNat := by omega
        simp only [List.cons_append, List.nil_append, decodeRune, if_neg e1, if_neg e2, if_pos e3,
          if_pos e5, e6, List.length_cons, List.length_nil]
        rw [Char_ofNat_toNat]
      · rw [if_neg h3]
        have e1 : ¬ (0xF0 + c.toNat / 262144 < 0x80) := by omega
        have e2 : ¬ (0xC2 ≤ 0xF0 + c.toNat / 262144 ∧ 0xF0 + c.toNat / 262144 ≤ 0xDF) := by omega
        have e3 : ¬ (0xE0 ≤ 0xF0 + c.toNat / 262144 ∧ 0xF0 + c.toNat / 262144 ≤ 0xEF) := by omega
        have e3b : 0xF0 ≤ 0xF0 + c.toNat / 262144 ∧ 0xF0 + c.toNat / 262144 ≤ 0xF4 := by omega
        have e4 : isContinuation (0x80 + c.toNat % 64) = true := by
          simp only [isContinuation, Bool.and_eq_true, decide_eq_true_eq]
          omega
        have e4b : isContinuation (0x80 + c.toNat / 64 % 64) = true := by
          simp only [isContinuation, Bool.and_eq_true, decide_eq_true_eq]
          omega
        have e5 : (if 0xF0 + c.toNat / 262144 = 0xF0 then 0x90 else 0x80) ≤
              0x80 + c.toNat / 4096 % 64 ∧
            0x80 + c.toNat / 4096 % 64 ≤ (if 0xF0 + c.toNat / 262144 = 0xF4 then 0x8F else 0xBF) ∧
            isContinuation (0x80 + c.toNat / 64 % 64) = true ∧
            isContinuation (0x80 + c.toNat % 64) = true := by
          refine ⟨?_, ?_, e4b, e4⟩
          · split_ifs <;> omega
          · split_ifs <;> omega
        have e6 : (0xF0 + c.toNat / 262144 - 0xF0) * 262144 +
            (0x80 + c.toNat / 4096 % 64 - 0x80) * 4096 + (0x80 + c.toNat / 64 % 64 - 0x80) * 64 +
            (0x80 + c.toNat % 64 - 0x80) = c.toNat := by omega
        simp only [List.cons_append, List.nil_append, decodeRune, if_neg e1, if_neg e2, if_neg e3,
          if_pos e3b, if_pos e5, e6, List.length_cons, List.length_nil]
        rw [Char_ofNat_toNat]

theorem runesAux_utf8Encode (cs : List Char) (fuel : Nat)
    (h : (utf8Encode cs).length ≤ fuel) :
    runesAux fuel (utf8Encode cs) = cs.map some := by
  induction cs generalizing fuel with
  | nil =>
    cases fuel <;> rfl
  | cons c cs ih =>
    have hne := utf8EncodeChar_ne_nil c
    have hdec := decodeRune_utf8EncodeChar c (utf8Encode cs)
    simp only [utf8Encode] at h ⊢
    cases henc : utf8EncodeChar c with
    | nil => exact absurd henc hne
    | cons b bs =>
      rw [henc] at hdec h
      cases fuel with
      | zero => simp at h
      | succ fuel =>
        simp only [List.cons_append] at hdec h ⊢
        simp only [runesAux, hdec, List.map_cons]
        have hdrop : List.drop (b :: bs).length (b :: (bs ++ utf8Encode cs)) = utf8Encode cs := by
          rw [← List.cons_append, List.drop_left]
        rw [hdrop, ih fuel (by simp only [List.length_cons, List.length_append] at h; omega)]

theorem runes_goString (s : String) : (goString s).runes = s.data.map some :=
  runesAux_utf8Encode s.data _ (le_refl _)

theorem escapeRunes_map_some (cs : List Char) : escapeRunes (cs.map some) = escapeAll cs := by
  induction cs with
  | nil => rfl
  | cons c cs ih => simp [escapeRunes, escapeRune, escapeAll, ih]

theorem quoteGoString_goString (s : String) : quoteGoString (goString s) = quoteString s := by
  unfold quoteGoString quoteString
  rw [runes_goString, escapeRunes_map_some]

theorem text_goString (s : String) : (goString s).text = s := by
  unfold GoString.text
  rw [runes_goString, List.map_map]
  have : ((fun r : Option Char => r.getD replacementChar) ∘ some) = id := rfl
  rw [this, List.map_id]



theorem RequestPayload_marshal_valid (requestId sku device : String) :
    RequestPayload.marshal ⟨goString requestId, ⟨goString sku, goString device⟩⟩ =
      printJSON (stateRequestJSON requestId sku device) := by
  simp only [RequestPayload.marshal, DeviceStatePayload.marshal, quoteGoString_goString,
    stateRequestJSON, printJSON, printMembers]
  simp [quoteString, escapeAll, escapeChar]

theorem RequestPayload_decode_stateRequestJSON (requestId sku device : String) :
    RequestPayload.decode RequestPayload.zero (stateRequestJSON requestId sku device) =
      Except.ok ⟨goString requestId, ⟨goString sku, goString device⟩⟩ := rfl

theorem unmarshal_marshal_RequestPayload (requestId sku device : String) :
    jsonMarshalRequestPayload ⟨goString requestId, ⟨goString sku, goString device⟩⟩ =
      Except.ok (String.mk (printJSON (stateRequestJSON requestId sku device))) ∧
    unmarshalRequestPayload (String.mk (printJSON (stateRequestJSON requestId sku device))) =
      Except.ok ⟨goString requestId, ⟨goString sku, goString device⟩⟩ := by
  constructor
  · unfold jsonMarshalRequestPayload
    rw [RequestPayload_marshal_valid]
  · unfold unmarshalRequestPayload
    rw [parseJSON_printJSON _
      (by simp [stateRequestJSON, JSON.NumbersValid, JSON.NumbersValidMembers])
      (by simp [stateRequestJSON, JSON.depth, JSON.depthMembers, maxNestingDepth])]
    exact RequestPayload_decode_stateRequestJSON requestId sku device



/-- C6 (as amended): for every device whose SKU and identifier are well-formed
UTF-8 (the encodings of the texts `sku` and `dev`), the payload
`GetDeviceState` builds has request id "uuid" and the device's SKU and
identifier; the body of the request is the compact JSON text of the envelope
`requestId`, `payload` with `sku` and `device`; and `json.Unmarshal` of that
body into a `RequestPayload` gives the payload back, so the same sku/device
pair. -/
theorem state_request_roundtrip {F : Type} (env : Env F) (c : Client) (device : DeviceInfo F)
    (method url : String) (sku dev : String)
    (hsku : device.SKU = goString sku) (hdev : device.Device = goString dev) :
    stateRequestPayload device =
      { RequestId := goString "uuid",
        Payload := { SKU := device.SKU, Device := device.Device } } ∧
    ∃ req, c.buildRequest env method url (some (stateRequestPayload device)) = Except.ok req ∧
      req.Body = String.mk (printJSON (stateRequestJSON "uuid" sku dev)) ∧
      unmarshalRequestPayload req.Body = Except.ok (stateRequestPayload device) := by
  refine ⟨rfl, ?_⟩
  obtain ⟨hm, hu⟩ := unmarshal_marshal_RequestPayload "uuid" sku dev
  have hp : stateRequestPayload device = ⟨goString "uuid", ⟨goString sku, goString dev⟩⟩ := by
    unfold stateRequestPayload
    rw [hsku, hdev]
  rw [hp]
  unfold Client.buildRequest
  simp only [hm, httpNewRequest]
  exact ⟨_, rfl, rfl, hu⟩

set_option maxRecDepth 100000 in
/-- Witness of C6 at SKU "H6160" and device "AA:BB:CC:DD:EE:FF:11:22". -/
theorem state_request_roundtrip_witness :
    exampleClient.buildRequest (exampleEnv response200) "POST"
      "https://openapi.api.govee.com/router/api/v1/device/state"
      (some (stateRequestPayload exampleDevice)) = Except.ok exampleStateRequest ∧
    unmarshalRequestPayload exampleStateRequest.Body =
      Except.ok { RequestId := goString "uuid",
                  Payload := { SKU := goString "H6160",
                               Device := goString "AA:BB:CC:DD:EE:FF:11:22" } } := by
  obtain ⟨_, req, h1, _, h3⟩ := state_request_roundtrip (exampleEnv response200) exampleClient
    exampleDevice "POST" "https://openapi.api.govee.com/router/api/v1/device/state"
    "H6160" "AA:BB:CC:DD:EE:FF:11:22" rfl rfl
  have hreq : req = exampleStateRequest := by
    have h : exampleClient.buildRequest (exampleEnv response200) "POST"
      "https://openapi.api.govee.com/router/api/v1/device/state"
      (some (stateRequestPayload exampleDevice)) = Except.ok exampleStateRequest := rfl
    rw [h] at h1
    injection h1 with h1
    exact h1.symm
  subst hreq
  exact ⟨h1, h3⟩

set_option maxRecDepth 100000 in
/-- Counterexample to C6: for the device whose SKU is the two bytes FF FE, the
body of the request holds `\ufffd\ufffd` for the SKU, and decoding the body
gives the SKU with the six bytes of two U+FFFD, not the SKU of the device. -/
theorem ill_formed_sku_not_reproduced :
    exampleClient.buildRequest (exampleEnv response200) "POST"
      "https://openapi.api.govee.com/router/api/v1/device/state"
      (some (stateRequestPayload illFormedDevice)) = Except.ok illFormedStateRequest ∧
    (stateRequestPayload illFormedDevice).Payload.SKU = ⟨[0xFF, 0xFE]⟩ ∧
    unmarshalRequestPayload illFormedStateRequest.Body =
      Except.ok { RequestId := goString "uuid",
                  Payload := { SKU := ⟨[0xEF, 0xBF, 0xBD, 0xEF, 0xBF, 0xBD]⟩,
                               Device := goString "d1" } } ∧
    unmarshalRequestPayload illFormedStateRequest.Body ≠
      Except.ok (stateRequestPayload illFormedDevice) := by
  have h3 : unmarshalRequestPayload illFormedStateRequest.Body =
      Except.ok { RequestId := goString "uuid",
                  Payload := { SKU := ⟨[0xEF, 0xBF, 0xBD, 0xEF, 0xBF, 0xBD]⟩,
                               Device := goString "d1" } } := rfl
  refine ⟨rfl, rfl, h3, ?_⟩
  rw [h3]
  intro h
  injection h with h
  exact absurd h (by decide)

/-! ## The JSON shape of the data model is decoded as it reads -/

theorem digitChar_facts : ∀ d : Nat, d < 10 →
    (digitChar d).isDigit = true ∧ (digitChar d).toNat - 48 = d ∧
    (digitChar d = '0' → d = 0) ∧ digitChar d ≠ '-' ∧ digitChar d ≠ '+' := by
  decide

theorem takeDigits_all (ds : List Char) (h : ∀ c ∈ ds, c.isDigit = true) :
    takeDigits ds = (ds, []) := by
  induction ds with
  | nil => rfl
  | cons c cs ih =>
    have hc := h c (List.mem_cons_self _ _)
    have := ih (fun x hx => h x (List.mem_cons_of_mem _ hx))
    simp [takeDigits, hc, this]

theorem digitsValue_append (c : Char) (cs : List Char) (d : Char) :
    digitsValue (c :: cs ++ [d]) =
      (digitsValue (c :: cs)).bind
        (fun a => if d.isDigit then some (a * 10 + (d.toNat - 48)) else none) := by
  rw [List.cons_append]
  simp only [digitsValue]
  rw [← List.cons_append, List.foldlM_append]
  simp [List.foldlM]

/-- The digits that `formatNatAux` writes: at least one, all decimal, without
a leading zero except for the number 0, and with the number as their value. -/
theorem formatNatAux_spec : ∀ (fuel n : Nat), n < fuel →
    ∃ c cs, formatNatAux fuel n = c :: cs ∧ (∀ x ∈ c :: cs, x.isDigit = true) ∧
      (c = '0' → cs = []) ∧ digitsValue (c :: cs) = some n
  | 0, _, h => absurd h (Nat.not_lt_zero _)
  | fuel + 1, n, h => by
    by_cases hn : n < 10
    · obtain ⟨h1, h2, h3, _⟩ := digitChar_facts n hn
      refine ⟨digitChar n, [], by simp [formatNatAux, hn], ?_, fun _ => rfl, ?_⟩
      · intro x hx
        rw [List.mem_singleton.1 hx]
        exact h1
      · simp [digitsValue, List.foldlM, h1, h2]
    · obtain ⟨c, cs, e1, e2, e3, e4⟩ := formatNatAux_spec fuel (n / 10) (by omega)
      obtain ⟨h1, h2, _, _⟩ := digitChar_facts (n % 10) (Nat.mod_lt _ (by decide))
      refine ⟨c, cs ++ [digitChar (n % 10)], by simp [formatNatAux, hn, e1], ?_, ?_, ?_⟩
      · intro x hx
        rw [← List.cons_append, List.mem_append] at hx
        rcases hx with hx | hx
        · exact e2 x hx
        · rw [List.mem_singleton.1 hx]
          exact h1
      · intro hc
        exfalso
        have hcs := e3 hc
        subst hcs
        subst hc
        simp [digitsValue, List.foldlM] at e4
        omega
      · rw [← List.cons_append, digitsValue_append, e4]
        simp only [Option.bind, h1, if_true, h2]
        congr 1
        omega

theorem scanNumber_digits (c : Char) (cs : List Char) (hall : ∀ x ∈ c :: cs, x.isDigit = true)
    (hzero : c = '0' → cs = []) : scanUnsigned (c :: cs) = some (c :: cs, []) := by
  have hc := hall c (List.mem_cons_self _ _)
  have hcs : ∀ x ∈ cs, x.isDigit = true := fun x hx => hall x (List.mem_cons_of_mem _ hx)
  unfold scanUnsigned
  by_cases h0 : c = '0'
  · rw [hzero h0]
    simp [h0, scanFraction, scanExponent]
  · simp [h0, hc, takeDigits_all cs hcs, scanFraction, scanExponent]

theorem validNumber_formatInt (n : Int) : validNumber (formatInt n) := by
  obtain ⟨c, cs, e1, e2, e3, _⟩ := formatNatAux_spec (n.natAbs + 1) n.natAbs (Nat.lt_succ_self _)
  have hc := e2 c (List.mem_cons_self _ _)
  have hne : c ≠ '-' := by
    intro h
    rw [h] at hc
    exact absurd hc (by decide)
  unfold validNumber formatInt
  by_cases hn : n < 0
  · simp only [if_pos hn, e1]
    simp [scanNumber, scanNumber_digits c cs e2 e3]
  · simp only [if_neg hn, e1]
    simp [scanNumber, hne, scanNumber_digits c cs e2 e3]

theorem parseInt_formatInt (n : Int) (h : inInt64 n) : parseInt (formatInt n) = some n := by
  obtain ⟨c, cs, e1, e2, _, hdv⟩ := formatNatAux_spec (n.natAbs + 1) n.natAbs (Nat.lt_succ_self _)
  have hc := e2 c (List.mem_cons_self _ _)
  have hne : c ≠ '-' := by
    intro h
    rw [h] at hc
    exact absurd hc (by decide)
  have hne2 : c ≠ '+' := by
    intro h
    rw [h] at hc
    exact absurd hc (by decide)
  unfold inInt64 at h
  unfold parseInt formatInt
  by_cases hn : n < 0
  · have hval : -((n.natAbs : Nat) : Int) = n := by omega
    simp only [if_pos hn, e1, hdv]
    show (if - (2 : Int) ^ 63 ≤ -((n.natAbs : Nat) : Int) ∧ -((n.natAbs : Nat) : Int) < (2 : Int) ^ 63
      then some (-((n.natAbs : Nat) : Int)) else none) = some n
    rw [hval, if_pos h]
  · have hval : ((n.natAbs : Nat) : Int) = n := by omega
    simp only [if_neg hn, e1]
    split
    · rename_i x heq
      split at heq
      · rename_i heq2
        exact absurd (List.cons.inj heq2).1 hne
      · rename_i heq2
        exact absurd (List.cons.inj heq2).1 hne2
      · rw [hdv] at heq
        have hx : x = n := by
          have : some ((n.natAbs : Nat) : Int) = some x := heq
          injection this with this
          rw [← this, hval]
        rw [hx, if_pos h]
    · rename_i heq
      split at heq
      · rename_i heq2
        exact absurd (List.cons.inj heq2).1 hne
      · rename_i heq2
        exact absurd (List.cons.inj heq2).1 hne2
      · rw [hdv] at heq
        exact absurd heq (by simp)

theorem decodeInt_formatInt (cur n : Int) (h : inInt64 n) :
    decodeInt cur (JSON.num (formatInt n)) = Except.ok n := by
  simp [decodeInt, parseInt_formatInt n h]

theorem decodeString_text (cur s : GoString) (h : s.Valid) :
    decodeString cur (JSON.str s.text) = Except.ok s := by
  obtain ⟨t, rfl⟩ := h
  simp [decodeString, text_goString]

theorem CapabilityOption_decodeField_name_tag (c : CapabilityOption) (v : JSON) :
    CapabilityOption.decodeField c "name" v =
      (decodeString c.Name v).map (fun x => { c with Name := x }) := rfl

theorem CapabilityOption_decodeField_value_tag (c : CapabilityOption) (v : JSON) :
    CapabilityOption.decodeField c "value" v =
      (decodeInt c.Value v).map (fun x => { c with Value := x }) := rfl

theorem Range_decodeField_min_tag (c : Range) (v : JSON) :
    Range.decodeField c "min" v =
      (decodeInt c.Min v).map (fun x => { c with Min := x }) := rfl

theorem Range_decodeField_max_tag (c : Range) (v : JSON) :
    Range.decodeField c "max" v =
      (decodeInt c.Max v).map (fun x => { c with Max := x }) := rfl

theorem Range_decodeField_precision_tag (c : Range) (v : JSON) :
    Range.decodeField c "precision" v =
      (decodeInt c.Precision v).map (fun x => { c with Precision := x }) := rfl

theorem Field_decodeField_fieldName_tag (c : Field) (v : JSON) :
    Field.decodeField c "fieldName" v =
      (decodeString c.FieldName v).map (fun x => { c with FieldName := x }) := rfl

theorem Field_decodeField_dataType_tag (c : Field) (v : JSON) :
    Field.decodeField c "dataType" v =
      (decodeString c.DataType v).map (fun x => { c with DataType := x }) := rfl

theorem Field_decodeField_options_tag (c : Field) (v : JSON) :
    Field.decodeField c "options" v =
      (decodeSlice "[]Option" CapabilityOption.zero CapabilityOption.decode c.Options v).map (fun x => { c with Options := x }) := rfl

theorem Field_decodeField_range_tag (c : Field) (v : JSON) :
    Field.decodeField c "range" v =
      (Range.decode c.Range v).map (fun x => { c with Range := x }) := rfl

theorem Field_decodeField_required_tag (c : Field) (v : JSON) :
    Field.decodeField c "required" v =
      (decodeBool c.Required v).map (fun x => { c with Required := x }) := rfl

theorem Parameter_decodeField_unit_tag (c : Parameter) (v : JSON) :
    Parameter.decodeField c "unit" v =
      (decodeString c.Unit v).map (fun x => { c with Unit := x }) := rfl

theorem Parameter_decodeField_dataType_tag (c : Parameter) (v : JSON) :
    Parameter.decodeField c "dataType" v =
      (decodeString c.DataType v).map (fun x => { c with DataType := x }) := rfl

theorem Parameter_decodeField_options_tag (c : Parameter) (v : JSON) :
    Parameter.decodeField c "options" v =
      (decodeSlice "[]Option" CapabilityOption.zero CapabilityOption.decode c.Options v).map (fun x => { c with Options := x }) := rfl

theorem Parameter_decodeField_range_tag (c : Parameter) (v : JSON) :
    Parameter.decodeField c "range" v =
      (Range.decode c.Range v).map (fun x => { c with Range := x }) := rfl

theorem Parameter_decodeField_fields_tag (c : Parameter) (v : JSON) :
    Parameter.decodeField c "fields" v =
      (decodeSlice "[]Field" Field.zero Field.decode c.Fields v).map (fun x => { c with Fields := x }) := rfl

theorem State_decodeField_value_tag {F : Type} (pf : String → Option F) (c : State F) (v : JSON) :
    State.decodeField pf c "value" v =
      (decodeInterface pf v).map (fun x => { c with Value := x }) := rfl

theorem Capability_decodeField_type_tag {F : Type} (pf : String → Option F) (c : Capability F) (v : JSON) :
    Capability.decodeField pf c "type" v =
      (decodeString c.Type_ v).map (fun x => { c with Type_ := x }) := rfl

theorem Capability_decodeField_instance_tag {F : Type} (pf : String → Option F) (c : Capability F) (v : JSON) :
    Capability.decodeField pf c "instance" v =
      (decodeString c.Instance v).map (fun x => { c with Instance := x }) := rfl

theorem Capability_decodeField_parameters_tag {F : Type} (pf : String → Option F) (c : Capability F) (v : JSON) :
    Capability.decodeField pf c "parameters" v =
      (Parameter.decode c.Parameters v).map (fun x => { c with Parameters := x }) := rfl

theorem Capability_decodeField_state_tag {F : Type} (pf : String → Option F) (c : Capability F) (v : JSON) :
    Capability.decodeField pf c "state" v =
      (State.decode pf c.State v).map (fun x => { c with State := x }) := rfl

theorem DeviceInfo_decodeField_sku_tag {F : Type} (pf : String → Option F) (c : DeviceInfo F) (v : JSON) :
    DeviceInfo.decodeField pf c "sku" v =
      (decodeString c.SKU v).map (fun x => { c with SKU := x }) := rfl

theorem DeviceInfo_decodeField_device_tag {F : Type} (pf : String → Option F) (c : DeviceInfo F) (v : JSON) :
    DeviceInfo.decodeField pf c "device" v =
      (decodeString c.Device v).map (fun x => { c with Device := x }) := rfl

theorem DeviceInfo_decodeField_deviceName_tag {F : Type} (pf : String → Option F) (c : DeviceInfo F) (v : JSON) :
    DeviceInfo.decodeField pf c "deviceName" v =
      (decodeString c.DeviceName v).map (fun x => { c with DeviceName := x }) := rfl

theorem DeviceInfo_decodeField_type_tag {F : Type} (pf : String → Option F) (c : DeviceInfo F) (v : JSON) :
    DeviceInfo.decodeField pf c "type" v =
      (decodeString c.Type_ v).map (fun x => { c with Type_ := x }) := rfl

theorem DeviceInfo_decodeField_capabilities_tag {F : Type} (pf : String → Option F) (c : DeviceInfo F) (v : JSON) :
    DeviceInfo.decodeField pf c "capabilities" v =
      (decodeSlice "[]Capability" Capability.zero (Capability.decode pf) c.Capabilities v).map (fun x => { c with Capabilities := x }) := rfl

theorem Slice_ofList_elems {α : Type} (s : Slice α) (h : s.spare = []) :
    Slice.ofList s.elems = s := by
  cases s
  simp only [Slice.ofList] at *
  rw [h]

theorem forall₂_map_of_forall {α : Type} (zero : α) (dec : α → JSON → Except String α)
    (f : α → JSON) (xs : List α) (h : ∀ x ∈ xs, dec zero (f x) = Except.ok x) :
    List.Forall₂ (fun e d => dec zero e = Except.ok d) (xs.map f) xs := by
  induction xs with
  | nil => exact List.Forall₂.nil
  | cons x xs ih =>
    exact List.Forall₂.cons (h x (List.mem_cons_self _ _))
      (ih (fun y hy => h y (List.mem_cons_of_mem _ hy)))

theorem decodeSlice_map {α : Type} (goType : String) (zero : α)
    (dec : α → JSON → Except String α) (f : α → JSON) (s : Slice α) (hs : s.spare = [])
    (h : ∀ x ∈ s.elems, dec zero (f x) = Except.ok x) :
    decodeSlice goType zero dec Slice.nil (JSON.arr (s.elems.map f)) = Except.ok s := by
  rw [decodeSlice_fresh goType zero dec _ _ (forall₂_map_of_forall zero dec f s.elems h),
    Slice_ofList_elems s hs]

theorem mapAll_spec {α : Type} (f : α → Except String JSON) (Q : JSON → α → Prop) :
    ∀ (xs : List α), (∀ x ∈ xs, ∃ j, f x = Except.ok j ∧ Q j x) →
      ∃ js, mapAll f xs = Except.ok js ∧ List.Forall₂ Q js xs
  | [], _ => ⟨[], rfl, List.Forall₂.nil⟩
  | x :: xs, h => by
    obtain ⟨j, hj, hq⟩ := h x (List.mem_cons_self _ _)
    obtain ⟨js, hjs, hqs⟩ := mapAll_spec f Q xs (fun y hy => h y (List.mem_cons_of_mem _ hy))
    exact ⟨j :: js, by simp only [mapAll, hj, hjs], List.Forall₂.cons hq hqs⟩

theorem NumbersValidElems_of_forall₂ {α : Type} (Q : JSON → α → Prop)
    (hQ : ∀ j x, Q j x → j.NumbersValid) (js : List JSON) (xs : List α)
    (h : List.Forall₂ Q js xs) : JSON.NumbersValidElems js := by
  induction h with
  | nil => trivial
  | cons hd _ ih => exact ⟨hQ _ _ hd, ih⟩

theorem NumbersValidElems_map {α : Type} (f : α → JSON) (xs : List α)
    (h : ∀ x, (f x).NumbersValid) : JSON.NumbersValidElems (xs.map f) := by
  induction xs with
  | nil => trivial
  | cons x xs ih => exact ⟨h x, ih⟩

theorem CapabilityOption_toJSON_NumbersValid (o : CapabilityOption) : o.toJSON.NumbersValid := by
  simp [CapabilityOption.toJSON, JSON.NumbersValid, JSON.NumbersValidMembers,
    validNumber_formatInt]

theorem Range_toJSON_NumbersValid (r : Range) : r.toJSON.NumbersValid := by
  simp [Range.toJSON, JSON.NumbersValid, JSON.NumbersValidMembers, validNumber_formatInt]

theorem Field_toJSON_NumbersValid (f : Field) : f.toJSON.NumbersValid := by
  simp only [Field.toJSON, JSON.NumbersValid, JSON.NumbersValidMembers]
  exact ⟨trivial, trivial, NumbersValidElems_map _ _ CapabilityOption_toJSON_NumbersValid,
    Range_toJSON_NumbersValid _, trivial, trivial⟩

theorem Parameter_toJSON_NumbersValid (p : Parameter) : p.toJSON.NumbersValid := by
  simp only [Parameter.toJSON, JSON.NumbersValid, JSON.NumbersValidMembers]
  exact ⟨trivial, trivial, NumbersValidElems_map _ _ CapabilityOption_toJSON_NumbersValid,
    Range_toJSON_NumbersValid _, NumbersValidElems_map _ _ Field_toJSON_NumbersValid, trivial⟩

theorem CapabilityOption_decode_toJSON (cur o : CapabilityOption) (h : o.WellFormed) :
    CapabilityOption.decode cur o.toJSON = Except.ok o := by
  obtain ⟨h1, h2⟩ := h
  simp only [CapabilityOption.decode, decodeStruct, CapabilityOption.toJSON, decodeMembers,
    CapabilityOption_decodeField_name_tag, CapabilityOption_decodeField_value_tag,
    decodeString_text _ _ h1, decodeInt_formatInt _ _ h2, Except.map]

theorem Range_decode_toJSON (cur r : Range) (h : r.WellFormed) :
    Range.decode cur r.toJSON = Except.ok r := by
  obtain ⟨h1, h2, h3⟩ := h
  simp only [Range.decode, decodeStruct, Range.toJSON, decodeMembers, Range_decodeField_min_tag,
    Range_decodeField_max_tag, Range_decodeField_precision_tag, decodeInt_formatInt _ _ h1,
    decodeInt_formatInt _ _ h2, decodeInt_formatInt _ _ h3, Except.map]

theorem Field_decode_toJSON (f : Field) (h : f.WellFormed) :
    Field.decode Field.zero f.toJSON = Except.ok f := by
  obtain ⟨h1, h2, ⟨h3, h4⟩, h5⟩ := h
  have hopt := decodeSlice_map "[]Option" CapabilityOption.zero CapabilityOption.decode
    CapabilityOption.toJSON f.Options h3
    (fun x hx => CapabilityOption_decode_toJSON _ x (h4 x hx))
  simp only [Field.decode, decodeStruct, Field.toJSON, decodeMembers, Field.zero,
    Field_decodeField_fieldName_tag, Field_decodeField_dataType_tag,
    Field_decodeField_options_tag, Field_decodeField_range_tag, Field_decodeField_required_tag,
    decodeString_text _ _ h1, decodeString_text _ _ h2, hopt, Range_decode_toJSON _ _ h5,
    decodeBool, Except.map]

theorem Parameter_decode_toJSON (p : Parameter) (h : p.WellFormed) :
    Parameter.decode Parameter.zero p.toJSON = Except.ok p := by
  obtain ⟨h1, h2, ⟨h3, h4⟩, h5, h6, h7⟩ := h
  have hopt := decodeSlice_map "[]Option" CapabilityOption.zero CapabilityOption.decode
    CapabilityOption.toJSON p.Options h3
    (fun x hx => CapabilityOption_decode_toJSON _ x (h4 x hx))
  have hfields := decodeSlice_map "[]Field" Field.zero Field.decode Field.toJSON p.Fields h6
    (fun x hx => Field_decode_toJSON x (h7 x hx))
  simp only [Parameter.decode, decodeStruct, Parameter.toJSON, decodeMembers, Parameter.zero,
    Parameter_decodeField_unit_tag, Parameter_decodeField_dataType_tag,
    Parameter_decodeField_options_tag, Parameter_decodeField_range_tag,
    Parameter_decodeField_fields_tag, decodeString_text _ _ h1, decodeString_text _ _ h2, hopt,
    Range_decode_toJSON _ _ h5, hfields, Except.map]

theorem Capability_decode_toJSON {F : Type} (pf : String → Option F) (ff : F → Option String)
    (hc : FloatRoundTrips pf ff) (c : Capability F) (h : c.WellFormed pf) :
    ∃ j, c.toJSON ff = Except.ok j ∧
      (j.NumbersValid ∧ Capability.decode pf Capability.zero j = Except.ok c) := by
  obtain ⟨h1, h2, h3, h4⟩ := h
  obtain ⟨vj, e1, e2, _, e4⟩ := encodeInterface_spec pf ff hc c.State.Value h4
  refine ⟨JSON.obj [("type", JSON.str c.Type_.text), ("instance", JSON.str c.Instance.text),
      ("parameters", c.Parameters.toJSON), ("state", JSON.obj [("value", vj)])],
    by simp only [Capability.toJSON, e1], ?_, ?_⟩
  · simp only [JSON.NumbersValid, JSON.NumbersValidMembers]
    exact ⟨trivial, trivial, Parameter_toJSON_NumbersValid _, ⟨e2, trivial⟩, trivial⟩
  · simp only [Capability.decode, decodeStruct, decodeMembers, Capability.zero,
      Capability_decodeField_type_tag, Capability_decodeField_instance_tag,
      Capability_decodeField_parameters_tag, Capability_decodeField_state_tag,
      decodeString_text _ _ h1, decodeString_text _ _ h2, Parameter_decode_toJSON _ h3,
      State.decode, State_decodeField_value_tag, e4, Except.map]

theorem DeviceInfo_decode_toJSON {F : Type} (pf : String → Option F) (ff : F → Option String)
    (hc : FloatRoundTrips pf ff) (d : DeviceInfo F) (h : d.WellFormed pf) :
    ∃ j, d.toJSON ff = Except.ok j ∧
      (j.NumbersValid ∧ DeviceInfo.decode pf DeviceInfo.zero j = Except.ok d) := by
  obtain ⟨h1, h2, h3, h4, h5, h6⟩ := h
  obtain ⟨caps, e1, e2⟩ := mapAll_spec (Capability.toJSON ff)
    (fun j c => j.NumbersValid ∧ Capability.decode pf Capability.zero j = Except.ok c)
    d.Capabilities.elems (fun c hcap => Capability_decode_toJSON pf ff hc c (h6 c hcap))
  have hnum : JSON.NumbersValidElems caps :=
    NumbersValidElems_of_forall₂ _ (fun _ _ hq => hq.1) caps _ e2
  have hdec : decodeSlice "[]Capability" Capability.zero (Capability.decode pf) Slice.nil
      (JSON.arr caps) = Except.ok d.Capabilities := by
    rw [decodeSlice_fresh _ _ _ _ _ (e2.imp (fun _ _ hq => hq.2)), Slice_ofList_elems _ h5]
  refine ⟨JSON.obj [("sku", JSON.str d.SKU.text), ("device", JSON.str d.Device.text),
      ("deviceName", JSON.str d.DeviceName.text), ("type", JSON.str d.Type_.text),
      ("capabilities", JSON.arr caps)],
    by simp only [DeviceInfo.toJSON, e1], ?_, ?_⟩
  · simp only [JSON.NumbersValid, JSON.NumbersValidMembers]
    exact ⟨trivial, trivial, trivial, trivial, hnum, trivial⟩
  · simp only [DeviceInfo.decode, decodeStruct, decodeMembers, DeviceInfo.zero,
      DeviceInfo_decodeField_sku_tag, DeviceInfo_decodeField_device_tag,
      DeviceInfo_decodeField_deviceName_tag, DeviceInfo_decodeField_type_tag,
      DeviceInfo_decodeField_capabilities_tag, decodeString_text _ _ h1,
      decodeString_text _ _ h2, decodeString_text _ _ h3, decodeString_text _ _ h4, hdec,
      Except.map]

theorem statusMembers_ok (tags : List String) (st : ApiResponseStatus) (h : st.WellFormed)
    (ht : lookupField tags "requestId" = some "requestId")
    (ht2 : lookupField tags "code" = some "code") (ht3 : lookupField tags "msg" = some "msg") :
    ∀ m ∈ [("requestId", JSON.str st.RequestId.text), ("code", JSON.num (formatInt st.Code)),
        ("msg", JSON.str st.Message.text)], statusMemberOk tags m = true := by
  intro m hm
  simp only [List.mem_cons, List.mem_nil_iff, or_false] at hm
  rcases hm with rfl | rfl | rfl
  · simp only [statusMemberOk, ht]
    rfl
  · simp only [statusMemberOk, ht2]
    show (parseInt (formatInt st.Code)).isSome = true
    rw [parseInt_formatInt _ h.2.1]
    rfl
  · simp only [statusMemberOk, ht3]
    rfl

/-- The discovery envelope of well-formed devices is a JSON value whose numbers
are literals of the grammar and which is decoded to those devices. -/
theorem discoveryEnvelope_decode {F : Type} (pf : String → Option F) (ff : F → Option String)
    (hc : FloatRoundTrips pf ff) (st : ApiResponseStatus) (devs : List (DeviceInfo F))
    (hst : st.WellFormed) (hdevs : ∀ d ∈ devs, d.WellFormed pf) :
    ∃ j, discoveryEnvelope ff st devs = Except.ok j ∧ j.NumbersValid ∧
      ∃ final, DiscoveryApiResponse.decode pf ⟨ApiResponseStatus.zero, Slice.nil⟩ j =
        Except.ok final ∧ final.Data = Slice.ofList devs := by
  obtain ⟨elems, e1, e2⟩ := mapAll_spec (DeviceInfo.toJSON ff)
    (fun j d => j.NumbersValid ∧ DeviceInfo.decode pf DeviceInfo.zero j = Except.ok d)
    devs (fun d hd => DeviceInfo_decode_toJSON pf ff hc d (hdevs d hd))
  have hnum : JSON.NumbersValidElems elems :=
    NumbersValidElems_of_forall₂ _ (fun _ _ hq => hq.1) elems _ e2
  refine ⟨st.toJSON "data" (JSON.arr elems), by simp only [discoveryEnvelope, e1], ?_, ?_⟩
  · simp only [ApiResponseStatus.toJSON, JSON.NumbersValid, JSON.NumbersValidMembers]
    exact ⟨trivial, validNumber_formatInt _, trivial, hnum, trivial⟩
  · have := DiscoveryApiResponse_decode_data pf
      [("requestId", JSON.str st.RequestId.text), ("code", JSON.num (formatInt st.Code)),
        ("msg", JSON.str st.Message.text)] [] "data" elems devs (by decide)
      (by
        intro m hm
        rw [List.append_nil] at hm
        refine ⟨?_, statusMembers_ok discoveryTags st hst (by decide) (by decide) (by decide)
          m hm⟩
        simp only [List.mem_cons, List.mem_nil_iff, or_false] at hm
        rcases hm with rfl | rfl | rfl
        · show lookupField discoveryTags "requestId" ≠ some "data"
          decide
        · show lookupField discoveryTags "code" ≠ some "data"
          decide
        · show lookupField discoveryTags "msg" ≠ some "data"
          decide)
      (e2.imp (fun _ _ hq => hq.2))
    exact this

/-- The state envelope of a well-formed device, or of no device, is a JSON
value whose numbers are literals of the grammar and which is decoded to that
payload. -/
theorem stateEnvelope_decode {F : Type} (pf : String → Option F) (ff : F → Option String)
    (hc : FloatRoundTrips pf ff) (st : ApiResponseStatus) (payload : Option (DeviceInfo F))
    (hst : st.WellFormed) (hdev : ∀ d, payload = some d → d.WellFormed pf) :
    ∃ j, stateEnvelope ff st payload = Except.ok j ∧ j.NumbersValid ∧
      ∃ final, DeviceStateApiResponse.decode pf ⟨ApiResponseStatus.zero, none⟩ j =
        Except.ok final ∧ final.Payload = payload := by
  have hothers : ∀ m ∈ [("requestId", JSON.str st.RequestId.text),
      ("code", JSON.num (formatInt st.Code)), ("msg", JSON.str st.Message.text)],
      lookupField stateTags m.1 ≠ some "payload" ∧ statusMemberOk stateTags m = true := by
    intro m hm
    refine ⟨?_, statusMembers_ok stateTags st hst (by decide) (by decide) (by decide) m hm⟩
    simp only [List.mem_cons, List.mem_nil_iff, or_false] at hm
    rcases hm with rfl | rfl | rfl
    · show lookupField stateTags "requestId" ≠ some "payload"
      decide
    · show lookupField stateTags "code" ≠ some "payload"
      decide
    · show lookupField stateTags "msg" ≠ some "payload"
      decide
  cases payload with
  | none =>
    refine ⟨st.toJSON "payload" JSON.null, rfl, ?_, ?_⟩
    · simp only [ApiResponseStatus.toJSON, JSON.NumbersValid, JSON.NumbersValidMembers]
      exact ⟨trivial, validNumber_formatInt _, trivial, trivial, trivial⟩
    · refine DeviceStateApiResponse_decode_null pf _ ?_
      intro m hm
      simp only [List.mem_cons, List.mem_nil_iff, or_false] at hm
      rcases hm with h | h | h | h
      · exact ⟨fun hp => absurd hp (hothers m (by simp [h])).1, (hothers m (by simp [h])).2⟩
      · exact ⟨fun hp => absurd hp (hothers m (by simp [h])).1, (hothers m (by simp [h])).2⟩
      · exact ⟨fun hp => absurd hp (hothers m (by simp [h])).1, (hothers m (by simp [h])).2⟩
      · subst h
        exact ⟨fun _ => rfl, by decide⟩
  | some d =>
    obtain ⟨j, e1, e2, e3⟩ := DeviceInfo_decode_toJSON pf ff hc d (hdev d rfl)
    have hobj : ∃ dms, j = JSON.obj dms := by
      unfold DeviceInfo.toJSON at e1
      split at e1
      · exact absurd e1 (by simp)
      · injection e1 with e1
        exact ⟨_, e1.symm⟩
    obtain ⟨dms, rfl⟩ := hobj
    refine ⟨st.toJSON "payload" (JSON.obj dms), by simp only [stateEnvelope, e1], ?_, ?_⟩
    · simp only [ApiResponseStatus.toJSON, JSON.NumbersValid, JSON.NumbersValidMembers]
      simp only [JSON.NumbersValid] at e2
      exact ⟨trivial, validNumber_formatInt _, trivial, e2, trivial⟩
    · exact DeviceStateApiResponse_decode_device pf _ [] "payload" dms d (by decide)
        (by rw [List.append_nil]; exact hothers) e3

/-! ## Discovery and state responses -/

theorem DeviceInfo_decodeMembers_filter {F : Type} (pf : String → Option F)
    (dms : List (String × JSON)) (cur : DeviceInfo F) :
    decodeMembers (DeviceInfo.decodeField pf) cur dms =
      decodeMembers (DeviceInfo.decodeField pf) cur
        (dms.filter (fun m => (lookupField deviceTags m.1).isSome)) := by
  induction dms generalizing cur with
  | nil => rfl
  | cons m dms ih =>
    obtain ⟨k, v⟩ := m
    cases hl : lookupField deviceTags k with
    | none =>
      simp only [decodeMembers, List.filter, hl, Option.isSome,
        DeviceInfo_decodeField_unknown pf cur k v hl]
      exact ih cur
    | some tag =>
      simp only [decodeMembers, List.filter, hl, Option.isSome]
      cases DeviceInfo.decodeField pf cur k v with
      | error e => rfl
      | ok next => exact ih next

theorem parseInt_inInt64 (lit : String) (n : Int) (h : parseInt lit = some n) : inInt64 n := by
  unfold parseInt at h
  simp only at h
  split at h
  · rename_i m _
    split_ifs at h with hr
    injection h with h
    rw [← h]
    exact hr
  · exact absurd h (by simp)

theorem example_FloatRoundTrips : FloatRoundTrips parseInt exampleFormatFloat := by
  intro lit f h
  exact ⟨formatInt f, rfl, validNumber_formatInt f,
    parseInt_formatInt f (parseInt_inInt64 lit f h)⟩

/-- C8: take a 2xx response to `GetDevices` whose body was read without error.
If the body is the compact text of the discovery envelope of a status and of
devices (the JSON shape of the API, strings well-formed UTF-8, numbers within
64 bits, nesting within the limit of the scanner), `GetDevices` returns exactly
those devices, in order, and no error.  More generally, if the body scans to an
object with one member selecting `data`, holding an array, and every other
member unknown or fitting the status field it selects, `GetDevices` returns
the decoded elements of the array, in order and of the same length.  A device
object is decoded as if every member that selects no field were absent, and
a device with no `capabilities` member, or with empty ones, has no
capabilities. -/
theorem GetDevices_returns_data_array {F : Type} (env : Env F) (c : Client) (hc : HttpClient)
    (url : String) (req : Request) (resp : Response)
    (hclient : c.HTTPClient = some hc)
    (hurl : urlJoinPath goveeApiUrl goveeDevices = Except.ok url)
    (hreq : c.buildRequest env "GET" url none = Except.ok req)
    (hdo : env.Do hc req = Except.ok resp)
    (h2xx : 200 ≤ resp.StatusCode ∧ resp.StatusCode < 300)
    (hread : resp.Body.readErr = none) :
    (∀ (ff : F → Option String) (st : ApiResponseStatus) (devs : List (DeviceInfo F))
      (j : JSON), FloatRoundTrips env.ParseFloat ff → st.WellFormed →
      (∀ d ∈ devs, d.WellFormed env.ParseFloat) →
      discoveryEnvelope ff st devs = Except.ok j → j.depth ≤ maxNestingDepth →
      resp.Body.data = String.mk (printJSON j) →
      c.GetDevices env = Outcome.returned devs none) ∧
    (∀ (pre post : List (String × JSON)) (k : String) (elems : List JSON)
      (devs : List (DeviceInfo F)),
      parseJSON resp.Body.data = some (JSON.obj (pre ++ (k, JSON.arr elems) :: post)) →
      lookupField discoveryTags k = some "data" →
      (∀ m ∈ pre ++ post,
        lookupField discoveryTags m.1 ≠ some "data" ∧ statusMemberOk discoveryTags m = true) →
      List.Forall₂
        (fun e d => DeviceInfo.decode env.ParseFloat DeviceInfo.zero e = Except.ok d)
        elems devs →
      c.GetDevices env = Outcome.returned devs none ∧ devs.length = elems.length) ∧
    (∀ (dms : List (String × JSON)) (cur : DeviceInfo F),
      DeviceInfo.decode env.ParseFloat cur (JSON.obj dms) =
        DeviceInfo.decode env.ParseFloat cur
          (JSON.obj (dms.filter (fun m => (lookupField deviceTags m.1).isSome)))) ∧
    (∀ (dms : List (String × JSON)) (d : DeviceInfo F),
      DeviceInfo.decode env.ParseFloat DeviceInfo.zero (JSON.obj dms) = Except.ok d →
      (∀ m ∈ dms, lookupField deviceTags m.1 = some "capabilities" → m.2 = JSON.arr []) →
      d.Capabilities.elems = []) := by
  have hbody : ∀ final : DiscoveryApiResponse F,
      unmarshalDiscoveryApiResponse env.ParseFloat resp.Body.data = Except.ok final →
      c.GetDevices env = Outcome.returned final.Data.elems none :=
    GetDevices_of_body env c hc url req resp hclient hurl hreq hdo h2xx hread
  refine ⟨?_, ?_, ?_, ?_⟩
  · intro ff st devs j hff hst hdevs hj hdepth htext
    obtain ⟨j2, e1, e2, final, e3, e4⟩ :=
      discoveryEnvelope_decode env.ParseFloat ff hff st devs hst hdevs
    have hjj : j2 = j := by
      rw [hj] at e1
      injection e1 with e1
      exact e1.symm
    subst hjj
    have := hbody final (by
      unfold unmarshalDiscoveryApiResponse
      rw [htext, parseJSON_printJSON j2 e2 hdepth]
      exact e3)
    rw [this, e4]
    rfl
  · intro pre post k elems devs hparse hk hothers hdevs
    obtain ⟨final, hfinal, hdata⟩ :=
      DiscoveryApiResponse_decode_data env.ParseFloat pre post k elems devs hk hothers hdevs
    refine ⟨?_, hdevs.length_eq.symm⟩
    have := hbody final (by
      unfold unmarshalDiscoveryApiResponse
      rw [hparse]
      exact hfinal)
    rw [this, hdata]
    rfl
  · intro dms cur
    exact DeviceInfo_decodeMembers_filter env.ParseFloat dms cur
  · intro dms d hdec hcap
    rw [DeviceInfo_decode_no_capabilities env.ParseFloat dms d hdec hcap]
    rfl

/-- C7: take a 2xx response to `GetDeviceState` whose body was read without
error.  If the body is the compact text of the state envelope of a status and
of a payload (`null` for the nil device, else the JSON shape of a device with
well-formed strings and numbers, within the nesting limit), `GetDeviceState`
returns exactly that payload and no error.  More generally, if the body scans
to an object whose members are unknown or fit the status field they select,
`GetDeviceState` returns the nil device and no error when no member selects
`payload` or every one that does holds `null`, and returns the decoded device
and no error when the one member selecting `payload` holds a device object. -/
theorem GetDeviceState_returns_payload {F : Type} (env : Env F) (c : Client) (hc : HttpClient)
    (device : DeviceInfo F) (url : String) (req : Request) (resp : Response)
    (hclient : c.HTTPClient = some hc)
    (hurl : urlJoinPath goveeApiUrl goveeDeviceState = Except.ok url)
    (hreq : c.buildRequest env "POST" url (some (stateRequestPayload device)) = Except.ok req)
    (hdo : env.Do hc req = Except.ok resp)
    (h2xx : 200 ≤ resp.StatusCode ∧ resp.StatusCode < 300)
    (hread : resp.Body.readErr = none) :
    (∀ (ff : F → Option String) (st : ApiResponseStatus) (payload : Option (DeviceInfo F))
      (j : JSON), FloatRoundTrips env.ParseFloat ff → st.WellFormed →
      (∀ d, payload = some d → d.WellFormed env.ParseFloat) →
      stateEnvelope ff st payload = Except.ok j → j.depth ≤ maxNestingDepth →
      resp.Body.data = String.mk (printJSON j) →
      c.GetDeviceState env device = Outcome.returned payload none) ∧
    (∀ (ms : List (String × JSON)), parseJSON resp.Body.data = some (JSON.obj ms) →
      (∀ m ∈ ms, (lookupField stateTags m.1 = some "payload" → m.2 = JSON.null) ∧
        statusMemberOk stateTags m = true) →
      c.GetDeviceState env device = Outcome.returned none none) ∧
    (∀ (pre post : List (String × JSON)) (k : String) (dms : List (String × JSON))
      (d : DeviceInfo F),
      parseJSON resp.Body.data = some (JSON.obj (pre ++ (k, JSON.obj dms) :: post)) →
      lookupField stateTags k = some "payload" →
      (∀ m ∈ pre ++ post,
        lookupField stateTags m.1 ≠ some "payload" ∧ statusMemberOk stateTags m = true) →
      DeviceInfo.decode env.ParseFloat DeviceInfo.zero (JSON.obj dms) = Except.ok d →
      c.GetDeviceState env device = Outcome.returned (some d) none) := by
  have hbody : ∀ final : DeviceStateApiResponse F,
      unmarshalDeviceStateApiResponse env.ParseFloat resp.Body.data = Except.ok final →
      c.GetDeviceState env device = Outcome.returned final.Payload none :=
    GetDeviceState_of_body env c hc device url req resp hclient hurl hreq hdo h2xx hread
  refine ⟨?_, ?_, ?_⟩
  · intro ff st payload j hff hst hdev hj hdepth htext
    obtain ⟨j2, e1, e2, final, e3, e4⟩ :=
      stateEnvelope_decode env.ParseFloat ff hff st payload hst hdev
    have hjj : j2 = j := by
      rw [hj] at e1
      injection e1 with e1
      exact e1.symm
    subst hjj
    rw [← e4]
    refine hbody final ?_
    unfold unmarshalDeviceStateApiResponse
    rw [htext, parseJSON_printJSON j2 e2 hdepth]
    exact e3
  · intro ms hparse hms
    obtain ⟨final, hfinal, hp⟩ := DeviceStateApiResponse_decode_null env.ParseFloat ms hms
    rw [← hp]
    refine hbody final ?_
    unfold unmarshalDeviceStateApiResponse
    rw [hparse]
    exact hfinal
  · intro pre post k dms d hparse hk hothers hdev
    obtain ⟨final, hfinal, hp⟩ :=
      DeviceStateApiResponse_decode_device env.ParseFloat pre post k dms d hk hothers hdev
    rw [← hp]
    refine hbody final ?_
    unfold unmarshalDeviceStateApiResponse
    rw [hparse]
    exact hfinal

/-! ### The closed examples -/

theorem inInt64_zero : inInt64 0 := by
  unfold inInt64
  decide

theorem inInt64_200 : inInt64 200 := by
  unfold inInt64
  decide

theorem exampleStatus_WellFormed (requestId msg : String) :
    ApiResponseStatus.WellFormed ⟨goString requestId, 200, goString msg⟩ :=
  ⟨⟨requestId, rfl⟩, inInt64_200, ⟨msg, rfl⟩⟩

theorem exampleDiscoveredDevice_WellFormed : exampleDiscoveredDevice.WellFormed parseInt :=
  ⟨⟨"H6160", rfl⟩, ⟨"d1", rfl⟩, ⟨"Light", rfl⟩, ⟨"devices.types.light", rfl⟩, rfl,
    fun _ h => absurd h (List.not_mem_nil _)⟩

theorem exampleStateDevice_WellFormed : exampleStateDevice.WellFormed parseInt := by
  refine ⟨⟨"H6160", rfl⟩, ⟨"d1", rfl⟩, ⟨"", rfl⟩, ⟨"", rfl⟩, rfl, ?_⟩
  intro cap hcap
  have hcap2 : cap = ⟨goString "devices.capabilities.on_off", goString "powerSwitch",
      Parameter.zero, ⟨GoValue.float64 1⟩⟩ := by
    simpa [exampleStateDevice, Slice.ofList] using hcap
  subst hcap2
  refine ⟨⟨"devices.capabilities.on_off", rfl⟩, ⟨"powerSwitch", rfl⟩, ?_, ⟨"1", rfl⟩⟩
  exact ⟨⟨"", rfl⟩, ⟨"", rfl⟩, ⟨rfl, fun _ h => absurd h (List.not_mem_nil _)⟩,
    ⟨inInt64_zero, inInt64_zero, inInt64_zero⟩, ⟨rfl, fun _ h => absurd h (List.not_mem_nil _)⟩⟩

set_option maxRecDepth 100000 in
/-- Witness of C8: the discovery body of the specification yields exactly one
device, with SKU "H6160" and no capabilities; the body laid out over several
lines yields its two devices, the first with its capabilities and their
parameters. -/
theorem GetDevices_returns_data_array_witness :
    exampleClient.GetDevices (exampleEnv responseDiscovery) =
      Outcome.returned [exampleDiscoveredDevice] none ∧
    exampleDiscoveredDevice.SKU = goString "H6160" ∧
    exampleDiscoveredDevice.Capabilities.elems = [] ∧
    exampleClient.GetDevices (exampleEnv responseSpacedDiscovery) =
      Outcome.returned [exampleHumidifier, exampleBareDevice] none :=
  ⟨(GetDevices_returns_data_array (exampleEnv responseDiscovery) exampleClient
      HttpClient.DefaultClient _ exampleDevicesRequest responseDiscovery
      rfl rfl rfl rfl (by decide) rfl).1
      exampleFormatFloat ⟨goString "r1", 200, goString "ok"⟩ [exampleDiscoveredDevice] _
      example_FloatRoundTrips (exampleStatus_WellFormed "r1" "ok")
      (fun d hd => by
        rw [List.mem_singleton.1 hd]
        exact exampleDiscoveredDevice_WellFormed)
      rfl (by decide) rfl,
   rfl, rfl,
   ((GetDevices_returns_data_array (exampleEnv responseSpacedDiscovery) exampleClient
      HttpClient.DefaultClient _ exampleDevicesRequest responseSpacedDiscovery
      rfl rfl rfl rfl (by decide) rfl).2.1
      [("requestId", JSON.str "r2"), ("code", JSON.num "200"), ("msg", JSON.str "success"),
        ("total", JSON.num "2")] [] "data" _ [exampleHumidifier, exampleBareDevice]
      rfl rfl (by decide)
      (List.Forall₂.cons rfl (List.Forall₂.cons rfl List.Forall₂.nil))).1⟩



set_option maxRecDepth 100000 in
/-- Witness of C7: a `null` payload and a missing payload yield the nil device;
a device payload yields the decoded device, for the body in the JSON shape of
the API, for a body laid out over several lines whose capabilities hold state
values of each kind, and for a body that names `capabilities` three times. -/
theorem GetDeviceState_returns_payload_witness :
    exampleClient.GetDeviceState (exampleEnv responseNullState) exampleDevice =
      Outcome.returned none none ∧
    exampleClient.GetDeviceState (exampleEnv responseNoPayloadState) exampleDevice =
      Outcome.returned none none ∧
    exampleClient.GetDeviceState (exampleEnv responseShapeState) exampleDevice =
      Outcome.returned (some exampleStateDevice) none ∧
    exampleClient.GetDeviceState (exampleEnv responseState) exampleDevice =
      Outcome.returned (some exampleStateDevice) none ∧
    exampleClient.GetDeviceState (exampleEnv responseSpacedState) exampleDevice =
      Outcome.returned (some exampleHumidifierState) none ∧
    exampleClient.GetDeviceState (exampleEnv responseRepeatedState) exampleDevice =
      Outcome.returned (some exampleRepeatedStateDevice) none :=
  ⟨(GetDeviceState_returns_payload (exampleEnv responseNullState) exampleClient
      HttpClient.DefaultClient exampleDevice _ exampleStateRequest responseNullState
      rfl rfl rfl rfl (by decide) rfl).1
      exampleFormatFloat ⟨goString "uuid", 200, goString "success"⟩ none _
      example_FloatRoundTrips (exampleStatus_WellFormed "uuid" "success")
      (fun _ h => absurd h (by simp)) rfl (by decide) rfl,
   (GetDeviceState_returns_payload (exampleEnv responseNoPayloadState) exampleClient
      HttpClient.DefaultClient exampleDevice _ exampleStateRequest responseNoPayloadState
      rfl rfl rfl rfl (by decide) rfl).2.1
      [("requestId", JSON.str "uuid"), ("code", JSON.num "200"), ("msg", JSON.str "success")]
      rfl
      (by
        intro m hm
        simp only [List.mem_cons, List.mem_nil_iff, or_false] at hm
        rcases hm with rfl | rfl | rfl
        · exact ⟨fun h => absurd h (by decide), by decide⟩
        · exact ⟨fun h => absurd h (by decide), by decide⟩
        · exact ⟨fun h => absurd h (by decide), by decide⟩),
   (GetDeviceState_returns_payload (exampleEnv responseShapeState) exampleClient
      HttpClient.DefaultClient exampleDevice _ exampleStateRequest responseShapeState
      rfl rfl rfl rfl (by decide) rfl).1
      exampleFormatFloat ⟨goString "uuid", 200, goString "success"⟩ (some exampleStateDevice) _
      example_FloatRoundTrips (exampleStatus_WellFormed "uuid" "success")
      (fun d h => by
        injection h with h
        rw [← h]
        exact exampleStateDevice_WellFormed)
      rfl (by decide) rfl,
   (GetDeviceState_returns_payload (exampleEnv responseState) exampleClient
      HttpClient.DefaultClient exampleDevice _ exampleStateRequest responseState
      rfl rfl rfl rfl (by decide) rfl).2.2
      [("requestId", JSON.str "uuid"), ("code", JSON.num "200"), ("msg", JSON.str "success")] []
      "payload" _ exampleStateDevice rfl rfl (by decide) rfl,
   (GetDeviceState_returns_payload (exampleEnv responseSpacedState) exampleClient
      HttpClient.DefaultClient exampleDevice _ exampleStateRequest responseSpacedState
      rfl rfl rfl rfl (by decide) rfl).2.2
      [("requestId", JSON.str "uuid"), ("msg", JSON.str "success"), ("code", JSON.num "200")] []
      "payload" _ exampleHumidifierState rfl rfl (by decide) rfl,
   (GetDeviceState_returns_payload (exampleEnv responseRepeatedState) exampleClient
      HttpClient.DefaultClient exampleDevice _ exampleStateRequest responseRepeatedState
      rfl rfl rfl rfl (by decide) rfl).2.2
      [("code", JSON.num "200")] [] "payload" _ exampleRepeatedStateDevice
      rfl rfl (by decide) rfl⟩

/-! ### The nesting limit of the scanner -/

/-- What the scanner accepts nests within `maxNestingDepth`: a value scanned
with `depth` arrays and objects open has depth at most what is left. -/
theorem parse_depth (fuel : Nat) :
    (∀ depth cs v rest, parseValue fuel depth cs = some (v, rest) → depth ≤ maxNestingDepth →
      depth + v.depth ≤ maxNestingDepth) ∧
    (∀ depth cs vs rest, parseElems fuel depth cs = some (vs, rest) →
      depth ≤ maxNestingDepth → depth + JSON.depthElems vs ≤ maxNestingDepth) ∧
    (∀ depth cs ms rest, parseMembers fuel depth cs = some (ms, rest) →
      depth ≤ maxNestingDepth → depth + JSON.depthMembers ms ≤ maxNestingDepth) := by
  induction fuel with
  | zero =>
    refine ⟨?_, ?_, ?_⟩ <;> intro depth cs v rest h
    · simp [parseValue] at h
    · simp [parseElems] at h
    · simp [parseMembers] at h
  | succ f ih =>
    obtain ⟨ihv, ihe, ihm⟩ := ih
    refine ⟨?_, ?_, ?_⟩
    · intro depth cs v rest h hd
      rw [parseValue] at h
      cases hsk : skipSpace cs with
      | nil => simp [hsk] at h
      | cons c rest0 =>
        simp only [hsk] at h
        split_ifs at h with h1 h2 h3 h4 h5 h6 h7 h8
        · cases hsk2 : skipSpace rest0 with
          | nil => simp [hsk2] at h
          | cons c1 rest1 =>
            simp only [hsk2] at h
            split_ifs at h with h9
            · simp only [Option.some.injEq, Prod.mk.injEq] at h
              rw [← h.1]
              simp only [JSON.depth, JSON.depthMembers]
              omega
            · cases hp : parseMembers f (depth + 1) rest0 with
              | none => simp [hp] at h
              | some p =>
                obtain ⟨ms, r2⟩ := p
                simp only [hp, Option.some.injEq, Prod.mk.injEq] at h
                have := ihm _ _ _ _ hp (by omega)
                rw [← h.1]
                simp only [JSON.depth]
                omega
        · cases hsk2 : skipSpace rest0 with
          | nil => simp [hsk2] at h
          | cons c1 rest1 =>
            simp only [hsk2] at h
            split_ifs at h with h9
            · simp only [Option.some.injEq, Prod.mk.injEq] at h
              rw [← h.1]
              simp only [JSON.depth, JSON.depthElems]
              omega
            · cases hp : parseElems f (depth + 1) rest0 with
              | none => simp [hp] at h
              | some p =>
                obtain ⟨es, r2⟩ := p
                simp only [hp, Option.some.injEq, Prod.mk.injEq] at h
                have := ihe _ _ _ _ hp (by omega)
                rw [← h.1]
                simp only [JSON.depth]
                omega
        · cases hp : parseStringBody rest0 with
          | none => simp [hp] at h
          | some p =>
            obtain ⟨s0, r2⟩ := p
            simp only [hp, Option.some.injEq, Prod.mk.injEq] at h
            rw [← h.1]
            simpa [JSON.depth] using hd
        · cases hp : stripWord "rue".data rest0 with
          | none => simp [hp] at h
          | some r2 =>
            simp only [hp, Option.some.injEq, Prod.mk.injEq] at h
            rw [← h.1]
            simpa [JSON.depth] using hd
        · cases hp : stripWord "alse".data rest0 with
          | none => simp [hp] at h
          | some r2 =>
            simp only [hp, Option.some.injEq, Prod.mk.injEq] at h
            rw [← h.1]
            simpa [JSON.depth] using hd
        · cases hp : stripWord "ull".data rest0 with
          | none => simp [hp] at h
          | some r2 =>
            simp only [hp, Option.some.injEq, Prod.mk.injEq] at h
            rw [← h.1]
            simpa [JSON.depth] using hd
        · cases hp : scanNumber (c :: rest0) with
          | none => simp [hp] at h
          | some p =>
            obtain ⟨lit, r2⟩ := p
            simp only [hp, Option.some.injEq, Prod.mk.injEq] at h
            rw [← h.1]
            simpa [JSON.depth] using hd
    · intro depth cs vs rest h hd
      rw [parseElems] at h
      cases hp : parseValue f depth cs with
      | none => simp [hp] at h
      | some p =>
        obtain ⟨v, r1⟩ := p
        simp only [hp] at h
        have h1 := ihv _ _ _ _ hp hd
        cases hsk : skipSpace r1 with
        | nil => simp [hsk] at h
        | cons c r2 =>
          simp only [hsk] at h
          split_ifs at h with h2 h3
          · cases hq : parseElems f depth r2 with
            | none => simp [hq] at h
            | some q =>
              obtain ⟨vs2, r3⟩ := q
              simp only [hq, Option.some.injEq, Prod.mk.injEq] at h
              have := ihe _ _ _ _ hq hd
              rw [← h.1]
              simp only [JSON.depthElems]
              omega
          · simp only [Option.some.injEq, Prod.mk.injEq] at h
            rw [← h.1]
            simp only [JSON.depthElems]
            omega
    · intro depth cs ms rest h hd
      rw [parseMembers] at h
      cases hsk : skipSpace cs with
      | nil => simp [hsk] at h
      | cons q rest0 =>
        simp only [hsk] at h
        split_ifs at h with h1
        cases hp : parseStringBody rest0 with
        | none => simp [hp] at h
        | some p =>
          obtain ⟨k, r1⟩ := p
          simp only [hp] at h
          cases hsk1 : skipSpace r1 with
          | nil => simp [hsk1] at h
          | cons col r2 =>
            simp only [hsk1] at h
            split_ifs at h with h2
            cases hv : parseValue f depth r2 with
            | none => simp [hv] at h
            | some pv =>
              obtain ⟨v, r3⟩ := pv
              simp only [hv] at h
              have hv1 := ihv _ _ _ _ hv hd
              cases hsk3 : skipSpace r3 with
              | nil => simp [hsk3] at h
              | cons c r4 =>
                simp only [hsk3] at h
                split_ifs at h with h3 h4
                · cases hq : parseMembers f depth r4 with
                  | none => simp [hq] at h
                  | some q =>
                    obtain ⟨ms2, r5⟩ := q
                    simp only [hq, Option.some.injEq, Prod.mk.injEq] at h
                    have := ihm _ _ _ _ hq hd
                    rw [← h.1]
                    simp only [JSON.depthMembers]
                    omega
                · simp only [Option.some.injEq, Prod.mk.injEq] at h
                  rw [← h.1]
                  simp only [JSON.depthMembers]
                  omega

theorem parseJSON_depth (text : String) (j : JSON) (h : parseJSON text = some j) :
    j.depth ≤ maxNestingDepth := by
  unfold parseJSON at h
  split at h
  · rename_i v rest hp
    have := (parse_depth _).1 _ _ _ _ hp (Nat.zero_le _)
    split at h
    · injection h with h
      rw [← h]
      omega
    · exact absurd h (by simp)
  · exact absurd h (by simp)

/-! ## The open state value of a capability, from text to text -/

theorem parseValue_nested_arrays (n : Nat) : ∀ (fuel depth : Nat) (rest : List Char),
    0 < n → maxNestingDepth < depth + n →
    parseValue fuel depth (List.replicate n '[' ++ rest) = none := by
  induction n with
  | zero =>
    intro _ _ _ h
    exact absurd h (by decide)
  | succ k ih =>
    intro fuel depth rest _ hd
    cases fuel with
    | zero => rfl
    | succ f =>
      rw [List.replicate_succ, List.cons_append, parseValue]
      have hsp : skipSpace ('[' :: (List.replicate k '[' ++ rest)) =
          '[' :: (List.replicate k '[' ++ rest) := skipSpace_cons _ _ (by decide)
      simp only [hsp, ↓reduceIte]
      by_cases hmax : maxNestingDepth ≤ depth
      · simp only [Char.reduceEq, ↓reduceIte, if_pos hmax]
      · simp only [Char.reduceEq, ↓reduceIte, if_neg hmax]
        have hk : 0 < k := by omega
        obtain ⟨k2, rfl⟩ : ∃ k2, k = k2 + 1 := ⟨k - 1, by omega⟩
        have hsp2 : skipSpace (List.replicate (k2 + 1) '[' ++ rest) =
            '[' :: (List.replicate k2 '[' ++ rest) := by
          rw [List.replicate_succ, List.cons_append]
          exact skipSpace_cons _ _ (by decide)
        simp only [hsp2, Char.reduceEq, ↓reduceIte]
        cases f with
        | zero => rfl
        | succ f2 =>
          rw [parseElems, ih f2 (depth + 1) rest hk (by omega)]

theorem parseValue_member_rejected (key body : List Char) (hplain : escapeAll key = key)
    (fuel depth : Nat) (hbody : ∀ f, parseValue f (depth + 1) body = none) :
    parseValue fuel depth ('\x7b' :: '"' :: (key ++ ('"' :: ':' :: body))) = none := by
  cases fuel with
  | zero => rfl
  | succ f =>
    rw [parseValue]
    have hsp : skipSpace ('\x7b' :: '"' :: (key ++ ('"' :: ':' :: body))) =
        '\x7b' :: '"' :: (key ++ ('"' :: ':' :: body)) := skipSpace_cons _ _ (by decide)
    have hsp2 : skipSpace ('"' :: (key ++ ('"' :: ':' :: body))) =
        '"' :: (key ++ ('"' :: ':' :: body)) := skipSpace_cons _ _ (by decide)
    have hsp3 : skipSpace (':' :: body) = ':' :: body := skipSpace_cons _ _ (by decide)
    simp only [hsp, ↓reduceIte]
    by_cases hmax : maxNestingDepth ≤ depth
    · simp only [if_pos hmax]
    · simp only [if_neg hmax, hsp2, Char.reduceEq, ↓reduceIte]
      cases f with
      | zero => rfl
      | succ f2 =>
        have hkey := parseStringBody_quote key (':' :: body)
        rw [hplain] at hkey
        rw [parseMembers]
        simp only [hsp2, ↓reduceIte, hkey, hsp3, hbody f2]

theorem parseJSON_none_of (text : String) (h : ∀ f, parseValue f 0 text.data = none) :
    parseJSON text = none := by
  unfold parseJSON
  rw [h]

theorem unmarshalCapability_of_parse_none {F : Type} (pf : String → Option F) (text : String)
    (h : parseJSON text = none) :
    unmarshalCapability pf text = Except.error "invalid JSON text" := by
  unfold unmarshalCapability
  rw [h]

theorem deepArrays_rejected (f : Nat) :
    parseValue f 3
      (List.replicate 9998 '[' ++ (List.replicate 9998 ']' ++ "\x7d\x7d\x7d".data)) = none :=
  parseValue_nested_arrays 9998 f 3 _ (by decide) (by decide)

theorem deepValue_rejected (f : Nat) :
    parseValue f 2 ('\x7b' :: '"' :: ("a".data ++ ('"' :: ':' ::
      (List.replicate 9998 '[' ++ (List.replicate 9998 ']' ++ "\x7d\x7d\x7d".data))))) = none :=
  parseValue_member_rejected "a".data _ rfl f 2 deepArrays_rejected

theorem deepState_rejected (f : Nat) :
    parseValue f 1 ('\x7b' :: '"' :: ("value".data ++ ('"' :: ':' :: '\x7b' :: '"' ::
      ("a".data ++ ('"' :: ':' ::
        (List.replicate 9998 '[' ++ (List.replicate 9998 ']' ++ "\x7d\x7d\x7d".data))))))) =
      none :=
  parseValue_member_rejected "value".data _ rfl f 1 deepValue_rejected

theorem deepCapability_rejected (f : Nat) :
    parseValue f 0 ('\x7b' :: '"' :: ("state".data ++ ('"' :: ':' :: '\x7b' :: '"' ::
      ("value".data ++ ('"' :: ':' :: '\x7b' :: '"' :: ("a".data ++ ('"' :: ':' ::
        (List.replicate 9998 '[' ++
          (List.replicate 9998 ']' ++ "\x7d\x7d\x7d".data))))))))) = none :=
  parseValue_member_rejected "state".data _ rfl f 0 deepState_rejected

theorem deepCapabilityText_data :
    deepCapabilityText.data = '\x7b' :: '"' :: ("state".data ++ ('"' :: ':' :: '\x7b' :: '"' ::
      ("value".data ++ ('"' :: ':' :: '\x7b' :: '"' :: ("a".data ++ ('"' :: ':' ::
        (List.replicate 9998 '[' ++
          (List.replicate 9998 ']' ++ "\x7d\x7d\x7d".data)))))))) := rfl

theorem deepCapabilityText_rejected : parseJSON deepCapabilityText = none :=
  parseJSON_none_of deepCapabilityText (fun f => by
    rw [deepCapabilityText_data]
    exact deepCapability_rejected f)

theorem depthMembers_le_of_mem (ms : List (String × JSON)) (k : String) (v : JSON)
    (h : (k, v) ∈ ms) : v.depth ≤ JSON.depthMembers ms := by
  induction ms with
  | nil => exact absurd h (List.not_mem_nil _)
  | cons m ms ih =>
    obtain ⟨k1, v1⟩ := m
    simp only [JSON.depthMembers]
    rcases List.mem_cons.1 h with h1 | h1
    · injection h1 with _ h2
      rw [h2]
      omega
    · have := ih h1
      omega

/-- C9 (as amended): take the text of a capability that the scanner of
`encoding/json` accepts, so that it nests no deeper than 10000 levels, the
capability, its state and the value counted.  Let its one member selecting
`state` hold an object whose one member selecting `value` holds a JSON object,
the other members of the capability decoding on their own.  If no object
inside the value names a key twice and `ParseFloat` accepts every number
literal of the value (`float64` formatting round-trips), then decoding the
capability succeeds, the decoded `State.Value` carries every key and leaf of
the JSON object (a number as the `float64` its literal converts to), and
marshalling that value and unmarshalling the text yields a value equal to it. -/
theorem state_value_roundtrip {F : Type} [DecidableEq F] (pf : String → Option F)
    (ff : F → Option String) (hc : FloatRoundTrips pf ff) (text : String)
    (pre post spre spost : List (String × JSON)) (k ks : String)
    (ms : List (String × JSON)) (c0 : Capability F)
    (hparse : parseJSON text =
      some (JSON.obj (pre ++ (k, JSON.obj (spre ++ (ks, JSON.obj ms) :: spost)) :: post)))
    (hk : lookupField capabilityTags k = some "state")
    (hothers : ∀ m ∈ pre ++ post, lookupField capabilityTags m.1 ≠ some "state")
    (hrest : Capability.decode pf Capability.zero (JSON.obj (pre ++ post)) = Except.ok c0)
    (hks : lookupField stateValueTags ks = some "value")
    (hsothers : ∀ m ∈ spre ++ spost, lookupField stateValueTags m.1 ≠ some "value")
    (hkeys : (JSON.obj ms).DistinctKeys) (hnums : (JSON.obj ms).NumbersParse pf) :
    ∃ v, unmarshalCapability pf text = Except.ok { c0 with State := ⟨v⟩ } ∧
      carries pf (JSON.obj ms) v = true ∧
      ∃ text2, jsonMarshalInterface ff v = Except.ok text2 ∧
        unmarshalInterface pf text2 = Except.ok v := by
  have hwhole := parseJSON_depth text _ hparse
  have h1 := depthMembers_le_of_mem
    (pre ++ (k, JSON.obj (spre ++ (ks, JSON.obj ms) :: spost)) :: post) k
    (JSON.obj (spre ++ (ks, JSON.obj ms) :: spost)) (by simp)
  have h2 := depthMembers_le_of_mem (spre ++ (ks, JSON.obj ms) :: spost) ks (JSON.obj ms)
    (by simp)
  have hdepth : (JSON.obj ms).depth ≤ maxNestingDepth := by
    simp only [JSON.depth] at hwhole h1 h2 ⊢
    omega
  obtain ⟨v, e1, e2, e3⟩ := interface_roundtrip pf ff hc (JSON.obj ms) hnums hkeys hdepth
  refine ⟨v, ?_, e2, e3⟩
  unfold unmarshalCapability
  rw [hparse]
  exact Capability_decode_state pf pre post k _ c0 ⟨v⟩ hk hothers hrest
    (State_decode_value pf spre spost ks (JSON.obj ms) v hks hsothers e1)

theorem literal_FloatRoundTrips : FloatRoundTrips literalParseFloat literalFormatFloat := by
  intro lit f h
  unfold literalParseFloat at h
  by_cases hv : validNumber lit ∧ float64InRange lit = true
  · rw [if_pos hv] at h
    injection h with h
    subst h
    exact ⟨lit, rfl, hv.1, by simp [literalParseFloat, hv]⟩
  · rw [if_neg hv] at h
    exact absurd h (by simp)

theorem decodeInterface_duplicateKeyValue :
    decodeInterface literalParseFloat duplicateKeyValue =
      Except.ok (GoValue.map [("a", GoValue.string "y")]) := by
  simp [duplicateKeyValue, decodeInterface, decodeInterfaceMembers, mapSet]

set_option exponentiation.threshold 2000 in
set_option maxRecDepth 100000 in
theorem decodeInterface_exampleStructValue :
    decodeInterface literalParseFloat exampleStructValue = Except.ok exampleStructGoValue := by
  have h1 : literalParseFloat "1" = some "1" := rfl
  have h2 : literalParseFloat "-2.5e3" = some "-2.5e3" := rfl
  have hab : ("a" : String) < "b" := by
    simp
    decide
  simp only [exampleStructValue, exampleStructGoValue, decodeInterface, decodeInterfaceElems,
    decodeInterfaceMembers, h1, h2, mapSet, if_pos hab]

set_option exponentiation.threshold 2000 in
set_option maxRecDepth 100000 in
/-- Counterexample to C9, at three capabilities whose state value is a JSON
object.  The one with the members `a: "x"` and `a: "y"` is decoded without
error, but the decoded `State.Value` is the map with the single entry
`a: "y"`: it does not carry the leaf "x".  The one with the number `1e999`,
beyond the range of `float64`, is refused.  The one whose value holds 9998
nested arrays, and so nests 9999 deep itself and 10001 deep counted from the
capability, is refused by the scanner. -/
theorem state_value_dropped_or_refused :
    (unmarshalCapability literalParseFloat duplicateKeyCapabilityText =
      Except.ok ⟨goString "devices.capabilities.mode", goString "m", Parameter.zero,
        ⟨GoValue.map [("a", GoValue.string "y")]⟩⟩ ∧
     parseJSON duplicateKeyCapabilityText =
      some (capabilityJSON "devices.capabilities.mode" "m" duplicateKeyValue) ∧
     carries literalParseFloat duplicateKeyValue (GoValue.map [("a", GoValue.string "y")]) =
      false) ∧
    (∃ err, unmarshalCapability literalParseFloat outOfRangeCapabilityText =
      Except.error err) ∧
    (∃ err, unmarshalCapability literalParseFloat deepCapabilityText = Except.error err) := by
  have hparse : parseJSON duplicateKeyCapabilityText =
      some (capabilityJSON "devices.capabilities.mode" "m" duplicateKeyValue) := rfl
  refine ⟨⟨?_, hparse, ?_⟩, ⟨_, rfl⟩, ?_⟩
  · unfold unmarshalCapability
    rw [hparse]
    exact Capability_decode_state literalParseFloat
      [("type", JSON.str "devices.capabilities.mode"), ("instance", JSON.str "m")] [] "state"
      (JSON.obj [("value", duplicateKeyValue)])
      ⟨goString "devices.capabilities.mode", goString "m", Parameter.zero, State.zero⟩ _
      (by decide) (by decide) rfl
      (State_decode_value literalParseFloat [] [] "value" duplicateKeyValue _ (by decide)
        (by simp) decodeInterface_duplicateKeyValue)
  · simp [duplicateKeyValue, carries, carriesMembers, mapGet]
  · exact ⟨"invalid JSON text",
      unmarshalCapability_of_parse_none _ _ deepCapabilityText_rejected⟩

set_option exponentiation.threshold 2000 in
set_option maxRecDepth 100000 in
/-- Witness of C9 (as amended) at a capability text laid out with spaces, whose
state value nests an array, numbers, a string, a boolean, `null` and an inner
object: the decoded value, the text it is marshalled to, and the value that
text decodes to. -/
theorem state_value_roundtrip_witness :
    unmarshalCapability literalParseFloat exampleStructCapabilityText =
      Except.ok ⟨goString "devices.capabilities.mode", goString "m", Parameter.zero,
        ⟨exampleStructGoValue⟩⟩ ∧
    carries literalParseFloat exampleStructValue exampleStructGoValue = true ∧
    jsonMarshalInterface literalFormatFloat exampleStructGoValue =
      Except.ok exampleStructValueText ∧
    unmarshalInterface literalParseFloat exampleStructValueText =
      Except.ok exampleStructGoValue := by
  obtain ⟨v, h1, h2, text2, h3, h4⟩ := state_value_roundtrip literalParseFloat
    literalFormatFloat literal_FloatRoundTrips exampleStructCapabilityText
    [("type", JSON.str "devices.capabilities.mode"), ("instance", JSON.str "m")] [] [] []
    "state" "value"
    [("b", JSON.arr [JSON.num "1", JSON.str "s", JSON.bool true, JSON.null]),
      ("a", JSON.obj [("x", JSON.num "-2.5e3")])]
    ⟨goString "devices.capabilities.mode", goString "m", Parameter.zero, State.zero⟩
    rfl (by decide) (by decide) rfl (by decide) (by simp)
    (by simp [JSON.DistinctKeys, JSON.DistinctKeysMembers, JSON.DistinctKeysElems])
    (by
      simp only [JSON.NumbersParse, JSON.NumbersParseMembers, JSON.NumbersParseElems]
      decide)
  have hdirect : unmarshalCapability literalParseFloat exampleStructCapabilityText =
      Except.ok ⟨goString "devices.capabilities.mode", goString "m", Parameter.zero,
        ⟨exampleStructGoValue⟩⟩ := by
    have hp : parseJSON exampleStructCapabilityText =
        some (capabilityJSON "devices.capabilities.mode" "m" exampleStructValue) := rfl
    unfold unmarshalCapability
    rw [hp]
    exact Capability_decode_state literalParseFloat
      [("type", JSON.str "devices.capabilities.mode"), ("instance", JSON.str "m")] [] "state"
      (JSON.obj [("value", exampleStructValue)])
      ⟨goString "devices.capabilities.mode", goString "m", Parameter.zero, State.zero⟩ _
      (by decide) (by decide) rfl
      (State_decode_value literalParseFloat [] [] "value" exampleStructValue _ (by decide)
        (by simp) decodeInterface_exampleStructValue)
  have hv : v = exampleStructGoValue := by
    rw [hdirect] at h1
    injection h1 with h1
    injection h1 with _ _ _ h1
    injection h1 with h1
    exact h1.symm
  subst hv
  have ht : text2 = exampleStructValueText := by
    have : jsonMarshalInterface literalFormatFloat exampleStructGoValue =
        Except.ok exampleStructValueText := rfl
    rw [this] at h3
    injection h3 with h3
    exact h3.symm
  subst ht
  exact ⟨hdirect, h2, h3, h4⟩

end Govee
